import Mathlib

/-! Kiali `status/versions.go`: version classification and compatibility.

A shallow embedding of `status/versions.go`.

* Go strings are modelled by their sequence of runes, `Str = List Char`
  (valid UTF-8 text; the patterns and separators of this file are ASCII, so
  rune-wise and byte-wise processing agree on such text).
* `regexp` is modelled by a backtracking matcher with Go's leftmost-first
  preference (greedy repetition, left alternative first) over the fragment of
  the syntax that the seven patterns of the file use.
* `github.com/hashicorp/go-version` and `config.NewCompatibilityMatrix` are
  not among the sources: they are parameters of the functions that call them.
* A run-time panic (an index out of range) is the result `none`.
-/

namespace Kiali

/-- A Go string, as the list of its runes. -/
abbrev Str := List Char

/-! ## The fragment of `regexp` used by versions.go -/

/-- Regular expressions: the constructs that occur in the seven patterns.
Repetition is only ever applied to a single character class there. -/
inductive Regex where
  | eps : Regex
  | cls (p : Char → Bool) : Regex
  | star (p : Char → Bool) : Regex
  | seq (a b : Regex) : Regex
  | alt (a b : Regex) : Regex
  | group (i : Nat) (r : Regex) : Regex

namespace Regex

/-- A literal character. -/
def chr (c : Char) : Regex := cls (fun x => x == c)

/-- A literal text. -/
def lit : Str → Regex
  | [] => eps
  | c :: cs => seq (chr c) (lit cs)

/-- Greedy `x+` over a character class: one `x`, then `x*`. -/
def plus (p : Char → Bool) : Regex := seq (cls p) (star p)

/-- Counted repetition `x{n}` over a character class. -/
def rep : Nat → (Char → Bool) → Regex
  | 0, _ => eps
  | n + 1, p => seq (cls p) (rep n p)

/-- Number of capturing groups (they are numbered 1, 2, ... in the patterns). -/
def NumSubexp : Regex → Nat
  | eps => 0
  | cls _ => 0
  | star _ => 0
  | seq a b => max a.NumSubexp b.NumSubexp
  | alt a b => max a.NumSubexp b.NumSubexp
  | group i r => max i r.NumSubexp

end Regex

/-- The submatch slots of one match: slot 0 is the whole match, slot `i` the
text of group `i`, the empty string for a group that took no part. -/
abbrev Caps := List Str

/-- Greedy `x*`: take as many characters of the class as possible, give back
one at a time while the rest of the pattern fails. -/
def starRun {α : Type} (p : Char → Bool) : Str → (Str → Option α) → Option α
  | [], k => k []
  | x :: t, k =>
    if p x then
      match starRun p t k with
      | some r => some r
      | none => k (x :: t)
    else k (x :: t)

/-- Backtracking matcher in continuation-passing style. `run re s c k` matches
`re` at the start of `s` with submatches `c` so far and hands the remaining
input and the updated submatches to `k`; the first success in preference order
is the result. -/
def Regex.run {α : Type} : Regex → Str → Caps → (Str → Caps → Option α) → Option α
  | .eps, s, c, k => k s c
  | .cls p, s, c, k =>
    match s with
    | [] => none
    | x :: t => if p x then k t c else none
  | .star p, s, c, k => starRun p s (fun rest => k rest c)
  | .seq a b, s, c, k => a.run s c (fun rest c1 => b.run rest c1 k)
  | .alt a b, s, c, k =>
    match a.run s c k with
    | some r => some r
    | none => b.run s c k
  | .group i r, s, c, k =>
    r.run s c (fun rest c1 => k rest (c1.set i (s.take (s.length - rest.length))))

/-- A match that starts at the first character of `s`. -/
def matchAt (re : Regex) (s : Str) : Option Caps :=
  re.run s (List.replicate (re.NumSubexp + 1) [])
    (fun rest c => some (c.set 0 (s.take (s.length - rest.length))))

/-- Model of `(*Regexp).FindStringSubmatch`: the leftmost match, as the slice of
the whole match followed by the groups; `none` is Go's `nil`. -/
def FindStringSubmatch (re : Regex) : Str → Option Caps
  | [] => matchAt re []
  | x :: t =>
    match matchAt re (x :: t) with
    | some c => some c
    | none => FindStringSubmatch re t

/-! ### Character classes -/

/-- Class `[0-9]`, also written `\d`. -/
def digit (c : Char) : Bool := c.isDigit

/-- Class `[[:alnum:]]`. -/
def alnum (c : Char) : Bool := c.isAlphanum

/-- Class `.`: any character but a line feed. -/
def anyChar (c : Char) : Bool := c != '\n'

/-! ### The seven patterns -/

open Regex in
/-- The text `[0-9]+\.[0-9]+\.[0-9]+`. -/
def threeNumbers : Regex :=
  seq (plus digit) (seq (chr '.') (seq (plus digit) (seq (chr '.') (plus digit))))

open Regex in
/-- The text `[0-9]+\.[0-9]+`, also written `\d+\.\d+`. -/
def twoNumbers : Regex :=
  seq (plus digit) (seq (chr '.') (plus digit))

open Regex in
/-- Pattern `maistra-([0-9]+\.[0-9]+\.[0-9]+)`. -/
def maistraProductVersionExpr : Regex :=
  seq (lit "maistra-".toList) (group 1 threeNumbers)

open Regex in
/-- Pattern `(?:OSSM_|openshift-service-mesh-)([0-9]+\.[0-9]+\.[0-9]+)`. -/
def ossmVersionExpr : Regex :=
  seq (alt (lit "OSSM_".toList) (lit "openshift-service-mesh-".toList)) (group 1 threeNumbers)

open Regex in
/-- Pattern `(?:Maistra_|openshift-istio.*-)([0-9]+\.[0-9]+\.[0-9]+)`. -/
def maistraProjectVersionExpr : Regex :=
  seq (alt (lit "Maistra_".toList)
        (seq (lit "openshift-istio".toList) (seq (star anyChar) (chr '-'))))
    (group 1 threeNumbers)

open Regex in
/-- Pattern `(\d+\.\d+)-alpha\.([[:alnum:]]+)-.*|(\d+\.\d+)-dev-([[:alnum:]]+)-.*`. -/
def istioDevVersionExpr : Regex :=
  alt
    (seq (group 1 twoNumbers) (seq (lit "-alpha.".toList)
      (seq (group 2 (plus alnum)) (seq (chr '-') (star anyChar)))))
    (seq (group 3 twoNumbers) (seq (lit "-dev-".toList)
      (seq (group 4 (plus alnum)) (seq (chr '-') (star anyChar)))))

open Regex in
/-- Pattern `(\d+\.\d+.\d+)-((?:alpha|beta|rc|RC)\.\d+)`; the second dot of the
first group is not escaped in the source, it is the class `.`. -/
def istioRCVersionExpr : Regex :=
  seq (group 1 (seq (plus digit) (seq (chr '.') (seq (plus digit) (seq (cls anyChar) (plus digit))))))
    (seq (chr '-')
      (group 2 (seq (alt (lit "alpha".toList) (alt (lit "beta".toList)
                      (alt (lit "rc".toList) (lit "RC".toList))))
                (seq (chr '.') (plus digit)))))

open Regex in
/-- Pattern `istio-release-([0-9]+\.[0-9]+)(-[0-9]{8})`. -/
def istioSnapshotVersionExpr : Regex :=
  seq (lit "istio-release-".toList)
    (seq (group 1 twoNumbers) (group 2 (seq (chr '-') (rep 8 digit))))

open Regex in
/-- Pattern `([0-9]+\.[0-9]+\.[0-9]+)`. -/
def istioVersionExpr : Regex := group 1 threeNumbers

/-! ## Product names -/

def istioProductNameMaistra : Str := "Maistra".toList
def istioProductNameMaistraProject : Str := "Maistra Project".toList
def istioProductNameOSSM : Str := "OpenShift Service Mesh".toList
def istioProductNameUpstream : Str := "Istio".toList
def istioProductNameUpstreamSnapshot : Str := "Istio Snapshot".toList
def istioProductNameUpstreamRC : Str := "Istio RC".toList
def istioProductNameUpstreamDev : Str := "Istio Dev".toList
def istioProductNameUnknown : Str := "Unknown Istio Implementation".toList

/-- The record a version fetcher returns. -/
structure ExternalServiceInfo where
  Name : Str
  Version : Str
  Url : Str
  deriving DecidableEq

/-! ## Helpers from `strings` -/

/-- Model of `strings.Contains`. -/
def stringsContains (s sub : Str) : Bool :=
  match s with
  | [] => sub.isPrefixOf []
  | x :: t => sub.isPrefixOf (x :: t) || stringsContains t sub

/-! ## parseIstioRawVersion -/

/-- Embedding of `parseIstioRawVersion`. The debug log lines are omitted. -/
def parseIstioRawVersion (rawVersion : Str) : ExternalServiceInfo :=
  let product : ExternalServiceInfo := { Name := "Unknown".toList, Version := "Unknown".toList, Url := [] }
  match (match FindStringSubmatch maistraProductVersionExpr rawVersion with
         | some arr => if arr.length > 1 then
             some { product with Name := istioProductNameMaistra, Version := arr.getD 1 [] }
           else none
         | none => none) with
  | some p => p
  | none =>
  match (match FindStringSubmatch maistraProjectVersionExpr rawVersion with
         | some arr => if arr.length > 1 then
             some { product with Name := istioProductNameMaistraProject, Version := arr.getD 1 [] }
           else none
         | none => none) with
  | some p => p
  | none =>
  match (match FindStringSubmatch ossmVersionExpr rawVersion with
         | some arr => if arr.length > 1 then
             some { product with Name := istioProductNameOSSM, Version := arr.getD 1 [] }
           else none
         | none => none) with
  | some p => p
  | none =>
  match (match FindStringSubmatch istioSnapshotVersionExpr rawVersion with
         | some arr => if arr.length > 2 then
             some { product with Name := istioProductNameUpstreamSnapshot,
                                 Version := arr.getD 1 [] ++ arr.getD 2 [] }
           else none
         | none => none) with
  | some p => p
  | none =>
  match (match FindStringSubmatch istioRCVersionExpr rawVersion with
         | some arr => if arr.length > 2 then
             some { product with Name := istioProductNameUpstreamRC,
                                 Version := arr.getD 1 [] ++ " (".toList ++ arr.getD 2 [] ++ ")".toList }
           else none
         | none => none) with
  | some p => p
  | none =>
  match (match FindStringSubmatch istioDevVersionExpr rawVersion with
         | some arr =>
           if stringsContains (arr.getD 0 []) "alpha".toList && arr.length > 2 then
             some { product with Name := istioProductNameUpstreamDev,
                                 Version := arr.getD 1 [] ++ " (dev ".toList ++ arr.getD 2 [] ++ ")".toList }
           else if stringsContains (arr.getD 0 []) "dev".toList && arr.length > 4 then
             some { product with Name := istioProductNameUpstreamDev,
                                 Version := arr.getD 3 [] ++ " (dev ".toList ++ arr.getD 4 [] ++ ")".toList }
           else none
         | none => none) with
  | some p => p
  | none =>
  match (match FindStringSubmatch istioVersionExpr rawVersion with
         | some arr => if arr.length > 1 then
             some { product with Name := istioProductNameUpstream, Version := arr.getD 1 [] }
           else none
         | none => none) with
  | some p => p
  | none => { product with Name := istioProductNameUnknown, Version := rawVersion }

/-! ## Compatibility check -/

/-- Model of `strings.Split` for a separator of one character: the pieces
between the occurrences of the separator, one more than there are
occurrences. -/
def stringsSplit (s : Str) (sep : Char) : List Str :=
  match s with
  | [] => [[]]
  | c :: t =>
    if c = sep then [] :: stringsSplit t sep
    else
      match stringsSplit t sep with
      | [] => [[c]]
      | w :: ws => (c :: w) :: ws

/-- Model of `unicode.IsSpace`. -/
def isSpace (c : Char) : Bool :=
  let n := c.toNat
  n == 0x09 || n == 0x0A || n == 0x0B || n == 0x0C || n == 0x0D || n == 0x20 ||
  n == 0x85 || n == 0xA0 || n == 0x1680 || (0x2000 ≤ n && n ≤ 0x200A) ||
  n == 0x2028 || n == 0x2029 || n == 0x202F || n == 0x205F || n == 0x3000

/-- Model of `strings.TrimSpace`. -/
def TrimSpace (s : Str) : Str :=
  ((s.dropWhile isSpace).reverse.dropWhile isSpace).reverse

/-- Embedding of `trimV`. -/
def trimV (v : Str) : Str :=
  match v with
  | [] => v
  | c :: t => if c = 'v' then t else v

/-- The part of `github.com/hashicorp/go-version` that versions.go calls,
taken as a parameter: the type of parsed versions, `NewVersion` (`none` when it
returns an error) and `Compare`. The library accepts a string only when it
matches an anchored pattern that admits no blank, which is `noBlank`. -/
structure VersionLib where
  Version : Type
  NewVersion : Str → Option Version
  Compare : Version → Version → Int
  noBlank : ∀ s v, NewVersion s = some v → ' ' ∉ s

namespace VersionLib

/-- Method `Equal` of go-version: `Compare` gives 0. -/
def Equal (lib : VersionLib) (v o : lib.Version) : Bool := decide (lib.Compare v o = 0)

/-- Method `GreaterThan` of go-version: `Compare` gives a positive number. -/
def GreaterThan (lib : VersionLib) (v o : lib.Version) : Bool := decide (lib.Compare v o > 0)

/-- Method `LessThan` of go-version: `Compare` gives a negative number. -/
def LessThan (lib : VersionLib) (v o : lib.Version) : Bool := decide (lib.Compare v o < 0)

end VersionLib

/-- Embedding of `validateVersion`. `none` is the run-time panic of
`reqWords[1]` on a requirement without a blank. -/
def validateVersion (lib : VersionLib) (requiredVersion installedVersion : Str) : Option Bool :=
  let reqWords := stringsSplit requiredVersion ' '
  match reqWords.get? 1 with
  | none => none
  | some word1 =>
    match lib.NewVersion word1, lib.NewVersion installedVersion with
    | some requirementV, some installedV =>
      let operator := reqWords.getD 0 []
      if operator = "==".toList then some (lib.Equal installedV requirementV)
      else if operator = ">=".toList then
        some (lib.GreaterThan installedV requirementV || lib.Equal installedV requirementV)
      else if operator = ">".toList then some (lib.GreaterThan installedV requirementV)
      else if operator = "<=".toList then
        some (lib.LessThan installedV requirementV || lib.Equal installedV requirementV)
      else if operator = "<".toList then some (lib.LessThan installedV requirementV)
      else some false
    | _, _ => some false

/-- Embedding of `checkRange`. -/
def checkRange (lib : VersionLib) (low high fixed version : Str) : Option Bool :=
  if fixed ≠ [] then validateVersion lib ("== ".toList ++ fixed) version
  else
    match (if low ≠ [] then validateVersion lib (">= ".toList ++ low) version else some true) with
    | none => none
    | some ok =>
      match (if high ≠ [] then validateVersion lib ("<= ".toList ++ high) version
             else some true) with
      | none => none
      | some ok1 => some (ok && ok1)

/-- Modelled from the spec: one `VersionRange` item of a compatibility matrix
entry (the type is declared in package `config`, which is not part of the
sources). -/
structure VersionRange where
  MeshVersion : Str
  KialiMinimumVersion : Str
  KialiMaximumVersion : Str
  KialiFixedVersion : List Str
  deriving DecidableEq

/-- Modelled from the spec: one entry of the compatibility matrix (declared in
package `config`). -/
structure MeshCompatibility where
  MeshName : Str
  VersionRange : List VersionRange
  deriving DecidableEq

/-- The compatibility matrix that `config.NewCompatibilityMatrix` loads. -/
abbrev CompatibilityMatrix := List MeshCompatibility

/-- The loop of `checkIstioVersion` over `fixedVersions`: the value of `ok`
when the loop is left, `ok` being its value on entry. -/
def checkIstioVersion.fixedLoop (lib : VersionLib) (minimumVersion maximumVersion kialiVersion : Str) :
    List Str → Bool → Option Bool
  | [], ok => some ok
  | fixedVersion :: rest, _ => do
    let ok ← checkRange lib minimumVersion maximumVersion fixedVersion kialiVersion
    if ok then some ok
    else checkIstioVersion.fixedLoop lib minimumVersion maximumVersion kialiVersion rest ok

/-- The loop of `checkIstioVersion` over `version.VersionRange`. -/
def checkIstioVersion.rangeLoop (lib : VersionLib) (istioVersion kialiVersion : Str) :
    List VersionRange → Bool → Option Bool
  | [], ok => some ok
  | versions :: rest, ok =>
    if stringsContains istioVersion versions.MeshVersion then
      let minimumVersion := TrimSpace versions.KialiMinimumVersion
      let maximumVersion := TrimSpace versions.KialiMaximumVersion
      if versions.KialiFixedVersion.length ≠ 0 then do
        let ok ← checkIstioVersion.fixedLoop lib minimumVersion maximumVersion kialiVersion
          versions.KialiFixedVersion ok
        checkIstioVersion.rangeLoop lib istioVersion kialiVersion rest ok
      else do
        let ok ← checkRange lib minimumVersion maximumVersion [] kialiVersion
        if ok then some ok
        else checkIstioVersion.rangeLoop lib istioVersion kialiVersion rest ok
    else checkIstioVersion.rangeLoop lib istioVersion kialiVersion rest ok

/-- The loop of `checkIstioVersion` over the matrix. -/
def checkIstioVersion.matrixLoop (lib : VersionLib) (istioVersion kialiVersion : Str) :
    List MeshCompatibility → Bool → Option Bool
  | [], ok => some ok
  | version :: rest, ok =>
    if version.MeshName = istioProductNameUpstream then do
      let ok ← checkIstioVersion.rangeLoop lib istioVersion kialiVersion version.VersionRange ok
      checkIstioVersion.matrixLoop lib istioVersion kialiVersion rest ok
    else checkIstioVersion.matrixLoop lib istioVersion kialiVersion rest ok

/-- Embedding of `checkIstioVersion`. `newCompatibilityMatrix` is the result
of `config.NewCompatibilityMatrix()`, `none` when it returns an error. -/
def checkIstioVersion (lib : VersionLib) (newCompatibilityMatrix : Option CompatibilityMatrix)
    (istioVersion kialiVersion : Str) : Option Bool :=
  match newCompatibilityMatrix with
  | none => some false
  | some matrix => checkIstioVersion.matrixLoop lib istioVersion kialiVersion matrix false

/-- The loop of `checkOSSMVersion` over `versions.KialiFixedVersion`. -/
def checkOSSMVersion.fixedLoop (kialiVersion : Str) : List Str → Bool → Bool
  | [], ok => ok
  | fixedVersion :: rest, ok =>
    if kialiVersion = fixedVersion then true
    else checkOSSMVersion.fixedLoop kialiVersion rest ok

/-- The loop of `checkOSSMVersion` over `version.VersionRange`. -/
def checkOSSMVersion.rangeLoop (ossmVersion kialiVersion : Str) : List VersionRange → Bool → Bool
  | [], ok => ok
  | versions :: rest, ok =>
    if ossmVersion = TrimSpace versions.MeshVersion then
      checkOSSMVersion.rangeLoop ossmVersion kialiVersion rest
        (checkOSSMVersion.fixedLoop kialiVersion versions.KialiFixedVersion ok)
    else checkOSSMVersion.rangeLoop ossmVersion kialiVersion rest ok

/-- The loop of `checkOSSMVersion` over the matrix. -/
def checkOSSMVersion.matrixLoop (ossmVersion kialiVersion : Str) :
    List MeshCompatibility → Bool → Bool
  | [], ok => ok
  | version :: rest, ok =>
    if version.MeshName = istioProductNameOSSM then
      checkOSSMVersion.matrixLoop ossmVersion kialiVersion rest
        (checkOSSMVersion.rangeLoop ossmVersion kialiVersion version.VersionRange ok)
    else checkOSSMVersion.matrixLoop ossmVersion kialiVersion rest ok

/-- Embedding of `checkOSSMVersion`. -/
def checkOSSMVersion (newCompatibilityMatrix : Option CompatibilityMatrix)
    (ossmVersion kialiVersion : Str) : Bool :=
  match newCompatibilityMatrix with
  | none => false
  | some matrix =>
    let ossmVersion := trimV ossmVersion
    let kialiVersion := trimV kialiVersion
    let v := stringsSplit ossmVersion '.'
    let ossmVersion := if v.length > 1 then v.getD 0 [] ++ ".".toList ++ v.getD 1 [] else ossmVersion
    let v := stringsSplit kialiVersion '.'
    let kialiVersion := if v.length > 1 then v.getD 0 [] ++ ".".toList ++ v.getD 1 [] else kialiVersion
    checkOSSMVersion.matrixLoop ossmVersion kialiVersion matrix false

/-- Embedding of `CheckMeshVersion`. -/
def CheckMeshVersion (lib : VersionLib) (newCompatibilityMatrix : Option CompatibilityMatrix)
    (meshName meshVersion kialiVersion : Str) : Option Bool :=
  if meshName = istioProductNameUnknown then some false
  else if stringsContains meshName istioProductNameUpstream then
    checkIstioVersion lib newCompatibilityMatrix meshVersion kialiVersion
  else if stringsContains meshName istioProductNameOSSM then
    some (checkOSSMVersion newCompatibilityMatrix meshVersion kialiVersion)
  else some false

/-! ## istioVersion -/

/-- An error built by `fmt.Errorf`: the format string and the arguments. -/
structure GoError where
  format : Str
  args : List Int
  deriving DecidableEq

/-- Modelled from the spec: the process-wide status of package `status`
(declared in a file that is not among the sources): the named status values,
the records of the external services and the status warning list. -/
structure StatusInfo where
  Status : List (Str × Str)
  ExternalServices : List ExternalServiceInfo
  WarningMessages : List Str
  deriving DecidableEq

/-- The names under which package `status` keeps the Kiali core version, the
mesh version and the mesh name. The constants are declared outside the
sources, they are parameters. -/
structure StatusKeys where
  CoreVersion : Str
  MeshVersion : Str
  MeshName : Str

/-- Modelled from the spec: `Put` of package `status` sets a named status
value. -/
def Put (name value : Str) (info : StatusInfo) : StatusInfo :=
  { info with Status := (name, value) :: info.Status.filter (fun kv => kv.1 ≠ name) }

/-- Modelled from the spec: `GetStatus` of package `status` reads a named
status value, the empty string and false when it is not set. -/
def GetStatus (name : Str) (info : StatusInfo) : Str × Bool :=
  match info.Status.lookup name with
  | some value => (value, true)
  | none => ([], false)

/-- Modelled from the spec: `AddWarningMessages` of package `status` records a
message in the status warning list. -/
def AddWarningMessages (warningMessages : Str) (info : StatusInfo) : StatusInfo :=
  { info with WarningMessages := info.WarningMessages ++ [warningMessages] }

/-- What `httputil.HttpGet` returns to `istioVersion`: the body, the status
code and the transport error, if any. -/
structure HttpResponse where
  body : Str
  code : Int
  err : Option GoError

/-- Embedding of `istioVersion`. The result is the returned pair and the
status after the call; `none` is a run-time panic. -/
def istioVersion (lib : VersionLib) (newCompatibilityMatrix : Option CompatibilityMatrix)
    (keys : StatusKeys) (httpGet : HttpResponse) (info : StatusInfo) :
    Option ((Option ExternalServiceInfo × Option GoError) × StatusInfo) :=
  let configWarnings :=
    "failed to get mesh version, please check if url_service_version is configured correctly.".toList
  if httpGet.err ≠ none then
    some ((none, some { format := configWarnings, args := [] }),
      AddWarningMessages configWarnings info)
  else if httpGet.code ≥ 400 then
    some ((none, some { format := "getting istio version returned error code [%d]".toList,
                        args := [httpGet.code] }), info)
  else
    let rawVersion := httpGet.body
    let istioInfo := parseIstioRawVersion rawVersion
    let meshName := istioInfo.Name
    let meshVersion := istioInfo.Version
    let kialiVersion := (GetStatus keys.CoreVersion info).1
    let compatibleWarnings :=
      "Kiali [".toList ++ kialiVersion ++ "] may not be compatible with [".toList ++ meshName ++
        " ".toList ++ meshVersion ++
        "], and is not recommended. See kiali.io for version compatibility".toList
    match CheckMeshVersion lib newCompatibilityMatrix meshName meshVersion kialiVersion with
    | none => none
    | some true =>
      some ((some istioInfo, none),
        Put keys.MeshName meshName (Put keys.MeshVersion meshVersion info))
    | some false =>
      some ((none, some { format := compatibleWarnings, args := [] }),
        AddWarningMessages compatibleWarnings
          (Put keys.MeshName meshName (Put keys.MeshVersion meshVersion info)))

/-! ## getVersions and the other fetchers -/

/-- The fields of `config.Auth` that `prometheusVersion` reads and writes. -/
structure Auth where
  Token : Str
  UseKialiToken : Bool
  deriving DecidableEq

/-- The field of `config.Get().ExternalServices.Istio` that is read. -/
structure IstioConfig where
  UrlServiceVersion : Str

/-- The fields of `config.Get().ExternalServices.Prometheus` that are read. -/
structure PrometheusConfig where
  URL : Str
  Auth : Auth

/-- The field of `config.Get().ExternalServices.Grafana` that is read. -/
structure GrafanaConfig where
  Enabled : Bool

/-- The fields of `config.Get().ExternalServices.Tracing` that are read. -/
structure TracingConfig where
  Enabled : Bool
  URL : Str

/-- The part of `config.Get().ExternalServices` that package `status` reads. -/
structure ExternalServicesConfig where
  Istio : IstioConfig
  Prometheus : PrometheusConfig
  Grafana : GrafanaConfig
  Tracing : TracingConfig

/-- The fields of `config.Get().KubernetesConfig` that are read; `Q` is the
type of the rate `QPS`, a `float32`. -/
structure KubernetesConfig (Q : Type) where
  QPS : Q
  Burst : Int

/-- The configuration `config.Get()` as far as `getVersions` and the fetchers
read it. Package `config` is outside the sources; the configuration is a
parameter, the same for the whole call. -/
structure Config (Q : Type) where
  ExternalServices : ExternalServicesConfig
  KubernetesConfig : KubernetesConfig Q

/-- The fields of `rest.Config` that `kubernetesVersion` writes; `others`
stands for the rest of the record. -/
structure RestConfig (Q R : Type) where
  QPS : Q
  Burst : Int
  others : R

/-- Embedding of `p8sResponseVersion`. -/
structure p8sResponseVersion where
  Version : Str
  Revision : Str
  deriving DecidableEq

/-- The field of `version.Info` that `kubernetesVersion` reads. -/
structure VersionInfo where
  GitVersion : Str

/-- What the calls of the fetchers into other packages return; the functions
are declared outside the sources, they are parameters.
`HttpGet` is given the URL and the credentials. `Unmarshal` is
`json.Unmarshal` into the pointer `prometheusV`: an error, or the decoded
value, or `none` for the nil pointer that the JSON text `null` leaves there.
`DiscoverGrafana` is taken to return the URL without touching the status. -/
structure FetchEnv (Q R Clientset : Type) where
  config : Config Q
  HttpGet : Str → Option Auth → HttpResponse
  GetKialiToken : Except GoError Str
  Unmarshal : Str → Except GoError (Option p8sResponseVersion)
  DiscoverGrafana : Str
  ConfigClient : Except GoError (RestConfig Q R)
  NewForConfig : RestConfig Q R → Except GoError Clientset
  ServerVersion : Clientset → Except GoError VersionInfo

/-- Embedding of the type `externalService`: a fetcher is run on the status
and returns its pair of results and the status after the call; `none` is a
run-time panic. -/
abbrev externalService : Type :=
  StatusInfo → Option ((Option ExternalServiceInfo × Option GoError) × StatusInfo)

/-- Embedding of `jaegerVersion`. -/
def jaegerVersion {Q R Clientset : Type} (env : FetchEnv Q R Clientset) : externalService :=
  fun info =>
    let jaegerConfig := env.config.ExternalServices.Tracing
    if !jaegerConfig.Enabled then
      some ((none, none), info)
    else
      let product : ExternalServiceInfo := { Name := [], Version := [], Url := [] }
      let product := { product with Name := "Jaeger".toList }
      let product := { product with Url := jaegerConfig.URL }
      some ((some product, none), info)

/-- Embedding of `grafanaVersion`. -/
def grafanaVersion {Q R Clientset : Type} (env : FetchEnv Q R Clientset) : externalService :=
  fun info =>
    let product : ExternalServiceInfo := { Name := [], Version := [], Url := [] }
    let product := { product with Name := "Grafana".toList }
    let product := { product with Url := env.DiscoverGrafana }
    some ((some product, none), info)

/-- Embedding of `prometheusVersion`, from the call of `httputil.HttpGet` on:
the part that follows the choice of the credentials. Reading the field
`Version` through a nil `prometheusV` is a panic. -/
def prometheusVersion.fetch {Q R Clientset : Type} (env : FetchEnv Q R Clientset)
    (auth : Auth) : externalService :=
  fun info =>
    let product : ExternalServiceInfo := { Name := [], Version := [], Url := [] }
    let cfg := env.config.ExternalServices.Prometheus
    let response := env.HttpGet (cfg.URL ++ "/version".toList) (some auth)
    match response.err with
    | none =>
      match env.Unmarshal response.body with
      | .ok (some prometheusV) =>
        let product := { product with Name := "Prometheus".toList }
        let product := { product with Version := prometheusV.Version }
        some ((some product, none), info)
      | .ok none => none
      | .error err => some ((none, some err), info)
    | some err => some ((none, some err), info)

/-- Embedding of `prometheusVersion`. -/
def prometheusVersion {Q R Clientset : Type} (env : FetchEnv Q R Clientset) : externalService :=
  fun info =>
    let cfg := env.config.ExternalServices.Prometheus
    let auth := cfg.Auth
    if auth.UseKialiToken then
      match env.GetKialiToken with
      | .error err => some ((none, some err), info)
      | .ok token => prometheusVersion.fetch env { auth with Token := token } info
    else
      prometheusVersion.fetch env auth info

/-- Embedding of `kubernetesVersion`. -/
def kubernetesVersion {Q R Clientset : Type} (env : FetchEnv Q R Clientset) : externalService :=
  fun info =>
    let product : ExternalServiceInfo := { Name := [], Version := [], Url := [] }
    match env.ConfigClient with
    | .ok k8sConfig =>
      let k8sConfig := { k8sConfig with QPS := env.config.KubernetesConfig.QPS }
      let k8sConfig := { k8sConfig with Burst := env.config.KubernetesConfig.Burst }
      match env.NewForConfig k8sConfig with
      | .ok k8s =>
        match env.ServerVersion k8s with
        | .ok serverVersion =>
          let product := { product with Name := "Kubernetes".toList }
          let product := { product with Version := serverVersion.GitVersion }
          some ((some product, none), info)
        | .error err => some ((none, some err), info)
      | .error err => some ((none, some err), info)
    | .error err => some ((none, some err), info)

/-- Embedding of `getVersionComponent`. Without an error the record behind
`componentInfo` is appended; dereferencing a nil `componentInfo` is a
panic. -/
def getVersionComponent (serviceComponent : externalService) (info : StatusInfo) :
    Option StatusInfo :=
  match serviceComponent info with
  | none => none
  | some ((componentInfo, err), info) =>
    match err with
    | none =>
      match componentInfo with
      | some record => some { info with ExternalServices := info.ExternalServices ++ [record] }
      | none => none
    | some _ => some info

/-- The slice `components` that `getVersions` builds before its loop. -/
def getVersions.components {Q R Clientset : Type} (lib : VersionLib)
    (newCompatibilityMatrix : Option CompatibilityMatrix) (keys : StatusKeys)
    (env : FetchEnv Q R Clientset) : List externalService :=
  let components : List externalService :=
    [istioVersion lib newCompatibilityMatrix keys
       (env.HttpGet env.config.ExternalServices.Istio.UrlServiceVersion none),
     prometheusVersion env,
     kubernetesVersion env]
  let components :=
    if env.config.ExternalServices.Grafana.Enabled then components ++ [grafanaVersion env]
    else components
  let components :=
    if env.config.ExternalServices.Tracing.Enabled then components ++ [jaegerVersion env]
    else components
  components

/-- The loop of `getVersions` over `components`. -/
def getVersions.loop : List externalService → StatusInfo → Option StatusInfo
  | [], info => some info
  | comp :: rest, info =>
    match getVersionComponent comp info with
    | none => none
    | some info => getVersions.loop rest info

/-- Embedding of `getVersions`: the status after the call, `none` for a
panic. -/
def getVersions {Q R Clientset : Type} (lib : VersionLib)
    (newCompatibilityMatrix : Option CompatibilityMatrix) (keys : StatusKeys)
    (env : FetchEnv Q R Clientset) (info : StatusInfo) : Option StatusInfo :=
  getVersions.loop (getVersions.components lib newCompatibilityMatrix keys env) info

/-- The record that a returned pair of a fetcher contributes to the list of
external services: the record itself when the pair carries no error, nothing
otherwise. -/
def contribution : Option ExternalServiceInfo × Option GoError → List ExternalServiceInfo
  | (some record, none) => [record]
  | _ => []

/-! ## handlers/apps.go -/

/-- The parts of an `http.Request` that the handlers read: the route variables
of `mux.Vars` and the query values of `r.URL.Query()`. -/
structure Request where
  Vars : List (Str × Str)
  Query : List (Str × List Str)

/-- Indexing a Go map of strings: the empty string for a key that is not
there. -/
def mapIndex (m : List (Str × Str)) (key : Str) : Str :=
  (m.lookup key).getD []

/-- Model of `url.Values.Get`: the first value of the key, the empty string
when there is none. -/
def valuesGet (query : List (Str × List Str)) (key : Str) : Str :=
  match query.lookup key with
  | some (value :: _) => value
  | _ => []

/-- The fields of `baseHealthParams` that the app handlers read (the type and
`baseExtract` are declared outside the sources). -/
structure baseHealthParams (Time : Type) where
  RateInterval : Str
  QueryTime : Time

/-- Embedding of `appParams`. -/
structure appParams (Time : Type) extends baseHealthParams Time where
  Namespace : Str
  AppName : Str
  IncludeHealth : Bool

/-- The fields of `business.AppCriteria` that the handlers set. -/
structure AppCriteria (Time : Type) where
  Namespace : Str
  AppName : Str
  IncludeIstioResources : Bool
  IncludeHealth : Bool
  RateInterval : Str
  QueryTime : Time

/-- The business layer as the handlers use it: the app service's two queries.
An error is its message, the text of `err.Error()`. -/
structure Layer (Time AppListT AppDetailsT : Type) where
  GetAppList : AppCriteria Time → Except Str AppListT
  GetAppDetails : AppCriteria Time → Except Str AppDetailsT

/-- The functions of package `handlers` that `AppList` and `AppDetails` call
and that are declared outside the sources. -/
structure HandlerEnv (Time AppListT AppDetailsT : Type) where
  baseExtract : Request → List (Str × Str) → baseHealthParams Time
  getBusiness : Request → Except Str (Layer Time AppListT AppDetailsT)
  adjustRateInterval : Layer Time AppListT AppDetailsT → Str → Str → Time → Except Str Str

/-- What a handler does, in order: the calls to the business layer and the
responses written. -/
inductive HandlerEvent (Time AppListT AppDetailsT : Type) where
  | callAdjustRateInterval (ns rateInterval : Str) (queryTime : Time)
  | callGetAppList (criteria : AppCriteria Time)
  | callGetAppDetails (criteria : AppCriteria Time)
  | RespondWithError (code : Nat) (message : Str)
  | handleErrorResponse (err : Str) (extraMesg : List Str)
  | RespondWithJSONAppList (code : Nat) (payload : AppListT)
  | RespondWithJSONAppDetails (code : Nat) (payload : AppDetailsT)

/-- Embedding of `appParams.extract`. -/
def appParams.extract {Time AppListT AppDetailsT : Type}
    (env : HandlerEnv Time AppListT AppDetailsT) (r : Request) : appParams Time :=
  let vars := r.Vars
  let query := r.Query
  { env.baseExtract r vars with
    Namespace := mapIndex vars "namespace".toList
    AppName := mapIndex vars "app".toList
    IncludeHealth := valuesGet query "health".toList ≠ [] }

/-- Embedding of `AppList`. -/
def AppList {Time AppListT AppDetailsT : Type} (env : HandlerEnv Time AppListT AppDetailsT)
    (r : Request) : List (HandlerEvent Time AppListT AppDetailsT) :=
  let p := appParams.extract env r
  let criteria : AppCriteria Time :=
    { Namespace := p.Namespace, AppName := [], IncludeIstioResources := true,
      IncludeHealth := p.IncludeHealth, RateInterval := p.RateInterval, QueryTime := p.QueryTime }
  match env.getBusiness r with
  | .error err => [.RespondWithError 500 ("Apps initialization error: ".toList ++ err)]
  | .ok business =>
    if criteria.IncludeHealth then
      .callAdjustRateInterval p.Namespace p.RateInterval p.QueryTime ::
        match env.adjustRateInterval business p.Namespace p.RateInterval p.QueryTime with
        | .error err => [.handleErrorResponse err ["Adjust rate interval error: ".toList ++ err]]
        | .ok rateInterval =>
          let criteria := { criteria with RateInterval := rateInterval }
          .callGetAppList criteria ::
            match business.GetAppList criteria with
            | .error err => [.handleErrorResponse err []]
            | .ok appList => [.RespondWithJSONAppList 200 appList]
    else
      .callGetAppList criteria ::
        match business.GetAppList criteria with
        | .error err => [.handleErrorResponse err []]
        | .ok appList => [.RespondWithJSONAppList 200 appList]

/-- Embedding of `AppDetails`. -/
def AppDetails {Time AppListT AppDetailsT : Type} (env : HandlerEnv Time AppListT AppDetailsT)
    (r : Request) : List (HandlerEvent Time AppListT AppDetailsT) :=
  let p := appParams.extract env r
  let criteria : AppCriteria Time :=
    { Namespace := p.Namespace, AppName := p.AppName, IncludeIstioResources := true,
      IncludeHealth := p.IncludeHealth, RateInterval := p.RateInterval, QueryTime := p.QueryTime }
  match env.getBusiness r with
  | .error err => [.RespondWithError 500 ("Services initialization error: ".toList ++ err)]
  | .ok business =>
    .callGetAppDetails criteria ::
      match business.GetAppDetails criteria with
      | .error err => [.handleErrorResponse err []]
      | .ok appDetails => [.RespondWithJSONAppDetails 200 appDetails]

/-- A handler environment whose business layer cannot be obtained. -/
def failingEnv : HandlerEnv Unit Unit Unit where
  baseExtract := fun _ _ => { RateInterval := [], QueryTime := () }
  getBusiness := fun _ => .error "no client".toList
  adjustRateInterval := fun _ _ _ _ => .ok []

/-! ## Business layer: workloads, pod logs, Istio references

The implementation of the workload service is not among the sources; its
tests are. The definitions of this section are models written from the
specification and from what the tests assert. -/

/-- A Kubernetes owner reference: the kind and name of the owner and the
`controller` flag. -/
structure OwnerReference where
  Kind : Str
  Name : Str
  Controller : Bool
  deriving DecidableEq

/-- A pod or a controller as the cluster API lists it: its name, its labels
and its owner references. -/
structure KubeObject where
  Name : Str
  Labels : List (Str × Str)
  OwnerReferences : List OwnerReference
  deriving DecidableEq

/-- What the cluster API lists in one namespace, kind by kind. -/
structure NamespaceObjects where
  Deployments : List KubeObject
  ReplicaSets : List KubeObject
  StatefulSets : List KubeObject
  DaemonSets : List KubeObject
  Jobs : List KubeObject
  CronJobs : List KubeObject
  ReplicationControllers : List KubeObject
  DeploymentConfigs : List KubeObject
  Pods : List KubeObject

/-- Modelled from the spec: the `Workload` of the data model, with its name,
its type (`Type_`, a controller kind or `Pod`), the two label flags and its
pods. The runtimes and additional details of the data model are left out. -/
structure Workload where
  Name : Str
  Type_ : Str
  AppLabel : Bool
  VersionLabel : Bool
  Pods : List KubeObject
  deriving DecidableEq

/-- The names of the app label and of the version label in the
configuration. -/
structure IstioLabels where
  AppLabelName : Str
  VersionLabelName : Str

def DeploymentType : Str := "Deployment".toList
def ReplicaSetType : Str := "ReplicaSet".toList
def StatefulSetType : Str := "StatefulSet".toList
def DaemonSetType : Str := "DaemonSet".toList
def JobType : Str := "Job".toList
def CronJobType : Str := "CronJob".toList
def ReplicationControllerType : Str := "ReplicationController".toList
def DeploymentConfigType : Str := "DeploymentConfig".toList
def PodType : Str := "Pod".toList

/-- The controller kinds of the specification, in the order in which it names
them. -/
def workloadKinds : List Str :=
  [DeploymentType, ReplicaSetType, StatefulSetType, DaemonSetType, JobType, CronJobType,
   ReplicationControllerType, DeploymentConfigType]

/-- Modelled from the spec: part of `GetWorkloadList`, the objects of a kind
that the namespace lists. -/
def objectsOf (ns : NamespaceObjects) (kind : Str) : List KubeObject :=
  if kind = DeploymentType then ns.Deployments
  else if kind = ReplicaSetType then ns.ReplicaSets
  else if kind = StatefulSetType then ns.StatefulSets
  else if kind = DaemonSetType then ns.DaemonSets
  else if kind = JobType then ns.Jobs
  else if kind = CronJobType then ns.CronJobs
  else if kind = ReplicationControllerType then ns.ReplicationControllers
  else if kind = DeploymentConfigType then ns.DeploymentConfigs
  else []

/-- Modelled from the spec: part of `GetWorkloadList`, the owner reference
that names the controller of an object. -/
def controllerRef (o : KubeObject) : Option OwnerReference :=
  o.OwnerReferences.find? (fun ref => ref.Controller)

/-- Modelled from the spec: part of `GetWorkloadList`, the kind of controller
that manages controllers of a kind: Deployments manage ReplicaSets,
DeploymentConfigs manage ReplicationControllers, CronJobs manage Jobs. -/
def parentKind (kind : Str) : Option Str :=
  if kind = ReplicaSetType then some DeploymentType
  else if kind = ReplicationControllerType then some DeploymentConfigType
  else if kind = JobType then some CronJobType
  else none

/-- Modelled from the spec: part of `GetWorkloadList`, the reference of a
controller to the controller of the parent kind that owns it, if it has
one. -/
def parentRef (kind : Str) (o : KubeObject) : Option OwnerReference :=
  match controllerRef o, parentKind kind with
  | some ref, some parent => if ref.Kind = parent then some ref else none
  | _, _ => none

/-- Modelled from the spec: part of `GetWorkloadList`, the controller, as kind
and name, under which a pod is grouped: the one its controller reference names
or, when that one is listed and owned by a controller of its parent kind, its
owner. -/
def owningController (ns : NamespaceObjects) (pod : KubeObject) : Option (Str × Str) :=
  match controllerRef pod with
  | none => none
  | some ref =>
    match (objectsOf ns ref.Kind).find? (fun o => o.Name = ref.Name) with
    | none => some (ref.Kind, ref.Name)
    | some o =>
      match parentRef ref.Kind o with
      | none => some (ref.Kind, ref.Name)
      | some parent => some (parent.Kind, parent.Name)

/-- Modelled from the spec: part of `GetWorkloadList`, the pods grouped under
the controller of a kind and name. -/
def podsOf (ns : NamespaceObjects) (kind name : Str) : List KubeObject :=
  ns.Pods.filter (fun pod => owningController ns pod = some (kind, name))

/-- Modelled from the spec: part of `GetWorkloadList`, whether the labels hold
the label of that name. -/
def hasLabel (labels : List (Str × Str)) (name : Str) : Bool :=
  labels.any (fun kv => kv.1 = name)

/-- Modelled from the spec: part of `GetWorkloadList`, the workload of an
object of a kind with its pods. -/
def mkWorkload (conf : IstioLabels) (kind : Str) (o : KubeObject) (pods : List KubeObject) :
    Workload :=
  { Name := o.Name, Type_ := kind, AppLabel := hasLabel o.Labels conf.AppLabelName,
    VersionLabel := hasLabel o.Labels conf.VersionLabelName, Pods := pods }

/-- Modelled from the spec: part of `GetWorkloadList`, the workloads of the
controllers of one kind: one for each listed controller that is not owned by a
controller of its parent kind, in the order of the list. -/
def controllerWorkloads (conf : IstioLabels) (ns : NamespaceObjects) (kind : Str) :
    List Workload :=
  ((objectsOf ns kind).filter (fun o => (parentRef kind o).isNone)).map
    (fun o => mkWorkload conf kind o (podsOf ns kind o.Name))

/-- Modelled from the spec: part of `GetWorkloadList`, the workloads of the
pods that have no controller. -/
def podWorkloads (conf : IstioLabels) (ns : NamespaceObjects) : List Workload :=
  (ns.Pods.filter (fun pod => (controllerRef pod).isNone)).map
    (fun pod => mkWorkload conf PodType pod [pod])

/-- Modelled from the spec: `GetWorkloadList` of the workload service, whose
implementation is missing. It groups the pods under their owning controllers
(Deployments, ReplicaSets, StatefulSets, DaemonSets, Jobs, CronJobs,
ReplicationControllers, DeploymentConfigs) and reports pods without a
controller as workloads of type `Pod`; a controller that names a controller of
its parent kind as its owner is reported through that owner and not on its
own (the tests expect no workload from the ReplicaSet of a Deployment when the
Deployment is not listed). The result is the list of workloads of the
namespace. -/
def GetWorkloadList (conf : IstioLabels) (ns : NamespaceObjects) : List Workload :=
  (workloadKinds.map (controllerWorkloads conf ns)).flatten ++ podWorkloads conf ns

/-- Modelled from the spec: `GetWorkload` of the workload service, whose
implementation is missing: the workload of that name in the namespace, `none`
when there is none. -/
def GetWorkload (conf : IstioLabels) (ns : NamespaceObjects) (workloadName : Str) :
    Option Workload :=
  (GetWorkloadList conf ns).find? (fun w => w.Name = workloadName)

/-- The namespace that lists the controllers `cs` of one kind and nothing
else. -/
def singleKind (kind : Str) (cs : List KubeObject) : NamespaceObjects :=
  { Deployments := if kind = DeploymentType then cs else []
    ReplicaSets := if kind = ReplicaSetType then cs else []
    StatefulSets := if kind = StatefulSetType then cs else []
    DaemonSets := if kind = DaemonSetType then cs else []
    Jobs := if kind = JobType then cs else []
    CronJobs := if kind = CronJobType then cs else []
    ReplicationControllers := if kind = ReplicationControllerType then cs else []
    DeploymentConfigs := if kind = DeploymentConfigType then cs else []
    Pods := [] }

/-- The owner references of the namespace stay inside it: every controller
reference of a listed controller to a workload kind names a listed object of
that kind. -/
def ownersListed (ns : NamespaceObjects) : Prop :=
  ∀ kind ∈ workloadKinds, ∀ o ∈ objectsOf ns kind, ∀ ref ∈ o.OwnerReferences,
    ref.Controller = true → ref.Kind ∈ workloadKinds →
      ∃ owner ∈ objectsOf ns ref.Kind, owner.Name = ref.Name

/-- One entry of a pod log: the message, the severity and the time stamp in
milliseconds. -/
structure LogEntry where
  Message : Str
  Severity : Str
  TimestampUnix : Int
  deriving DecidableEq

/-- The options of a log request that bound the answer: the length of the
time window, in milliseconds, and the maximum number of lines. -/
structure LogOptions where
  Duration : Option Int
  MaxLines : Option Nat

/-- Modelled from the spec: the loop of `StreamPodLogs` that reads the entries
of the stream one by one: `endTime` is the end of the time window once it is
known, `linesWritten` the number of entries sent so far. -/
def StreamPodLogs.loop (opts : LogOptions) : Option Int → Nat → List LogEntry → List LogEntry
  | _, _, [] => []
  | endTime, linesWritten, entry :: rest =>
    if (match opts.MaxLines with
        | some maxLines => decide (linesWritten ≥ maxLines)
        | none => false) then []
    else
      match opts.Duration with
      | none => entry :: StreamPodLogs.loop opts endTime (linesWritten + 1) rest
      | some duration =>
        let endTime := endTime.getD (entry.TimestampUnix + duration)
        if entry.TimestampUnix > endTime then []
        else entry :: StreamPodLogs.loop opts (some endTime) (linesWritten + 1) rest

/-- Modelled from the spec: `StreamPodLogs` of the workload service, whose
implementation is missing, on the parsed entries of the pod's log stream. It
sends the entries in their order and stops at the first entry later than
`Duration` after the first entry, or when `MaxLines` entries are sent. -/
def StreamPodLogs (opts : LogOptions) (entries : List LogEntry) : List LogEntry :=
  StreamPodLogs.loop opts none 0 entries

/-- The entries of a stream that are at most `Duration` later than its first
entry; all of them when no duration is set. -/
def inWindow (opts : LogOptions) (entries : List LogEntry) : List LogEntry :=
  match opts.Duration, entries.head? with
  | some duration, some first =>
    entries.filter (fun e => decide (e.TimestampUnix ≤ first.TimestampUnix + duration))
  | _, _ => entries

/-- At most `MaxLines` entries from the front of a list; all of them when no
maximum is set. -/
def firstLines (opts : LogOptions) (entries : List LogEntry) : List LogEntry :=
  match opts.MaxLines with
  | some maxLines => entries.take maxLines
  | none => entries

/-- The key of an Istio validation: object type, namespace and name. -/
structure IstioValidationKey where
  ObjectType : Str
  Namespace : Str
  Name : Str
  deriving DecidableEq

/-- Modelled from the spec: `FilterUniqueIstioReferences`, whose
implementation is missing: the references without the repetitions of a key
already met; the order of the result, which the specification leaves open, is
that of the first occurrences. -/
def FilterUniqueIstioReferences (refs : List IstioValidationKey) : List IstioValidationKey :=
  refs.foldl (fun filtered ref => if ref ∈ filtered then filtered else filtered ++ [ref]) []

/-! ### A concrete version library

Versions made of decimal numbers separated by dots, with an optional leading
`v`, ordered number by number with missing numbers read as zero: the way
go-version reads and orders such strings. It instantiates `VersionLib` at
concrete inputs. -/

/-- The number a string of decimal digits stands for. -/
def decimalValue (s : Str) : Nat :=
  s.foldl (fun n c => 10 * n + (c.toNat - '0'.toNat)) 0

/-- Parse `v?N(.N)*`. -/
def dottedNewVersion (s : Str) : Option (List Nat) :=
  let t := trimV s
  if t.all (fun c => digit c || c == '.') && (stringsSplit t '.').all (fun w => w ≠ []) then
    some ((stringsSplit t '.').map decimalValue)
  else none

/-- Compare number by number, a missing number counting as zero. -/
def dottedCompare : List Nat → List Nat → Int
  | [], bs => if bs.all (fun b => b == 0) then 0 else -1
  | a :: as, [] => if (a :: as).all (fun b => b == 0) then 0 else 1
  | a :: as, b :: bs => if a < b then -1 else if b < a then 1 else dottedCompare as bs

/-- The library of dotted decimal versions. -/
def dottedLib : VersionLib where
  Version := List Nat
  NewVersion := dottedNewVersion
  Compare := dottedCompare
  noBlank := by
    intro s v h hmem
    have ht : ' ' ∈ trimV s := by
      cases s with
      | nil => exact hmem
      | cons c t =>
        show ' ' ∈ if c = 'v' then t else c :: t
        by_cases hc : c = 'v'
        · rw [if_pos hc]
          rcases List.mem_cons.mp hmem with h1 | h1
          · rw [hc] at h1; exact absurd h1 (by decide)
          · exact h1
        · rw [if_neg hc]; exact hmem
    have hall : (trimV s).all (fun c => digit c || c == '.') = false := by
      rw [List.all_eq_false]
      exact ⟨' ', ht, by decide⟩
    unfold dottedNewVersion at h
    simp only [hall, Bool.false_and] at h
    exact absurd h (by simp)

/-! ### A version library with pre-release identifiers

Versions `v?N(.N)*` optionally followed by `-` and a pre-release text, made of
identifiers of letters and digits separated by dots. They are ordered the way
go-version orders them: by their numbers first and, when these are equal, by
the pre-release texts, a version without one coming last. On the pre-release
identifiers being at least is not transitive: `a` is below `a.1`, `a.1` is
below `a.b` and `a.b` is below `a`. -/

/-- Whether an identifier reads as a decimal number. -/
def isNumeric (s : Str) : Bool := decide (s ≠ []) && s.all digit

/-- Byte by byte, the first string is greater than the second. -/
def strGreater : Str → Str → Bool
  | [], _ => false
  | _ :: _, [] => true
  | a :: as, b :: bs =>
    if a.toNat > b.toNat then true else if a.toNat < b.toNat then false else strGreater as bs

/-- Comparison of two pre-release identifiers after `comparePart` of
go-version: an absent identifier is below a number and above a word, a number
is below a word, numbers compare by value and words byte by byte. -/
def comparePart (preSelf preOther : Str) : Int :=
  if preSelf = preOther then 0
  else
    let selfNumeric := isNumeric preSelf
    let selfInt := if selfNumeric then decimalValue preSelf else 0
    let otherNumeric := isNumeric preOther
    let otherInt := if otherNumeric then decimalValue preOther else 0
    if preSelf = [] then (if otherNumeric then -1 else 1)
    else if preOther = [] then (if selfNumeric then 1 else -1)
    else if selfNumeric && !otherNumeric then -1
    else if !selfNumeric && otherNumeric then 1
    else if !selfNumeric && !otherNumeric && strGreater preSelf preOther then 1
    else if selfInt > otherInt then 1
    else -1

/-- The loop of `comparePrereleases` over the positions that are left: the
first pair of identifiers that differ decides, an identifier that is missing
being read as the empty one. -/
def comparePrereleases.loop : Nat → List Str → List Str → Int
  | 0, _, _ => 0
  | n + 1, selfMeta, otherMeta =>
    if comparePart (selfMeta.headD []) (otherMeta.headD []) ≠ 0 then
      comparePart (selfMeta.headD []) (otherMeta.headD [])
    else comparePrereleases.loop n selfMeta.tail otherMeta.tail

/-- Comparison of two pre-release texts after `comparePrereleases` of
go-version. -/
def comparePrereleases (v other : Str) : Int :=
  if v = other then 0
  else
    let selfPreReleaseMeta := stringsSplit v '.'
    let otherPreReleaseMeta := stringsSplit other '.'
    let biggestLen := max selfPreReleaseMeta.length otherPreReleaseMeta.length
    comparePrereleases.loop biggestLen selfPreReleaseMeta otherPreReleaseMeta

/-- Parse `v?N(.N)*` with an optional `-` and pre-release text. -/
def prereleaseNewVersion (s : Str) : Option (List Nat × Str) :=
  if s.all (fun c => alnum c || c == '.' || c == '-') then
    match stringsSplit s '-' with
    | [number] => (dottedNewVersion number).map (fun segments => (segments, []))
    | [number, pre] =>
      if (stringsSplit pre '.').all (fun w => w ≠ []) then
        (dottedNewVersion number).map (fun segments => (segments, pre))
      else none
    | _ => none
  else none

/-- Comparison of two versions after `Compare` of go-version: the numbers
decide and, when they are equal, the pre-release texts. -/
def prereleaseCompare (v other : List Nat × Str) : Int :=
  if dottedCompare v.1 other.1 = 0 then
    if v.2 = [] ∧ other.2 = [] then 0
    else if v.2 = [] then 1
    else if other.2 = [] then -1
    else comparePrereleases v.2 other.2
  else dottedCompare v.1 other.1

/-- The library of versions with pre-release identifiers. -/
def prereleaseLib : VersionLib where
  Version := List Nat × Str
  NewVersion := prereleaseNewVersion
  Compare := prereleaseCompare
  noBlank := by
    intro s v h hmem
    unfold prereleaseNewVersion at h
    by_cases hall : s.all (fun c => alnum c || c == '.' || c == '-') = true
    · have hb := List.all_eq_true.mp hall ' ' hmem
      exact absurd hb (by decide)
    · rw [if_neg hall] at h
      exact absurd h (by simp)

/-- `Compare` orders the versions: `a` is at least `b` exactly when `b` is at
most `a`, and being at least is transitive. -/
def VersionLib.IsOrder (lib : VersionLib) : Prop :=
  (∀ a b, 0 ≤ lib.Compare a b ↔ lib.Compare b a ≤ 0) ∧
  (∀ a b c, 0 ≤ lib.Compare a b → 0 ≤ lib.Compare b c → 0 ≤ lib.Compare a c)

/-- `Compare` orders the versions of the set `S`: among them `a` is at least
`b` exactly when `b` is at most `a`, and being at least is transitive. -/
def VersionLib.IsOrderOn (lib : VersionLib) (S : lib.Version → Prop) : Prop :=
  (∀ a b, S a → S b → (0 ≤ lib.Compare a b ↔ lib.Compare b a ≤ 0)) ∧
  (∀ a b c, S a → S b → S c →
    0 ≤ lib.Compare a b → 0 ≤ lib.Compare b c → 0 ≤ lib.Compare a c)

/-! ## Notions of the specification -/

/-- The text before dot number `n + 1` of a string, all of it when it has
fewer dots. -/
def beforeDot : Nat → Str → Str
  | _, [] => []
  | n, c :: t =>
    if c = '.' then
      match n with
      | 0 => []
      | k + 1 => c :: beforeDot k t
    else c :: beforeDot n t

/-- The `X.Y` portion of a version string, in the words of the specification:
without its leading `v`, the first two components of the dot-separated
string, that is the text before its second dot. -/
def xyPortion (version : Str) : Str := beforeDot 1 (trimV version)

/-- A copy of the matrix in which the minimum and maximum Kiali versions of
every range are replaced by what `g` gives. -/
def withBounds (g : VersionRange → Str × Str) (matrix : CompatibilityMatrix) : CompatibilityMatrix :=
  matrix.map (fun e => { e with VersionRange := e.VersionRange.map (fun r =>
    { r with KialiMinimumVersion := (g r).1, KialiMaximumVersion := (g r).2 }) })

/-- Three non-empty runs of decimal digits separated by two dots, the form
`#.#.#` of a version string. -/
def isThreeNumbers (s : Str) : Bool :=
  (stringsSplit s '.').length == 3 &&
    (stringsSplit s '.').all (fun w => !w.isEmpty && w.all digit)

/-- A matrix with one entry named `Istio` of two ranges: mesh version 1.14
with the fixed Kiali version 1.50.0, then mesh version 1.1 with Kiali versions
1.0.0 to 1.5.0. -/
def twoRangeMatrix : CompatibilityMatrix :=
  [{ MeshName := "Istio".toList,
     VersionRange :=
       [{ MeshVersion := "1.14".toList, KialiMinimumVersion := [], KialiMaximumVersion := [],
          KialiFixedVersion := ["1.50.0".toList] },
        { MeshVersion := "1.1".toList, KialiMinimumVersion := "1.0.0".toList,
          KialiMaximumVersion := "1.5.0".toList, KialiFixedVersion := [] }] }]

/-- A matrix with one entry named `OpenShift Service Mesh`: mesh version 2.3
goes with Kiali 1.57. -/
def ossmMatrix : CompatibilityMatrix :=
  [{ MeshName := "OpenShift Service Mesh".toList,
     VersionRange :=
       [{ MeshVersion := "2.3".toList, KialiMinimumVersion := [], KialiMaximumVersion := [],
          KialiFixedVersion := ["1.57".toList] }] }]

/-- The status names used at concrete inputs. -/
def sampleKeys : StatusKeys :=
  { CoreVersion := "Kiali core version".toList, MeshVersion := "Mesh version".toList,
    MeshName := "Mesh name".toList }

/-- A status in which only the Kiali core version, `v1.57.3`, is set. -/
def sampleInfo : StatusInfo :=
  { Status := [("Kiali core version".toList, "v1.57.3".toList)], ExternalServices := [],
    WarningMessages := [] }

/-- A fetch environment for concrete inputs: the mesh endpoint answers with an
OpenShift Service Mesh 2.3.0 version, the Prometheus endpoint cannot be
reached, the cluster answers `v1.25.4`, Grafana is enabled and tracing is
not. -/
def sampleEnv : FetchEnv Unit Unit Unit where
  config :=
    { ExternalServices :=
        { Istio := { UrlServiceVersion := "http://istiod:15014/version".toList }
          Prometheus := { URL := "http://prometheus:9090".toList,
                          Auth := { Token := [], UseKialiToken := false } }
          Grafana := { Enabled := true }
          Tracing := { Enabled := false, URL := [] } }
      KubernetesConfig := { QPS := (), Burst := 200 } }
  HttpGet := fun url _ =>
    if url = "http://istiod:15014/version".toList then
      { body := "OSSM_2.3.0-291c5419-Clean".toList, code := 200, err := none }
    else
      { body := [], code := 0, err := some { format := "connection refused".toList, args := [] } }
  GetKialiToken := .ok "token".toList
  Unmarshal := fun _ => .error { format := "unexpected end of JSON input".toList, args := [] }
  DiscoverGrafana := "http://grafana:3000".toList
  ConfigClient := .ok { QPS := (), Burst := 0, others := () }
  NewForConfig := fun _ => .ok ()
  ServerVersion := fun _ => .ok { GitVersion := "v1.25.4".toList }

/-- The sample environment with a Prometheus endpoint that answers with the JSON
text `null`, which `json.Unmarshal` accepts, leaving the pointer `prometheusV`
nil. -/
def nullBodyEnv : FetchEnv Unit Unit Unit :=
  { sampleEnv with
    HttpGet := fun url _ =>
      if url = "http://istiod:15014/version".toList then
        { body := "OSSM_2.3.0-291c5419-Clean".toList, code := 200, err := none }
      else
        { body := "null".toList, code := 200, err := none }
    Unmarshal := fun body =>
      if body = "null".toList then .ok none
      else .error { format := "unexpected end of JSON input".toList, args := [] } }

/-- The four log entries, one hour apart, that `TestGetPodLogs` reads back. -/
def fakePodLogs : List LogEntry :=
  [{ Message := "INFO #1 Log Message".toList, Severity := "INFO".toList,
     TimestampUnix := 1514864068000 },
   { Message := "WARN #2 Log Message".toList, Severity := "WARN".toList,
     TimestampUnix := 1514867668000 },
   { Message := "#3 Log Message".toList, Severity := "INFO".toList,
     TimestampUnix := 1514871268000 },
   { Message := "#4 Log error Message".toList, Severity := "ERROR".toList,
     TimestampUnix := 1514874868000 }]

/-- The label names of the default configuration: `app` and `version`. -/
def defaultLabels : IstioLabels :=
  { AppLabelName := "app".toList, VersionLabelName := "version".toList }

/-- Three controllers named as the fake controllers of the tests: the first
with the app label, the second with the app and version labels, the third
with neither. -/
def fakeControllers : List KubeObject :=
  [{ Name := "httpbin-v1".toList, Labels := [("app".toList, "httpbin".toList)],
     OwnerReferences := [] },
   { Name := "httpbin-v2".toList,
     Labels := [("app".toList, "httpbin".toList), ("version".toList, "v2".toList)],
     OwnerReferences := [] },
   { Name := "httpbin-v3".toList, Labels := [], OwnerReferences := [] }]

/-- A namespace shaped as in `TestGetWorkloadListFromDepRCPod` and
`TestGetWorkloadListFromPod`: the Deployment `details-v1`, its ReplicaSet, the
pod of that ReplicaSet, and a pod without controller. -/
def fakeDetailsNamespace : NamespaceObjects :=
  { Deployments :=
      [{ Name := "details-v1".toList,
         Labels := [("app".toList, "details".toList), ("version".toList, "v1".toList)],
         OwnerReferences := [] }]
    ReplicaSets :=
      [{ Name := "details-v1-3618568057".toList,
         Labels := [("app".toList, "details".toList), ("version".toList, "v1".toList)],
         OwnerReferences :=
           [{ Kind := "Deployment".toList, Name := "details-v1".toList, Controller := true }] }]
    StatefulSets := []
    DaemonSets := []
    Jobs := []
    CronJobs := []
    ReplicationControllers := []
    DeploymentConfigs := []
    Pods :=
      [{ Name := "details-v1-3618568057-dnkjp".toList,
         Labels := [("app".toList, "details".toList), ("version".toList, "v1".toList)],
         OwnerReferences :=
           [{ Kind := "ReplicaSet".toList, Name := "details-v1-3618568057".toList,
              Controller := true }] },
       { Name := "orphan-pod".toList,
         Labels := [("app".toList, "orphan".toList), ("version".toList, "v1".toList)],
         OwnerReferences := [] }] }

/-! ## Meaning of the patterns -/

namespace Regex

/-- The texts a pattern matches in full. -/
def Lang : Regex → Str → Prop
  | eps, m => m = []
  | cls p, m => ∃ x, m = [x] ∧ p x = true
  | star p, m => ∀ x ∈ m, p x = true
  | seq a b, m => ∃ m1 m2, m = m1 ++ m2 ∧ a.Lang m1 ∧ b.Lang m2
  | alt a b, m => a.Lang m ∨ b.Lang m
  | group _ r, m => r.Lang m

/-- The pattern matches somewhere in the string. -/
def MatchesIn (re : Regex) (s : Str) : Prop :=
  ∃ pre m post, s = pre ++ m ++ post ∧ re.Lang m

/-- The pattern matches the text `m` in full and turns the submatches `c`
into `c1`. -/
def Sem : Regex → Str → Caps → Caps → Prop
  | eps, m, c, c1 => m = [] ∧ c1 = c
  | cls p, m, c, c1 => (∃ x, m = [x] ∧ p x = true) ∧ c1 = c
  | star p, m, c, c1 => (∀ x ∈ m, p x = true) ∧ c1 = c
  | seq a b, m, c, c1 => ∃ m1 m2 c2, m = m1 ++ m2 ∧ a.Sem m1 c c2 ∧ b.Sem m2 c2 c1
  | alt a b, m, c, c1 => a.Sem m c c1 ∨ b.Sem m c c1
  | group i r, m, c, c1 => ∃ c2, r.Sem m c c2 ∧ c1 = c2.set i m

/-- The pattern has no capturing group. -/
def groupFree : Regex → Bool
  | eps => true
  | cls _ => true
  | star _ => true
  | seq a b => a.groupFree && b.groupFree
  | alt a b => a.groupFree && b.groupFree
  | group _ _ => false

end Regex

theorem take_consumed (m rest : Str) :
    (m ++ rest).take ((m ++ rest).length - rest.length) = m := by
  simp

theorem starRun_sound {α : Type} (p : Char → Bool) (s : Str) (k : Str → Option α) (r : α)
    (h : starRun p s k = some r) :
    ∃ m rest, s = m ++ rest ∧ (∀ x ∈ m, p x = true) ∧ k rest = some r := by
  induction s with
  | nil => exact ⟨[], [], rfl, by simp, by simpa [starRun] using h⟩
  | cons x t ih =>
    unfold starRun at h
    by_cases hp : p x = true
    · simp only [hp, if_true] at h
      cases hs : starRun p t k with
      | some r1 =>
        simp only [hs] at h
        obtain rfl : r1 = r := Option.some.inj h
        obtain ⟨m, rest, hm, hall, hk⟩ := ih hs
        refine ⟨x :: m, rest, by simp [hm], ?_, hk⟩
        intro y hy
        rcases List.mem_cons.mp hy with rfl | hy
        · exact hp
        · exact hall y hy
      | none =>
        simp only [hs] at h
        exact ⟨[], x :: t, rfl, by simp, h⟩
    · simp only [hp] at h
      exact ⟨[], x :: t, rfl, by simp, h⟩

theorem starRun_complete {α : Type} (p : Char → Bool) (m rest : Str) (k : Str → Option α)
    (hall : ∀ x ∈ m, p x = true) (hk : (k rest).isSome = true) :
    (starRun p (m ++ rest) k).isSome = true := by
  have base : ∀ s : Str, (k s).isSome = true → (starRun p s k).isSome = true := by
    intro s hs
    cases s with
    | nil => simpa [starRun] using hs
    | cons x t =>
      unfold starRun
      by_cases hp : p x = true
      · simp only [hp, if_true]
        cases starRun p t k with
        | some r1 => rfl
        | none => exact hs
      · simpa [hp] using hs
  induction m with
  | nil => exact base rest hk
  | cons x t ih =>
    have ht : (starRun p (t ++ rest) k).isSome = true :=
      ih (fun y hy => hall y (List.mem_cons_of_mem _ hy))
    have hp : p x = true := hall x (List.mem_cons_self _ _)
    show (starRun p (x :: (t ++ rest)) k).isSome = true
    unfold starRun
    simp only [hp, if_true]
    cases hs : starRun p (t ++ rest) k with
    | some r1 => rfl
    | none => rw [hs] at ht; exact absurd ht (by simp)

theorem Regex.run_sound {α : Type} (re : Regex) :
    ∀ (s : Str) (c : Caps) (k : Str → Caps → Option α) (r : α),
      re.run s c k = some r →
      ∃ m rest c1, s = m ++ rest ∧ re.Sem m c c1 ∧ k rest c1 = some r := by
  induction re with
  | eps =>
    intro s c k r h
    exact ⟨[], s, c, rfl, ⟨rfl, rfl⟩, h⟩
  | cls p =>
    intro s c k r h
    cases s with
    | nil => simp [Regex.run] at h
    | cons x t =>
      by_cases hp : p x = true
      · simp only [Regex.run, hp, if_true] at h
        exact ⟨[x], t, c, rfl, ⟨⟨x, rfl, hp⟩, rfl⟩, h⟩
      · simp [Regex.run, hp] at h
  | star p =>
    intro s c k r h
    obtain ⟨m, rest, hm, hall, hk⟩ := starRun_sound p s (fun rest => k rest c) r h
    exact ⟨m, rest, c, hm, ⟨hall, rfl⟩, hk⟩
  | seq a b iha ihb =>
    intro s c k r h
    obtain ⟨m1, rest1, c1, h1, hs1, hk1⟩ := iha s c _ r h
    obtain ⟨m2, rest2, c2, h2, hs2, hk2⟩ := ihb rest1 c1 k r hk1
    exact ⟨m1 ++ m2, rest2, c2, by simp [h1, h2], ⟨m1, m2, c1, rfl, hs1, hs2⟩, hk2⟩
  | alt a b iha ihb =>
    intro s c k r h
    simp only [Regex.run] at h
    cases ha : a.run s c k with
    | some r1 =>
      simp only [ha] at h
      obtain ⟨m, rest, c1, h1, hs1, hk1⟩ := iha s c k r1 ha
      exact ⟨m, rest, c1, h1, Or.inl hs1, by rw [hk1, h]⟩
    | none =>
      simp only [ha] at h
      obtain ⟨m, rest, c1, h1, hs1, hk1⟩ := ihb s c k r h
      exact ⟨m, rest, c1, h1, Or.inr hs1, hk1⟩
  | group i re ih =>
    intro s c k r h
    obtain ⟨m, rest, c1, h1, hs1, hk1⟩ := ih s c _ r h
    refine ⟨m, rest, c1.set i m, h1, ⟨c1, hs1, rfl⟩, ?_⟩
    rw [h1, take_consumed] at hk1
    exact hk1

theorem Regex.run_complete {α : Type} (re : Regex) :
    ∀ (m rest : Str) (c : Caps) (k : Str → Caps → Option α),
      re.Lang m → (∀ c1, (k rest c1).isSome = true) →
      (re.run (m ++ rest) c k).isSome = true := by
  induction re with
  | eps =>
    intro m rest c k hm hk
    have : m = [] := hm
    subst this
    exact hk c
  | cls p =>
    intro m rest c k hm hk
    obtain ⟨x, rfl, hp⟩ := hm
    simpa [Regex.run, hp] using hk c
  | star p =>
    intro m rest c k hm hk
    exact starRun_complete p m rest _ hm (hk c)
  | seq a b iha ihb =>
    intro m rest c k hm hk
    obtain ⟨m1, m2, rfl, h1, h2⟩ := hm
    rw [List.append_assoc]
    exact iha m1 (m2 ++ rest) c _ h1 (fun c1 => ihb m2 rest c1 k h2 hk)
  | alt a b iha ihb =>
    intro m rest c k hm hk
    simp only [Regex.run]
    cases ha : a.run (m ++ rest) c k with
    | some r1 => rfl
    | none =>
      rcases hm with h1 | h2
      · have := iha m rest c k h1 hk
        rw [ha] at this
        exact absurd this (by simp)
      · exact ihb m rest c k h2 hk
  | group i re ih =>
    intro m rest c k hm hk
    exact ih m rest c _ hm (fun c1 => hk _)

theorem Regex.Sem.lang {re : Regex} : ∀ {m : Str} {c c1 : Caps}, re.Sem m c c1 → re.Lang m := by
  induction re with
  | eps => intro m c c1 h; exact h.1
  | cls p => intro m c c1 h; exact h.1
  | star p => intro m c c1 h; exact h.1
  | seq a b iha ihb =>
    intro m c c1 h
    obtain ⟨m1, m2, c2, hm, h1, h2⟩ := h
    exact ⟨m1, m2, hm, iha h1, ihb h2⟩
  | alt a b iha ihb =>
    intro m c c1 h
    rcases h with h | h
    · exact Or.inl (iha h)
    · exact Or.inr (ihb h)
  | group i re ih =>
    intro m c c1 h
    obtain ⟨c2, h1, _⟩ := h
    exact ih h1

theorem Regex.Sem.length_eq {re : Regex} :
    ∀ {m : Str} {c c1 : Caps}, re.Sem m c c1 → c1.length = c.length := by
  induction re with
  | eps => intro m c c1 h; rw [h.2]
  | cls p => intro m c c1 h; rw [h.2]
  | star p => intro m c c1 h; rw [h.2]
  | seq a b iha ihb =>
    intro m c c1 h
    obtain ⟨m1, m2, c2, _, h1, h2⟩ := h
    rw [ihb h2, iha h1]
  | alt a b iha ihb =>
    intro m c c1 h
    rcases h with h | h
    · exact iha h
    · exact ihb h
  | group i re ih =>
    intro m c c1 h
    obtain ⟨c2, h1, rfl⟩ := h
    simp [ih h1]

/-- What a successful `FindStringSubmatch` returns: the string splits around a
full match of the pattern, slot 0 holds the matched text and the other slots
what the groups recorded, in a slice of `NumSubexp + 1` entries. -/
theorem FindStringSubmatch_sound (re : Regex) (s : Str) (arr : Caps)
    (h : FindStringSubmatch re s = some arr) :
    ∃ pre m post c1, s = pre ++ m ++ post ∧
      re.Sem m (List.replicate (re.NumSubexp + 1) []) c1 ∧ arr = c1.set 0 m := by
  have hat : ∀ t : Str, matchAt re t = some arr →
      ∃ m post c1, t = m ++ post ∧
        re.Sem m (List.replicate (re.NumSubexp + 1) []) c1 ∧ arr = c1.set 0 m := by
    intro t ht
    obtain ⟨m, rest, c1, h1, hs1, hk1⟩ := re.run_sound t _ _ arr ht
    refine ⟨m, rest, c1, h1, hs1, ?_⟩
    rw [h1, take_consumed] at hk1
    exact (Option.some.inj hk1).symm
  induction s with
  | nil =>
    obtain ⟨m, post, c1, h1, h2, h3⟩ := hat [] h
    exact ⟨[], m, post, c1, by simpa using h1, h2, h3⟩
  | cons x t ih =>
    unfold FindStringSubmatch at h
    cases hm : matchAt re (x :: t) with
    | some c =>
      simp only [hm] at h
      obtain ⟨m, post, c1, h1, h2, h3⟩ := hat (x :: t) (hm.trans h)
      exact ⟨[], m, post, c1, by simpa using h1, h2, h3⟩
    | none =>
      simp only [hm] at h
      obtain ⟨pre, m, post, c1, h1, h2, h3⟩ := ih h
      exact ⟨x :: pre, m, post, c1, by simp [h1], h2, h3⟩

theorem FindStringSubmatch_length (re : Regex) (s : Str) (arr : Caps)
    (h : FindStringSubmatch re s = some arr) : arr.length = re.NumSubexp + 1 := by
  obtain ⟨pre, m, post, c1, _, hs, rfl⟩ := FindStringSubmatch_sound re s arr h
  simp [hs.length_eq]

theorem FindStringSubmatch_complete (re : Regex) (s : Str) (h : re.MatchesIn s) :
    (FindStringSubmatch re s).isSome = true := by
  obtain ⟨pre, m, post, rfl, hm⟩ := h
  have hat : (matchAt re (m ++ post)).isSome = true :=
    re.run_complete m post _ _ hm (fun c1 => rfl)
  induction pre with
  | nil =>
    simp only [List.nil_append]
    cases hmp : m ++ post with
    | nil => rw [hmp] at hat; exact hat
    | cons x t =>
      rw [hmp] at hat
      unfold FindStringSubmatch
      cases hc : matchAt re (x :: t) with
      | some c => rfl
      | none => rw [hc] at hat; exact absurd hat (by simp)
  | cons x t ih =>
    show (FindStringSubmatch re (x :: (t ++ m ++ post))).isSome = true
    unfold FindStringSubmatch
    cases hc : matchAt re (x :: (t ++ m ++ post)) with
    | some c => rfl
    | none => exact ih

/-- The matcher finds a match exactly when the pattern matches somewhere in
the string. -/
theorem FindStringSubmatch_isSome_iff (re : Regex) (s : Str) :
    (FindStringSubmatch re s).isSome = true ↔ re.MatchesIn s := by
  constructor
  · intro h
    obtain ⟨arr, harr⟩ := Option.isSome_iff_exists.mp h
    obtain ⟨pre, m, post, c1, hs, hsem, _⟩ := FindStringSubmatch_sound re s arr harr
    exact ⟨pre, m, post, hs, hsem.lang⟩
  · exact FindStringSubmatch_complete re s

theorem FindStringSubmatch_eq_none_iff (re : Regex) (s : Str) :
    FindStringSubmatch re s = none ↔ ¬ re.MatchesIn s := by
  rw [← FindStringSubmatch_isSome_iff]
  cases FindStringSubmatch re s <;> simp

theorem FindStringSubmatch_matches {re : Regex} {s : Str} {arr : Caps}
    (h : FindStringSubmatch re s = some arr) : re.MatchesIn s :=
  (FindStringSubmatch_isSome_iff re s).mp (by rw [h]; rfl)

theorem stringsContains_iff (s sub : Str) : stringsContains s sub = true ↔ sub <:+: s := by
  induction s with
  | nil =>
    unfold stringsContains
    rw [List.isPrefixOf_iff_prefix, List.infix_nil, List.prefix_nil]
  | cons x t ih =>
    unfold stringsContains
    rw [Bool.or_eq_true, List.isPrefixOf_iff_prefix, ih, List.infix_cons_iff]

theorem Regex.lang_lit (t m : Str) : (Regex.lit t).Lang m ↔ m = t := by
  induction t generalizing m with
  | nil => exact Iff.rfl
  | cons c cs ih =>
    constructor
    · rintro ⟨m1, m2, rfl, ⟨x, rfl, hx⟩, h2⟩
      have : x = c := by simpa using hx
      rw [(ih m2).mp h2, this]
      rfl
    · rintro rfl
      exact ⟨[c], cs, rfl, ⟨c, rfl, by simp⟩, (ih cs).mpr rfl⟩

theorem Regex.sem_lit (t m : Str) (c c1 : Caps) :
    (Regex.lit t).Sem m c c1 ↔ m = t ∧ c1 = c := by
  induction t generalizing m c c1 with
  | nil => exact Iff.rfl
  | cons a cs ih =>
    constructor
    · rintro ⟨m1, m2, c2, rfl, ⟨⟨x, rfl, hx⟩, rfl⟩, h2⟩
      have : x = a := by simpa using hx
      obtain ⟨rfl, rfl⟩ := (ih m2 c2 c1).mp h2
      rw [this]
      exact ⟨rfl, rfl⟩
    · rintro ⟨rfl, rfl⟩
      exact ⟨[a], cs, c1, rfl, ⟨⟨a, rfl, by simp⟩, rfl⟩, (ih cs c1 c1).mpr ⟨rfl, rfl⟩⟩

/-- Every text the dev pattern matches holds the word `alpha` or the word `dev`. -/
theorem istioDevVersionExpr_lang_contains (m : Str) (h : istioDevVersionExpr.Lang m) :
    stringsContains m "alpha".toList = true ∨ stringsContains m "dev".toList = true := by
  rcases h with h | h
  · left
    obtain ⟨m1, m2, rfl, _, m3, m4, rfl, h3, _⟩ := h
    rw [Regex.lang_lit] at h3
    subst h3
    rw [stringsContains_iff]
    exact ⟨m1 ++ ['-'], ['.'] ++ m4, by simp⟩
  · right
    obtain ⟨m1, m2, rfl, _, m3, m4, rfl, h3, _⟩ := h
    rw [Regex.lang_lit] at h3
    subst h3
    rw [stringsContains_iff]
    exact ⟨m1 ++ ['-'], ['-'] ++ m4, by simp⟩

theorem FindStringSubmatch_whole (re : Regex) (s : Str) (arr : Caps)
    (h : FindStringSubmatch re s = some arr) : re.Lang (arr.getD 0 []) := by
  obtain ⟨pre, m, post, c1, _, hs, rfl⟩ := FindStringSubmatch_sound re s arr h
  have hl : 0 < c1.length := by rw [hs.length_eq]; simp
  have : (c1.set 0 m).getD 0 [] = m := by
    cases c1 with
    | nil => simp at hl
    | cons a t => rfl
  rw [this]
  exact hs.lang

/-- The decision table of `parseIstioRawVersion`: which search succeeded
first, and the record built from its submatches. -/
theorem parseIstioRawVersion_cases (raw : Str) :
    (∃ arr, FindStringSubmatch maistraProductVersionExpr raw = some arr ∧
      parseIstioRawVersion raw =
        { Name := istioProductNameMaistra, Version := arr.getD 1 [], Url := [] })
    ∨ (FindStringSubmatch maistraProductVersionExpr raw = none ∧
      ((∃ arr, FindStringSubmatch maistraProjectVersionExpr raw = some arr ∧
        parseIstioRawVersion raw =
          { Name := istioProductNameMaistraProject, Version := arr.getD 1 [], Url := [] })
    ∨ (FindStringSubmatch maistraProjectVersionExpr raw = none ∧
      ((∃ arr, FindStringSubmatch ossmVersionExpr raw = some arr ∧
        parseIstioRawVersion raw =
          { Name := istioProductNameOSSM, Version := arr.getD 1 [], Url := [] })
    ∨ (FindStringSubmatch ossmVersionExpr raw = none ∧
      ((∃ arr, FindStringSubmatch istioSnapshotVersionExpr raw = some arr ∧
        parseIstioRawVersion raw =
          { Name := istioProductNameUpstreamSnapshot,
            Version := arr.getD 1 [] ++ arr.getD 2 [], Url := [] })
    ∨ (FindStringSubmatch istioSnapshotVersionExpr raw = none ∧
      ((∃ arr, FindStringSubmatch istioRCVersionExpr raw = some arr ∧
        parseIstioRawVersion raw =
          { Name := istioProductNameUpstreamRC,
            Version := arr.getD 1 [] ++ " (".toList ++ arr.getD 2 [] ++ ")".toList, Url := [] })
    ∨ (FindStringSubmatch istioRCVersionExpr raw = none ∧
      ((∃ arr, FindStringSubmatch istioDevVersionExpr raw = some arr ∧
        ((stringsContains (arr.getD 0 []) "alpha".toList = true ∧
          parseIstioRawVersion raw =
            { Name := istioProductNameUpstreamDev,
              Version := arr.getD 1 [] ++ " (dev ".toList ++ arr.getD 2 [] ++ ")".toList,
              Url := [] })
        ∨ (stringsContains (arr.getD 0 []) "alpha".toList = false ∧
          parseIstioRawVersion raw =
            { Name := istioProductNameUpstreamDev,
              Version := arr.getD 3 [] ++ " (dev ".toList ++ arr.getD 4 [] ++ ")".toList,
              Url := [] })))
    ∨ (FindStringSubmatch istioDevVersionExpr raw = none ∧
      ((∃ arr, FindStringSubmatch istioVersionExpr raw = some arr ∧
        parseIstioRawVersion raw =
          { Name := istioProductNameUpstream, Version := arr.getD 1 [], Url := [] })
    ∨ (FindStringSubmatch istioVersionExpr raw = none ∧
        parseIstioRawVersion raw =
          { Name := istioProductNameUnknown, Version := raw, Url := [] }))))))))))))) := by
  unfold parseIstioRawVersion
  cases h1 : FindStringSubmatch maistraProductVersionExpr raw with
  | some a1 =>
    have l1 := FindStringSubmatch_length _ _ _ h1
    simp [l1, show maistraProductVersionExpr.NumSubexp = 1 from rfl]
  | none =>
  cases h2 : FindStringSubmatch maistraProjectVersionExpr raw with
  | some a2 =>
    have l2 := FindStringSubmatch_length _ _ _ h2
    simp [l2, show maistraProjectVersionExpr.NumSubexp = 1 from rfl]
  | none =>
  cases h3 : FindStringSubmatch ossmVersionExpr raw with
  | some a3 =>
    have l3 := FindStringSubmatch_length _ _ _ h3
    simp [l3, show ossmVersionExpr.NumSubexp = 1 from rfl]
  | none =>
  cases h4 : FindStringSubmatch istioSnapshotVersionExpr raw with
  | some a4 =>
    have l4 := FindStringSubmatch_length _ _ _ h4
    simp [l4, show istioSnapshotVersionExpr.NumSubexp = 2 from rfl]
  | none =>
  cases h5 : FindStringSubmatch istioRCVersionExpr raw with
  | some a5 =>
    have l5 := FindStringSubmatch_length _ _ _ h5
    simp [l5, show istioRCVersionExpr.NumSubexp = 2 from rfl]
  | none =>
  cases h6 : FindStringSubmatch istioDevVersionExpr raw with
  | some a6 =>
    have l6 := FindStringSubmatch_length _ _ _ h6
    have w6 := istioDevVersionExpr_lang_contains _ (FindStringSubmatch_whole _ _ _ h6)
    obtain ⟨w, g1, g2, g3, g4, rfl⟩ : ∃ w g1 g2 g3 g4, a6 = [w, g1, g2, g3, g4] := by
      match a6, l6 with
      | [w, g1, g2, g3, g4], _ => exact ⟨w, g1, g2, g3, g4, rfl⟩
    simp only [List.getD_cons_zero] at w6
    cases ha : stringsContains w "alpha".toList with
    | true =>
      have ha1 : stringsContains w ['a', 'l', 'p', 'h', 'a'] = true := ha
      simp [ha1]
    | false =>
      have ha1 : stringsContains w ['a', 'l', 'p', 'h', 'a'] = false := ha
      have hd : stringsContains w ['d', 'e', 'v'] = true := by
        rcases w6 with w | w
        · rw [ha] at w; exact absurd w (by simp)
        · exact w
      simp [ha1, hd]
  | none =>
  cases h7 : FindStringSubmatch istioVersionExpr raw with
  | some a7 =>
    have l7 := FindStringSubmatch_length _ _ _ h7
    simp [l7, show istioVersionExpr.NumSubexp = 1 from rfl]
  | none => simp

/-! ## Classification theorems -/

open Classical in
/-- The name `parseIstioRawVersion` returns, as a table over which patterns
match somewhere in the string. -/
theorem parseIstioRawVersion_name_eq (raw : Str) :
    (parseIstioRawVersion raw).Name =
      (if maistraProductVersionExpr.MatchesIn raw then istioProductNameMaistra
       else if maistraProjectVersionExpr.MatchesIn raw then istioProductNameMaistraProject
       else if ossmVersionExpr.MatchesIn raw then istioProductNameOSSM
       else if istioSnapshotVersionExpr.MatchesIn raw then istioProductNameUpstreamSnapshot
       else if istioRCVersionExpr.MatchesIn raw then istioProductNameUpstreamRC
       else if istioDevVersionExpr.MatchesIn raw then istioProductNameUpstreamDev
       else if istioVersionExpr.MatchesIn raw then istioProductNameUpstream
       else istioProductNameUnknown) := by
  rcases parseIstioRawVersion_cases raw with ⟨a, h, e⟩ | ⟨n1, r⟩
  · rw [e, if_pos (FindStringSubmatch_matches h)]
  rw [if_neg ((FindStringSubmatch_eq_none_iff _ _).mp n1)]
  rcases r with ⟨a, h, e⟩ | ⟨n2, r⟩
  · rw [e, if_pos (FindStringSubmatch_matches h)]
  rw [if_neg ((FindStringSubmatch_eq_none_iff _ _).mp n2)]
  rcases r with ⟨a, h, e⟩ | ⟨n3, r⟩
  · rw [e, if_pos (FindStringSubmatch_matches h)]
  rw [if_neg ((FindStringSubmatch_eq_none_iff _ _).mp n3)]
  rcases r with ⟨a, h, e⟩ | ⟨n4, r⟩
  · rw [e, if_pos (FindStringSubmatch_matches h)]
  rw [if_neg ((FindStringSubmatch_eq_none_iff _ _).mp n4)]
  rcases r with ⟨a, h, e⟩ | ⟨n5, r⟩
  · rw [e, if_pos (FindStringSubmatch_matches h)]
  rw [if_neg ((FindStringSubmatch_eq_none_iff _ _).mp n5)]
  rcases r with ⟨a, h, ⟨_, e⟩ | ⟨_, e⟩⟩ | ⟨n6, r⟩
  · rw [e, if_pos (FindStringSubmatch_matches h)]
  · rw [e, if_pos (FindStringSubmatch_matches h)]
  rw [if_neg ((FindStringSubmatch_eq_none_iff _ _).mp n6)]
  rcases r with ⟨a, h, e⟩ | ⟨n7, e⟩
  · rw [e, if_pos (FindStringSubmatch_matches h)]
  rw [if_neg ((FindStringSubmatch_eq_none_iff _ _).mp n7), e]

open Classical in
/-- C1. For every raw version string the name returned by
`parseIstioRawVersion` is the product name of the first of the seven patterns,
tried in the order Maistra product, Maistra project, OpenShift Service Mesh,
Istio snapshot, Istio RC, Istio dev, Istio release, that matches anywhere in
the string (a later pattern is consulted only when every earlier one fails),
and it is `Unknown Istio Implementation` exactly when none of the seven
matches. -/
theorem parseIstioRawVersion_first_match (raw : Str) :
    (parseIstioRawVersion raw).Name =
      (if maistraProductVersionExpr.MatchesIn raw then istioProductNameMaistra
       else if maistraProjectVersionExpr.MatchesIn raw then istioProductNameMaistraProject
       else if ossmVersionExpr.MatchesIn raw then istioProductNameOSSM
       else if istioSnapshotVersionExpr.MatchesIn raw then istioProductNameUpstreamSnapshot
       else if istioRCVersionExpr.MatchesIn raw then istioProductNameUpstreamRC
       else if istioDevVersionExpr.MatchesIn raw then istioProductNameUpstreamDev
       else if istioVersionExpr.MatchesIn raw then istioProductNameUpstream
       else istioProductNameUnknown)
    ∧ ((parseIstioRawVersion raw).Name = istioProductNameUnknown ↔
        (¬ maistraProductVersionExpr.MatchesIn raw ∧ ¬ maistraProjectVersionExpr.MatchesIn raw ∧
         ¬ ossmVersionExpr.MatchesIn raw ∧ ¬ istioSnapshotVersionExpr.MatchesIn raw ∧
         ¬ istioRCVersionExpr.MatchesIn raw ∧ ¬ istioDevVersionExpr.MatchesIn raw ∧
         ¬ istioVersionExpr.MatchesIn raw)) := by
  refine ⟨parseIstioRawVersion_name_eq raw, ?_⟩
  rw [parseIstioRawVersion_name_eq]
  by_cases h1 : maistraProductVersionExpr.MatchesIn raw
  · simp only [h1, if_true, not_true, false_and, iff_false]; decide
  by_cases h2 : maistraProjectVersionExpr.MatchesIn raw
  · simp only [h1, h2, if_true, if_false, not_true, false_and, and_false, iff_false]; decide
  by_cases h3 : ossmVersionExpr.MatchesIn raw
  · simp only [h1, h2, h3, if_true, if_false, not_true, false_and, and_false, iff_false]; decide
  by_cases h4 : istioSnapshotVersionExpr.MatchesIn raw
  · simp only [h1, h2, h3, h4, if_true, if_false, not_true, false_and, and_false, iff_false]; decide
  by_cases h5 : istioRCVersionExpr.MatchesIn raw
  · simp only [h1, h2, h3, h4, h5, if_true, if_false, not_true, false_and, and_false, iff_false]; decide
  by_cases h6 : istioDevVersionExpr.MatchesIn raw
  · simp only [h1, h2, h3, h4, h5, h6, if_true, if_false, not_true, false_and, and_false, iff_false]
    decide
  by_cases h7 : istioVersionExpr.MatchesIn raw
  · simp only [h1, h2, h3, h4, h5, h6, h7, if_true, if_false, not_true, false_and, and_false,
      iff_false]
    decide
  simp only [h1, h2, h3, h4, h5, h6, h7, if_false, not_false_eq_true, and_self]

/-- C4. Classification yields exactly one product name: the name returned by
`parseIstioRawVersion` is one of the eight product-name constants, and it is
never the placeholder `Unknown` the record starts with. -/
theorem parseIstioRawVersion_name_mem (raw : Str) :
    (parseIstioRawVersion raw).Name ∈
      [istioProductNameMaistra, istioProductNameMaistraProject, istioProductNameOSSM,
       istioProductNameUpstream, istioProductNameUpstreamSnapshot, istioProductNameUpstreamRC,
       istioProductNameUpstreamDev, istioProductNameUnknown]
    ∧ (parseIstioRawVersion raw).Name ≠ "Unknown".toList := by
  have hmem := parseIstioRawVersion_name_eq raw
  constructor
  · rw [hmem]
    split_ifs <;> simp
  · rw [hmem]
    split_ifs <;> decide

/-! ## Compatibility theorems -/

theorem stringsSplit_ne_nil (s : Str) (sep : Char) : stringsSplit s sep ≠ [] := by
  cases s with
  | nil => simp [stringsSplit]
  | cons c t =>
    unfold stringsSplit
    split_ifs
    · simp
    · split <;> simp

theorem stringsSplit_cons (c : Char) (t : Str) (sep : Char) :
    stringsSplit (c :: t) sep =
      if c = sep then [] :: stringsSplit t sep
      else
        match stringsSplit t sep with
        | [] => [[c]]
        | w :: ws => (c :: w) :: ws := by
  rw [stringsSplit]

theorem stringsSplit_of_not_mem (s : Str) (sep : Char) (h : sep ∉ s) :
    stringsSplit s sep = [s] := by
  induction s with
  | nil => rfl
  | cons c t ih =>
    have hc : c ≠ sep := fun e => h (e ▸ List.mem_cons_self _ _)
    have ht : sep ∉ t := fun e => h (List.mem_cons_of_mem _ e)
    unfold stringsSplit
    rw [if_neg hc, ih ht]

theorem stringsSplit_append_sep (a b : Str) (sep : Char) (h : sep ∉ a) :
    stringsSplit (a ++ sep :: b) sep = a :: stringsSplit b sep := by
  induction a with
  | nil =>
    show stringsSplit (sep :: b) sep = _
    rw [stringsSplit_cons, if_pos rfl]
  | cons c t ih =>
    have hc : c ≠ sep := fun e => h (e ▸ List.mem_cons_self _ _)
    have ht : sep ∉ t := fun e => h (List.mem_cons_of_mem _ e)
    show stringsSplit (c :: (t ++ sep :: b)) sep = _
    rw [stringsSplit_cons, if_neg hc, ih ht]

/-- A requirement `op r` with a blank-free operator and a parseable `r`: the
second word is `r`, the first the operator. -/
theorem validateVersion_words (lib : VersionLib) (op r v : Str) (rv vv : lib.Version)
    (hop : ' ' ∉ op) (hr : lib.NewVersion r = some rv) (hv : lib.NewVersion v = some vv) :
    validateVersion lib (op ++ ' ' :: r) v =
      if op = "==".toList then some (lib.Equal vv rv)
      else if op = ">=".toList then some (lib.GreaterThan vv rv || lib.Equal vv rv)
      else if op = ">".toList then some (lib.GreaterThan vv rv)
      else if op = "<=".toList then some (lib.LessThan vv rv || lib.Equal vv rv)
      else if op = "<".toList then some (lib.LessThan vv rv)
      else some false := by
  unfold validateVersion
  rw [stringsSplit_append_sep _ _ _ hop, stringsSplit_of_not_mem _ _ (lib.noBlank r rv hr)]
  simp [hr, hv]

/-- The five operators of `validateVersion`, for parseable versions. -/
theorem validateVersion_ops (lib : VersionLib) (r v : Str) (rv vv : lib.Version)
    (hr : lib.NewVersion r = some rv) (hv : lib.NewVersion v = some vv) :
    validateVersion lib ("==".toList ++ " ".toList ++ r) v = some (decide (lib.Compare vv rv = 0)) ∧
    validateVersion lib (">=".toList ++ " ".toList ++ r) v = some (decide (0 ≤ lib.Compare vv rv)) ∧
    validateVersion lib (">".toList ++ " ".toList ++ r) v = some (decide (0 < lib.Compare vv rv)) ∧
    validateVersion lib ("<=".toList ++ " ".toList ++ r) v = some (decide (lib.Compare vv rv ≤ 0)) ∧
    validateVersion lib ("<".toList ++ " ".toList ++ r) v = some (decide (lib.Compare vv rv < 0)) := by
  have key := fun op hop => validateVersion_words lib op r v rv vv hop hr hv
  have e : " ".toList ++ r = ' ' :: r := rfl
  simp only [List.append_assoc, e]
  rw [key "==".toList (by decide), key ">=".toList (by decide), key ">".toList (by decide),
    key "<=".toList (by decide), key "<".toList (by decide)]
  refine ⟨?_, ?_, ?_, ?_, ?_⟩
  · simp [VersionLib.Equal]
  · simp [VersionLib.GreaterThan, VersionLib.Equal]
    rw [Bool.eq_iff_iff]
    simp only [Bool.or_eq_true, decide_eq_true_eq]
    omega
  · simp [VersionLib.GreaterThan]
  · simp [VersionLib.LessThan, VersionLib.Equal]
    rw [Bool.eq_iff_iff]
    simp only [Bool.or_eq_true, decide_eq_true_eq]
    omega
  · simp [VersionLib.LessThan]

/-- C5. `validateVersion` answers whether the requirement `op r` is satisfied
by the installed version `v`: for each of the operators `==`, `>=`, `>`, `<=`,
`<` and parseable `r` and `v`, the result is true exactly when `v op r` holds
in the order that the library's `Compare` defines. -/
theorem validateVersion_satisfied (lib : VersionLib) (r v : Str) (rv vv : lib.Version)
    (hr : lib.NewVersion r = some rv) (hv : lib.NewVersion v = some vv) :
    validateVersion lib ("==".toList ++ " ".toList ++ r) v = some (decide (lib.Compare vv rv = 0)) ∧
    validateVersion lib (">=".toList ++ " ".toList ++ r) v = some (decide (0 ≤ lib.Compare vv rv)) ∧
    validateVersion lib (">".toList ++ " ".toList ++ r) v = some (decide (0 < lib.Compare vv rv)) ∧
    validateVersion lib ("<=".toList ++ " ".toList ++ r) v = some (decide (lib.Compare vv rv ≤ 0)) ∧
    validateVersion lib ("<".toList ++ " ".toList ++ r) v = some (decide (lib.Compare vv rv < 0)) :=
  validateVersion_ops lib r v rv vv hr hv

/-- The requirement `>= 0.7.1` is satisfied by 0.7.1 and by 0.8.0 and not by
0.7.0. -/
theorem validateVersion_satisfied_witness :
    validateVersion dottedLib (">=".toList ++ " ".toList ++ "0.7.1".toList) "0.8.0".toList
        = some (decide (0 ≤ dottedLib.Compare [0, 8, 0] [0, 7, 1])) ∧
    validateVersion dottedLib ">= 0.7.1".toList "0.7.1".toList = some true ∧
    validateVersion dottedLib ">= 0.7.1".toList "0.8.0".toList = some true ∧
    validateVersion dottedLib ">= 0.7.1".toList "0.7.0".toList = some false :=
  ⟨(validateVersion_satisfied dottedLib "0.7.1".toList "0.8.0".toList [0, 7, 1] [0, 8, 0]
      rfl rfl).2.1, by decide, by decide, by decide⟩

/-- C3. `CheckMeshVersion` with the mesh name `Unknown Istio Implementation`
returns false whatever the compatibility matrix is (loaded or not), although
that name contains `Istio`; so every raw version that matches none of the seven
patterns of `parseIstioRawVersion` is reported as not compatible. -/
theorem CheckMeshVersion_unknown (lib : VersionLib)
    (newCompatibilityMatrix : Option CompatibilityMatrix) (meshVersion kialiVersion raw : Str) :
    CheckMeshVersion lib newCompatibilityMatrix istioProductNameUnknown meshVersion kialiVersion
      = some false
    ∧ stringsContains istioProductNameUnknown istioProductNameUpstream = true
    ∧ ((¬ maistraProductVersionExpr.MatchesIn raw ∧ ¬ maistraProjectVersionExpr.MatchesIn raw ∧
        ¬ ossmVersionExpr.MatchesIn raw ∧ ¬ istioSnapshotVersionExpr.MatchesIn raw ∧
        ¬ istioRCVersionExpr.MatchesIn raw ∧ ¬ istioDevVersionExpr.MatchesIn raw ∧
        ¬ istioVersionExpr.MatchesIn raw) →
        CheckMeshVersion lib newCompatibilityMatrix (parseIstioRawVersion raw).Name
          (parseIstioRawVersion raw).Version kialiVersion = some false) := by
  have h0 : ∀ mv : Str,
      CheckMeshVersion lib newCompatibilityMatrix istioProductNameUnknown mv kialiVersion
        = some false := by
    intro mv
    unfold CheckMeshVersion
    rw [if_pos rfl]
  refine ⟨h0 meshVersion, by decide, ?_⟩
  rintro ⟨h1, h2, h3, h4, h5, h6, h7⟩
  have hn := parseIstioRawVersion_name_eq raw
  rw [if_neg h1, if_neg h2, if_neg h3, if_neg h4, if_neg h5, if_neg h6, if_neg h7] at hn
  rw [hn]
  exact h0 _

/-- `validateVersion` on the requirement `>= low`, for parseable versions. -/
theorem validateVersion_ge (lib : VersionLib) (low version : Str) (l v : lib.Version)
    (hl : lib.NewVersion low = some l) (hv : lib.NewVersion version = some v) :
    validateVersion lib (">= ".toList ++ low) version = some (decide (0 ≤ lib.Compare v l)) :=
  (validateVersion_ops lib low version l v hl hv).2.1

/-- `validateVersion` on the requirement `<= high`, for parseable versions. -/
theorem validateVersion_le (lib : VersionLib) (high version : Str) (h v : lib.Version)
    (hh : lib.NewVersion high = some h) (hv : lib.NewVersion version = some v) :
    validateVersion lib ("<= ".toList ++ high) version = some (decide (lib.Compare v h ≤ 0)) :=
  (validateVersion_ops lib high version h v hh hv).2.2.2.1

/-- The value of `checkRange` without a fixed version, for a parseable version
and bounds that are empty or parseable. -/
theorem checkRange_value (lib : VersionLib) (low high version : Str) (v : lib.Version)
    (hv : lib.NewVersion version = some v)
    (hlow : low ≠ [] → (lib.NewVersion low).isSome = true)
    (hhigh : high ≠ [] → (lib.NewVersion high).isSome = true) :
    ∃ ok ok1 : Bool, checkRange lib low high [] version = some (ok && ok1) ∧
      (ok = true ↔ ∀ l, low ≠ [] → lib.NewVersion low = some l → 0 ≤ lib.Compare v l) ∧
      (ok1 = true ↔ ∀ h, high ≠ [] → lib.NewVersion high = some h → lib.Compare v h ≤ 0) := by
  have hA : ∃ ok : Bool,
      (if low ≠ [] then validateVersion lib (">= ".toList ++ low) version else some true) = some ok ∧
      (ok = true ↔ ∀ l, low ≠ [] → lib.NewVersion low = some l → 0 ≤ lib.Compare v l) := by
    by_cases hl : low = []
    · exact ⟨true, by rw [if_neg (not_not.mpr hl)], by simp [hl]⟩
    · obtain ⟨l, hl1⟩ := Option.isSome_iff_exists.mp (hlow hl)
      refine ⟨decide (0 ≤ lib.Compare v l), ?_, ?_⟩
      · rw [if_pos hl, validateVersion_ge lib low version l v hl1 hv]
      · rw [decide_eq_true_eq]
        constructor
        · intro h l2 _ hl2
          rw [hl1] at hl2
          exact Option.some.inj hl2 ▸ h
        · intro h
          exact h l hl hl1
  have hB : ∃ ok1 : Bool,
      (if high ≠ [] then validateVersion lib ("<= ".toList ++ high) version else some true)
        = some ok1 ∧
      (ok1 = true ↔ ∀ h, high ≠ [] → lib.NewVersion high = some h → lib.Compare v h ≤ 0) := by
    by_cases hh : high = []
    · exact ⟨true, by rw [if_neg (not_not.mpr hh)], by simp [hh]⟩
    · obtain ⟨h, hh1⟩ := Option.isSome_iff_exists.mp (hhigh hh)
      refine ⟨decide (lib.Compare v h ≤ 0), ?_, ?_⟩
      · rw [if_pos hh, validateVersion_le lib high version h v hh1 hv]
      · rw [decide_eq_true_eq]
        constructor
        · intro h0 h2 _ hh2
          rw [hh1] at hh2
          exact Option.some.inj hh2 ▸ h0
        · intro h0
          exact h0 h hh hh1
  obtain ⟨ok, e1, p1⟩ := hA
  obtain ⟨ok1, e2, p2⟩ := hB
  refine ⟨ok, ok1, ?_, p1, p2⟩
  unfold checkRange
  rw [if_neg (not_not.mpr rfl), e1, e2]

/-- C7, as amended. `checkRange` with an empty fixed argument checks whether the
version is in the range: for a parseable version and bounds that are empty or
parseable, the call returns (it does not fail), and it returns true exactly
when the version is at least `low`, if `low` is not empty, and at most `high`,
if `high` is not empty, both in the comparison of the version library. When
the version and both bounds belong to a set of versions that this comparison
orders, which the claim leaves out, and `low` is above `high`, the version is
not accepted. -/
theorem checkRange_in_range (lib : VersionLib) (low high version : Str) (v : lib.Version)
    (hv : lib.NewVersion version = some v)
    (hlow : low ≠ [] → (lib.NewVersion low).isSome = true)
    (hhigh : high ≠ [] → (lib.NewVersion high).isSome = true) :
    (checkRange lib low high [] version).isSome = true
    ∧ (checkRange lib low high [] version = some true ↔
        (∀ l, low ≠ [] → lib.NewVersion low = some l → 0 ≤ lib.Compare v l) ∧
        (∀ h, high ≠ [] → lib.NewVersion high = some h → lib.Compare v h ≤ 0))
    ∧ (∀ S : lib.Version → Prop, lib.IsOrderOn S → S v →
        ∀ l h, low ≠ [] → high ≠ [] → lib.NewVersion low = some l →
        lib.NewVersion high = some h → S l → S h → 0 < lib.Compare l h →
        checkRange lib low high [] version = some false) := by
  obtain ⟨ok, ok1, e, p1, p2⟩ := checkRange_value lib low high version v hv hlow hhigh
  have hiff : checkRange lib low high [] version = some true ↔
      (∀ l, low ≠ [] → lib.NewVersion low = some l → 0 ≤ lib.Compare v l) ∧
      (∀ h, high ≠ [] → lib.NewVersion high = some h → lib.Compare v h ≤ 0) := by
    rw [e, ← p1, ← p2, Option.some.injEq, Bool.and_eq_true]
  refine ⟨by rw [e]; rfl, hiff, ?_⟩
  intro S hord sv l h hl hh hl1 hh1 sl sh hlt
  have hnot : ¬ checkRange lib low high [] version = some true := by
    rw [hiff]
    rintro ⟨q1, q2⟩
    have a1 : 0 ≤ lib.Compare v l := q1 l hl hl1
    have a2 : 0 ≤ lib.Compare h v := (hord.1 h v sh sv).mpr (q2 h hh hh1)
    have a3 : 0 ≤ lib.Compare h l := hord.2 h v l sh sv sl a2 a1
    have a4 : lib.Compare l h ≤ 0 := (hord.1 h l sh sl).mp a3
    omega
  rw [e] at hnot ⊢
  cases hb : (ok && ok1) with
  | true => rw [hb] at hnot; exact absurd rfl hnot
  | false => rfl

theorem dottedCompare_nil_left (b : List Nat) :
    dottedCompare [] b = if b.all (fun x => x == 0) then 0 else -1 := by
  cases b <;> rfl

theorem dottedCompare_nil_right (a : List Nat) :
    dottedCompare a [] = if a.all (fun x => x == 0) then 0 else 1 := by
  cases a <;> rfl

theorem dottedCompare_antisymm (a : List Nat) : ∀ b, dottedCompare b a = - dottedCompare a b := by
  induction a with
  | nil =>
    intro b
    rw [dottedCompare_nil_left, dottedCompare_nil_right]
    split_ifs <;> rfl
  | cons x as ih =>
    intro b
    cases b with
    | nil =>
      rw [dottedCompare_nil_left, dottedCompare_nil_right]
      split_ifs <;> rfl
    | cons y bs =>
      simp only [dottedCompare]
      rw [ih bs]
      split_ifs <;> first | rfl | omega

theorem dottedCompare_zeros_left (b : List Nat) (hb : b.all (fun x => x == 0) = true) :
    ∀ c, dottedCompare b c = dottedCompare [] c := by
  induction b with
  | nil => intro c; rfl
  | cons y bs ih =>
    intro c
    simp only [List.all_cons, Bool.and_eq_true, beq_iff_eq] at hb
    obtain ⟨rfl, hbs⟩ := hb
    cases c with
    | nil =>
      rw [dottedCompare_nil_right]
      simp [hbs, dottedCompare]
    | cons z cs =>
      simp only [dottedCompare]
      rw [ih hbs cs, dottedCompare_nil_left]
      by_cases hz : z = 0
      · subst hz; simp
      · have : 0 < z := Nat.pos_of_ne_zero hz
        simp [this, hz]

theorem dottedCompare_trans (a : List Nat) : ∀ b c,
    0 ≤ dottedCompare a b → 0 ≤ dottedCompare b c → 0 ≤ dottedCompare a c := by
  induction a with
  | nil =>
    intro b c h1 h2
    rw [dottedCompare_nil_left] at h1
    have hb : b.all (fun x => x == 0) = true := by
      by_contra hb
      rw [if_neg hb] at h1
      omega
    rwa [dottedCompare_zeros_left b hb c] at h2
  | cons x as ih =>
    intro b c h1 h2
    cases b with
    | nil =>
      rw [dottedCompare_nil_left] at h2
      have hc : c.all (fun x => x == 0) = true := by
        by_contra hc
        rw [if_neg hc] at h2
        omega
      rw [dottedCompare_antisymm c (x :: as), dottedCompare_zeros_left c hc,
        dottedCompare_nil_left]
      split_ifs <;> omega
    | cons y bs =>
      cases c with
      | nil =>
        rw [dottedCompare_nil_right]
        split_ifs <;> omega
      | cons z cs =>
        simp only [dottedCompare] at h1 h2 ⊢
        have ih1 := ih bs cs
        split_ifs at h1 h2 ⊢ <;> omega

/-- The dotted decimal versions are ordered by their comparison. -/
theorem dottedLib_isOrder : dottedLib.IsOrder := by
  constructor
  · intro a b
    show 0 ≤ dottedCompare a b ↔ dottedCompare b a ≤ 0
    rw [dottedCompare_antisymm a b]
    omega
  · intro a b c
    exact dottedCompare_trans a b c

/-- An order on all versions is an order on each set of them. -/
theorem VersionLib.IsOrder.isOrderOn {lib : VersionLib} (h : lib.IsOrder)
    (S : lib.Version → Prop) : lib.IsOrderOn S :=
  ⟨fun a b _ _ => h.1 a b, fun a b c _ _ _ => h.2 a b c⟩

/-- On two versions without pre-release text the library with pre-release
identifiers compares the numbers. -/
theorem prereleaseCompare_plain (a b : List Nat × Str) (ha : a.2 = []) (hb : b.2 = []) :
    prereleaseCompare a b = dottedCompare a.1 b.1 := by
  unfold prereleaseCompare
  by_cases h : dottedCompare a.1 b.1 = 0
  · rw [if_pos h, if_pos ⟨ha, hb⟩, h]
  · rw [if_neg h]

/-- The library with pre-release identifiers orders the versions that have no
pre-release text. -/
theorem prereleaseLib_isOrderOn_plain : prereleaseLib.IsOrderOn (fun v => v.2 = []) := by
  constructor
  · intro a b ha hb
    show 0 ≤ prereleaseCompare a b ↔ prereleaseCompare b a ≤ 0
    rw [prereleaseCompare_plain a b ha hb, prereleaseCompare_plain b a hb ha]
    exact dottedLib_isOrder.1 a.1 b.1
  · intro a b c ha hb hc
    show 0 ≤ prereleaseCompare a b → 0 ≤ prereleaseCompare b c → 0 ≤ prereleaseCompare a c
    rw [prereleaseCompare_plain a b ha hb, prereleaseCompare_plain b c hb hc,
      prereleaseCompare_plain a c ha hc]
    exact dottedLib_isOrder.2 a.1 b.1 c.1

/-- The range from 1.0 to 2.0 holds 1.5, and the range from 2.0 to 1.0 does
not, also in the library with pre-release identifiers, which orders the
versions without pre-release text. -/
theorem checkRange_in_range_witness :
    checkRange dottedLib "1.0".toList "2.0".toList [] "1.5".toList = some true
    ∧ checkRange dottedLib "2.0".toList "1.0".toList [] "1.5".toList = some false
    ∧ checkRange prereleaseLib "2.0".toList "1.0".toList [] "1.5".toList = some false :=
  ⟨((checkRange_in_range dottedLib "1.0".toList "2.0".toList "1.5".toList [1, 5] rfl
      (fun _ => rfl) (fun _ => rfl)).2.1).mpr
    ⟨fun l _ hl => by
        obtain rfl : [1, 0] = l := Option.some.inj hl
        decide,
     fun h _ hh => by
        obtain rfl : [2, 0] = h := Option.some.inj hh
        decide⟩,
   (checkRange_in_range dottedLib "2.0".toList "1.0".toList "1.5".toList [1, 5] rfl
      (fun _ => rfl) (fun _ => rfl)).2.2 (fun _ => True) (dottedLib_isOrder.isOrderOn _) trivial
      [2, 0] [1, 0] (by decide) (by decide) rfl rfl trivial trivial (by decide),
   (checkRange_in_range prereleaseLib "2.0".toList "1.0".toList "1.5".toList ([1, 5], []) rfl
      (fun _ => rfl) (fun _ => rfl)).2.2 (fun v => v.2 = []) prereleaseLib_isOrderOn_plain rfl
      ([2, 0], []) ([1, 0], []) (by decide) (by decide) rfl rfl rfl rfl
      (by show 0 < prereleaseCompare ([2, 0], []) ([1, 0], []); decide)⟩

/-- C7 fails as it is stated. With go-version's order of pre-release
identifiers, both bounds are given, `low` = `1.0.0-a.b` is above `high` =
`1.0.0-a.1`, and `checkRange` accepts the version `1.0.0-a`: it is at least
`low` and at most `high`. -/
theorem checkRange_low_above_high_accepts :
    prereleaseLib.NewVersion "1.0.0-a.b".toList = some ([1, 0, 0], "a.b".toList)
    ∧ prereleaseLib.NewVersion "1.0.0-a.1".toList = some ([1, 0, 0], "a.1".toList)
    ∧ prereleaseLib.NewVersion "1.0.0-a".toList = some ([1, 0, 0], "a".toList)
    ∧ 0 < prereleaseLib.Compare ([1, 0, 0], "a.b".toList) ([1, 0, 0], "a.1".toList)
    ∧ checkRange prereleaseLib "1.0.0-a.b".toList "1.0.0-a.1".toList [] "1.0.0-a".toList
        = some true := by
  refine ⟨rfl, rfl, rfl, ?_, ?_⟩
  · show 0 < prereleaseCompare ([1, 0, 0], "a.b".toList) ([1, 0, 0], "a.1".toList)
    decide
  · decide

/-! ### checkOSSMVersion -/

theorem checkOSSMVersion.fixedLoop_eq_true (kialiVersion : Str) (fixed : List Str) (ok : Bool) :
    checkOSSMVersion.fixedLoop kialiVersion fixed ok = true ↔ ok = true ∨ kialiVersion ∈ fixed := by
  induction fixed with
  | nil => simp [checkOSSMVersion.fixedLoop]
  | cons f rest ih =>
    unfold checkOSSMVersion.fixedLoop
    by_cases h : kialiVersion = f
    · simp [h]
    · rw [if_neg h, ih, List.mem_cons]
      tauto

theorem checkOSSMVersion.rangeLoop_eq_true (ossmVersion kialiVersion : Str)
    (ranges : List VersionRange) : ∀ ok : Bool,
    checkOSSMVersion.rangeLoop ossmVersion kialiVersion ranges ok = true ↔
      ok = true ∨ ∃ r ∈ ranges, ossmVersion = TrimSpace r.MeshVersion ∧
        kialiVersion ∈ r.KialiFixedVersion := by
  induction ranges with
  | nil => intro ok; simp [checkOSSMVersion.rangeLoop]
  | cons r rest ih =>
    intro ok
    unfold checkOSSMVersion.rangeLoop
    by_cases h : ossmVersion = TrimSpace r.MeshVersion
    · rw [if_pos h, ih, checkOSSMVersion.fixedLoop_eq_true]
      simp only [List.mem_cons, exists_eq_or_imp, ← h, true_and, or_assoc]
    · rw [if_neg h, ih]
      simp only [List.mem_cons, exists_eq_or_imp, h, false_and, false_or]

theorem checkOSSMVersion.matrixLoop_eq_true (ossmVersion kialiVersion : Str)
    (matrix : List MeshCompatibility) : ∀ ok : Bool,
    checkOSSMVersion.matrixLoop ossmVersion kialiVersion matrix ok = true ↔
      ok = true ∨ ∃ e ∈ matrix, e.MeshName = istioProductNameOSSM ∧
        ∃ r ∈ e.VersionRange, ossmVersion = TrimSpace r.MeshVersion ∧
          kialiVersion ∈ r.KialiFixedVersion := by
  induction matrix with
  | nil => intro ok; simp [checkOSSMVersion.matrixLoop]
  | cons e rest ih =>
    intro ok
    unfold checkOSSMVersion.matrixLoop
    by_cases h : e.MeshName = istioProductNameOSSM
    · rw [if_pos h, ih, checkOSSMVersion.rangeLoop_eq_true]
      simp only [List.mem_cons, exists_eq_or_imp, h, true_and, or_assoc]
    · rw [if_neg h, ih]
      simp only [List.mem_cons, exists_eq_or_imp, h, false_and, false_or]

theorem beforeDot_zero (t : Str) : beforeDot 0 t = (stringsSplit t '.').getD 0 [] := by
  induction t with
  | nil => rfl
  | cons c t ih =>
    rw [stringsSplit_cons]
    unfold beforeDot
    by_cases hc : c = '.'
    · rw [if_pos hc, if_pos hc]; rfl
    · rw [if_neg hc, if_neg hc, ih]
      cases hs : stringsSplit t '.' with
      | nil => exact absurd hs (stringsSplit_ne_nil _ _)
      | cons w ws => rfl

/-- The `X.Y` text that `checkOSSMVersion` computes from the split of a version
is the text before its second dot. -/
theorem beforeDot_one (t : Str) :
    (if (stringsSplit t '.').length > 1 then
        (stringsSplit t '.').getD 0 [] ++ ".".toList ++ (stringsSplit t '.').getD 1 []
      else t) = beforeDot 1 t := by
  induction t with
  | nil => rfl
  | cons c t ih =>
    rw [stringsSplit_cons]
    unfold beforeDot
    by_cases hc : c = '.'
    · rw [if_pos hc, if_pos hc]
      have hlen : ([] :: stringsSplit t '.').length > 1 := by
        have := List.length_pos.mpr (stringsSplit_ne_nil t '.')
        simp only [List.length_cons]
        omega
      rw [if_pos hlen, hc]
      show _ = '.' :: beforeDot 0 t
      rw [beforeDot_zero]
      cases hs : stringsSplit t '.' with
      | nil => exact absurd hs (stringsSplit_ne_nil _ _)
      | cons w ws => rfl
    · rw [if_neg hc, if_neg hc, ← ih]
      cases hs : stringsSplit t '.' with
      | nil => exact absurd hs (stringsSplit_ne_nil _ _)
      | cons w ws =>
        cases ws with
        | nil => simp
        | cons w2 ws2 => simp

theorem checkOSSMVersion_iff (matrix : CompatibilityMatrix) (ossmVersion kialiVersion : Str) :
    checkOSSMVersion (some matrix) ossmVersion kialiVersion = true ↔
      ∃ e ∈ matrix, e.MeshName = istioProductNameOSSM ∧
        ∃ r ∈ e.VersionRange, xyPortion ossmVersion = TrimSpace r.MeshVersion ∧
          xyPortion kialiVersion ∈ r.KialiFixedVersion := by
  unfold checkOSSMVersion
  simp only []
  rw [beforeDot_one, beforeDot_one, checkOSSMVersion.matrixLoop_eq_true]
  simp [xyPortion]

/-- C6. `checkOSSMVersion` returns true exactly when some range of a matrix
entry named `OpenShift Service Mesh` has a whitespace-trimmed `MeshVersion`
equal to the `X.Y` portion of the mesh version and lists a `KialiFixedVersion`
equal to the `X.Y` portion of the Kiali version. There is no range check:
replacing the minimum and maximum Kiali versions of the ranges by anything
leaves the result unchanged. -/
theorem checkOSSMVersion_fixed_only (matrix : CompatibilityMatrix)
    (ossmVersion kialiVersion : Str) (g : VersionRange → Str × Str) :
    (checkOSSMVersion (some matrix) ossmVersion kialiVersion = true ↔
      ∃ e ∈ matrix, e.MeshName = istioProductNameOSSM ∧
        ∃ r ∈ e.VersionRange, TrimSpace r.MeshVersion = xyPortion ossmVersion ∧
          ∃ f ∈ r.KialiFixedVersion, f = xyPortion kialiVersion)
    ∧ checkOSSMVersion (some (withBounds g matrix)) ossmVersion kialiVersion
        = checkOSSMVersion (some matrix) ossmVersion kialiVersion := by
  constructor
  · rw [checkOSSMVersion_iff]
    simp only [exists_eq_right, eq_comm]
  · rw [Bool.eq_iff_iff, checkOSSMVersion_iff, checkOSSMVersion_iff]
    simp [withBounds]

/-! ### Submatches of the snapshot pattern -/

theorem Regex.sem_chr (a : Char) (m : Str) (c c1 : Caps) :
    (Regex.chr a).Sem m c c1 ↔ m = [a] ∧ c1 = c := by
  constructor
  · rintro ⟨⟨x, rfl, hx⟩, rfl⟩
    have : x = a := by simpa using hx
    rw [this]
    exact ⟨rfl, rfl⟩
  · rintro ⟨rfl, rfl⟩
    exact ⟨⟨a, rfl, by simp⟩, rfl⟩

theorem Regex.sem_plus (p : Char → Bool) (m : Str) (c c1 : Caps) :
    (Regex.plus p).Sem m c c1 ↔ (m ≠ [] ∧ ∀ x ∈ m, p x = true) ∧ c1 = c := by
  constructor
  · rintro ⟨m1, m2, c2, rfl, ⟨⟨x, rfl, hx⟩, rfl⟩, ⟨hall, rfl⟩⟩
    refine ⟨⟨by simp, ?_⟩, rfl⟩
    intro y hy
    rcases List.mem_cons.mp hy with rfl | hy
    · exact hx
    · exact hall y hy
  · rintro ⟨⟨hne, hall⟩, rfl⟩
    cases m with
    | nil => exact absurd rfl hne
    | cons x t =>
      exact ⟨[x], t, c1, rfl, ⟨⟨x, rfl, hall x (List.mem_cons_self _ _)⟩, rfl⟩,
        ⟨fun y hy => hall y (List.mem_cons_of_mem _ hy), rfl⟩⟩

theorem Regex.sem_rep (n : Nat) (p : Char → Bool) : ∀ (m : Str) (c c1 : Caps),
    (Regex.rep n p).Sem m c c1 ↔ (m.length = n ∧ ∀ x ∈ m, p x = true) ∧ c1 = c := by
  induction n with
  | zero =>
    intro m c c1
    constructor
    · rintro ⟨rfl, rfl⟩
      exact ⟨⟨rfl, by simp⟩, rfl⟩
    · rintro ⟨⟨hlen, _⟩, rfl⟩
      exact ⟨List.length_eq_zero.mp hlen, rfl⟩
  | succ n ih =>
    intro m c c1
    constructor
    · rintro ⟨m1, m2, c2, rfl, ⟨⟨x, rfl, hx⟩, rfl⟩, h2⟩
      obtain ⟨⟨hlen, hall⟩, rfl⟩ := (ih m2 c2 c1).mp h2
      refine ⟨⟨by simp [hlen], ?_⟩, rfl⟩
      intro y hy
      rcases List.mem_cons.mp hy with rfl | hy
      · exact hx
      · exact hall y hy
    · rintro ⟨⟨hlen, hall⟩, rfl⟩
      cases m with
      | nil => simp at hlen
      | cons x t =>
        exact ⟨[x], t, c1, rfl, ⟨⟨x, rfl, hall x (List.mem_cons_self _ _)⟩, rfl⟩,
          (ih t c1 c1).mpr ⟨⟨by simpa using hlen, fun y hy => hall y (List.mem_cons_of_mem _ hy)⟩,
            rfl⟩⟩

theorem sem_twoNumbers (m : Str) (c c1 : Caps) :
    twoNumbers.Sem m c c1 ↔
      (∃ a b : Str, m = a ++ '.' :: b ∧ (a ≠ [] ∧ ∀ x ∈ a, digit x = true) ∧
        (b ≠ [] ∧ ∀ x ∈ b, digit x = true)) ∧ c1 = c := by
  unfold twoNumbers
  constructor
  · rintro ⟨a, m2, c2, rfl, sa, d, b, c3, rfl, sd, sb⟩
    obtain ⟨ha, rfl⟩ := (Regex.sem_plus _ _ _ _).mp sa
    obtain ⟨rfl, rfl⟩ := (Regex.sem_chr _ _ _ _).mp sd
    obtain ⟨hb, rfl⟩ := (Regex.sem_plus _ _ _ _).mp sb
    exact ⟨⟨a, b, rfl, ha, hb⟩, rfl⟩
  · rintro ⟨⟨a, b, rfl, ha, hb⟩, rfl⟩
    exact ⟨a, '.' :: b, c1, rfl, (Regex.sem_plus _ _ _ _).mpr ⟨ha, rfl⟩, ['.'], b, c1, rfl,
      (Regex.sem_chr _ _ _ _).mpr ⟨rfl, rfl⟩, (Regex.sem_plus _ _ _ _).mpr ⟨hb, rfl⟩⟩

/-- What the search for the snapshot pattern returns: the slice of the whole
match `istio-release-A.B-D`, the text `A.B` and the text `-D`, where `A` and
`B` are non-empty runs of digits and `D` is eight digits. -/
theorem FindStringSubmatch_snapshot (raw : Str) (arr : Caps)
    (h : FindStringSubmatch istioSnapshotVersionExpr raw = some arr) :
    ∃ pre a b d post : Str,
      raw = pre ++ ("istio-release-".toList ++ (a ++ '.' :: b) ++ ('-' :: d)) ++ post ∧
      (a ≠ [] ∧ ∀ x ∈ a, digit x = true) ∧ (b ≠ [] ∧ ∀ x ∈ b, digit x = true) ∧
      (d.length = 8 ∧ ∀ x ∈ d, digit x = true) ∧
      arr = ["istio-release-".toList ++ (a ++ '.' :: b) ++ ('-' :: d), a ++ '.' :: b, '-' :: d] := by
  obtain ⟨pre, m, post, c1, hraw, hsem, rfl⟩ := FindStringSubmatch_sound _ _ _ h
  unfold istioSnapshotVersionExpr at hsem
  obtain ⟨m1, m2, c2, rfl, hlit, m3, m4, c3, rfl, ⟨c4, htwo, rfl⟩, c5,
    ⟨m5, m6, c6, rfl, hdash, hrep⟩, rfl⟩ := hsem
  obtain ⟨rfl, rfl⟩ := (Regex.sem_lit _ _ _ _).mp hlit
  obtain ⟨⟨a, b, rfl, ha, hb⟩, rfl⟩ := (sem_twoNumbers _ _ _).mp htwo
  obtain ⟨rfl, rfl⟩ := (Regex.sem_chr _ _ _ _).mp hdash
  obtain ⟨hd, rfl⟩ := (Regex.sem_rep _ _ _ _ _).mp hrep
  refine ⟨pre, a, b, m6, post, ?_, ha, hb, hd, ?_⟩
  · rw [hraw]
    simp
  · simp [Regex.NumSubexp, Regex.lit, Regex.chr, Regex.plus, Regex.rep, twoNumbers,
      List.replicate]

/-- C10. For every raw version classified as `Istio Snapshot`, the returned
version is the `A.B` major and minor numbers immediately followed by the
hyphen and the eight-digit date stamp that follow `istio-release-` in the raw
string. -/
theorem parseIstioRawVersion_snapshot (raw : Str)
    (h : (parseIstioRawVersion raw).Name = istioProductNameUpstreamSnapshot) :
    ∃ pre a b d post : Str,
      raw = pre ++ "istio-release-".toList ++ a ++ ".".toList ++ b ++ "-".toList ++ d ++ post ∧
      a ≠ [] ∧ (∀ x ∈ a, digit x = true) ∧ b ≠ [] ∧ (∀ x ∈ b, digit x = true) ∧
      d.length = 8 ∧ (∀ x ∈ d, digit x = true) ∧
      (parseIstioRawVersion raw).Version = a ++ ".".toList ++ b ++ "-".toList ++ d := by
  have key : ∃ arr, FindStringSubmatch istioSnapshotVersionExpr raw = some arr ∧
      (parseIstioRawVersion raw).Version = arr.getD 1 [] ++ arr.getD 2 [] := by
    rcases parseIstioRawVersion_cases raw with ⟨a, _, e⟩ | ⟨_, r⟩
    · rw [e] at h; dsimp only at h; exact absurd h (by decide)
    rcases r with ⟨a, _, e⟩ | ⟨_, r⟩
    · rw [e] at h; dsimp only at h; exact absurd h (by decide)
    rcases r with ⟨a, _, e⟩ | ⟨_, r⟩
    · rw [e] at h; dsimp only at h; exact absurd h (by decide)
    rcases r with ⟨a, ha, e⟩ | ⟨_, r⟩
    · exact ⟨a, ha, by rw [e]⟩
    rcases r with ⟨a, _, e⟩ | ⟨_, r⟩
    · rw [e] at h; dsimp only at h; exact absurd h (by decide)
    rcases r with ⟨a, _, ⟨_, e⟩ | ⟨_, e⟩⟩ | ⟨_, r⟩
    · rw [e] at h; dsimp only at h; exact absurd h (by decide)
    · rw [e] at h; dsimp only at h; exact absurd h (by decide)
    rcases r with ⟨a, _, e⟩ | ⟨_, e⟩
    · rw [e] at h; dsimp only at h; exact absurd h (by decide)
    · rw [e] at h; dsimp only at h; exact absurd h (by decide)
  obtain ⟨arr, harr, hver⟩ := key
  obtain ⟨pre, a, b, d, post, hraw, ha, hb, hd, rfl⟩ := FindStringSubmatch_snapshot raw arr harr
  refine ⟨pre, a, b, d, post, ?_, ha.1, ha.2, hb.1, hb.2, hd.1, hd.2, ?_⟩
  · rw [hraw]
    simp
  · rw [hver]
    simp

set_option maxRecDepth 100000 in
/-- The documented snapshot version yields `1.0-20180927`. -/
theorem parseIstioRawVersion_snapshot_witness :
    (parseIstioRawVersion "root@f72e3d3ef3c2-docker.io/istio-release-1.0-20180927-21-10-cbe9c05c470ec1924f7bcf02334b183e7e6175cb-Clean".toList).Version
      = "1.0-20180927".toList
    ∧ ∃ pre a b d post : Str,
      "root@f72e3d3ef3c2-docker.io/istio-release-1.0-20180927-21-10-cbe9c05c470ec1924f7bcf02334b183e7e6175cb-Clean".toList
        = pre ++ "istio-release-".toList ++ a ++ ".".toList ++ b ++ "-".toList ++ d ++ post ∧
      a ≠ [] ∧ (∀ x ∈ a, digit x = true) ∧ b ≠ [] ∧ (∀ x ∈ b, digit x = true) ∧
      d.length = 8 ∧ (∀ x ∈ d, digit x = true) ∧
      (parseIstioRawVersion "root@f72e3d3ef3c2-docker.io/istio-release-1.0-20180927-21-10-cbe9c05c470ec1924f7bcf02334b183e7e6175cb-Clean".toList).Version
        = a ++ ".".toList ++ b ++ "-".toList ++ d :=
  ⟨by decide, parseIstioRawVersion_snapshot _ (by decide)⟩

/-! ## Inputs on which the code departs from the documented behaviour -/

/-- C2 (the code departs from the claim). With the matrix `twoRangeMatrix`,
Istio 1.14.0 and Kiali 1.50.0, the first range of the entry named `Istio` has
its mesh version in the Istio version and lists the Kiali version as a fixed
version, so it accepts; `checkIstioVersion` still returns false, because the
second range, whose mesh version `1.1` also occurs in `1.14.0`, is checked
afterwards and its answer replaces the first. -/
theorem checkIstioVersion_later_range_overrides :
    checkIstioVersion dottedLib (some twoRangeMatrix) "1.14.0".toList "1.50.0".toList = some false
    ∧ (∃ e ∈ twoRangeMatrix, e.MeshName = istioProductNameUpstream ∧
        ∃ r ∈ e.VersionRange, stringsContains "1.14.0".toList r.MeshVersion = true ∧
          ∃ f ∈ r.KialiFixedVersion,
            validateVersion dottedLib ("== ".toList ++ f) "1.50.0".toList = some true) := by
  decide

set_option maxRecDepth 100000 in
/-- C8 (the code departs from the claim). The raw version
`1.10-dev-65a124dc2ab69f91331298fbf6d9b4335abcf0fd-alpha` has the dev form
`X.Y-dev-HASH-SUFFIX` and matches no pattern of higher priority; the dev
pattern matches it through its second alternative, with groups 3 and 4 holding
`1.10` and the hash. The matched text contains `alpha`, so the code reads
groups 1 and 2, which are empty: the version is ` (dev )`. -/
theorem parseIstioRawVersion_dev_suffix_alpha :
    FindStringSubmatch maistraProductVersionExpr
      "1.10-dev-65a124dc2ab69f91331298fbf6d9b4335abcf0fd-alpha".toList = none
    ∧ FindStringSubmatch maistraProjectVersionExpr
      "1.10-dev-65a124dc2ab69f91331298fbf6d9b4335abcf0fd-alpha".toList = none
    ∧ FindStringSubmatch ossmVersionExpr
      "1.10-dev-65a124dc2ab69f91331298fbf6d9b4335abcf0fd-alpha".toList = none
    ∧ FindStringSubmatch istioSnapshotVersionExpr
      "1.10-dev-65a124dc2ab69f91331298fbf6d9b4335abcf0fd-alpha".toList = none
    ∧ FindStringSubmatch istioRCVersionExpr
      "1.10-dev-65a124dc2ab69f91331298fbf6d9b4335abcf0fd-alpha".toList = none
    ∧ FindStringSubmatch istioDevVersionExpr
      "1.10-dev-65a124dc2ab69f91331298fbf6d9b4335abcf0fd-alpha".toList =
        some ["1.10-dev-65a124dc2ab69f91331298fbf6d9b4335abcf0fd-alpha".toList, [], [],
          "1.10".toList, "65a124dc2ab69f91331298fbf6d9b4335abcf0fd".toList]
    ∧ parseIstioRawVersion "1.10-dev-65a124dc2ab69f91331298fbf6d9b4335abcf0fd-alpha".toList =
        { Name := istioProductNameUpstreamDev, Version := " (dev )".toList, Url := [] }
    ∧ (parseIstioRawVersion "1.10-dev-65a124dc2ab69f91331298fbf6d9b4335abcf0fd-alpha".toList).Version
        ≠ "1.10 (dev 65a124dc2ab69f91331298fbf6d9b4335abcf0fd)".toList := by
  decide

set_option maxRecDepth 100000 in
/-- C9 (the code departs from the claim). The raw version
`1.7-0-alpha.1-cd46a166947eac363380c3aa3523b26a8c391f98-dirty-Modified` is
classified as `Istio RC` with version `1.7-0 (alpha.1)`: the second dot of the
RC pattern is not escaped and matches the hyphen, so the text before ` (` is
not three dot-separated numbers. -/
theorem parseIstioRawVersion_rc_unescaped_dot :
    parseIstioRawVersion
      "1.7-0-alpha.1-cd46a166947eac363380c3aa3523b26a8c391f98-dirty-Modified".toList =
        { Name := istioProductNameUpstreamRC, Version := "1.7-0 (alpha.1)".toList, Url := [] }
    ∧ FindStringSubmatch istioRCVersionExpr
      "1.7-0-alpha.1-cd46a166947eac363380c3aa3523b26a8c391f98-dirty-Modified".toList =
        some ["1.7-0-alpha.1".toList, "1.7-0".toList, "alpha.1".toList]
    ∧ isThreeNumbers "1.7-0".toList = false
    ∧ isThreeNumbers "1.7.0".toList = true := by
  decide

/-! ### Submatches of the `#.#.#` patterns -/

theorem Regex.Sem.caps_eq {re : Regex} (hg : re.groupFree = true) :
    ∀ {m : Str} {c c1 : Caps}, re.Sem m c c1 → c1 = c := by
  induction re with
  | eps => intro m c c1 h; exact h.2
  | cls p => intro m c c1 h; exact h.2
  | star p => intro m c c1 h; exact h.2
  | seq a b iha ihb =>
    intro m c c1 h
    simp only [Regex.groupFree, Bool.and_eq_true] at hg
    obtain ⟨m1, m2, c2, _, h1, h2⟩ := h
    rw [ihb hg.2 h2, iha hg.1 h1]
  | alt a b iha ihb =>
    intro m c c1 h
    simp only [Regex.groupFree, Bool.and_eq_true] at hg
    rcases h with h | h
    · exact iha hg.1 h
    · exact ihb hg.2 h
  | group i re ih => simp [Regex.groupFree] at hg

theorem Regex.numSubexp_groupFree {re : Regex} (hg : re.groupFree = true) : re.NumSubexp = 0 := by
  induction re with
  | eps => rfl
  | cls p => rfl
  | star p => rfl
  | seq a b iha ihb =>
    simp only [Regex.groupFree, Bool.and_eq_true] at hg
    simp [Regex.NumSubexp, iha hg.1, ihb hg.2]
  | alt a b iha ihb =>
    simp only [Regex.groupFree, Bool.and_eq_true] at hg
    simp [Regex.NumSubexp, iha hg.1, ihb hg.2]
  | group i re ih => simp [Regex.groupFree] at hg

theorem sem_threeNumbers (m : Str) (c c1 : Caps) :
    threeNumbers.Sem m c c1 ↔
      (∃ x y z : Str, m = x ++ '.' :: (y ++ '.' :: z) ∧ (x ≠ [] ∧ ∀ d ∈ x, digit d = true) ∧
        (y ≠ [] ∧ ∀ d ∈ y, digit d = true) ∧ (z ≠ [] ∧ ∀ d ∈ z, digit d = true)) ∧ c1 = c := by
  unfold threeNumbers
  constructor
  · rintro ⟨x, m2, c2, rfl, sx, d1, m3, c3, rfl, sd1, y, m4, c4, rfl, sy, d2, z, c5, rfl, sd2, sz⟩
    obtain ⟨hx, rfl⟩ := (Regex.sem_plus _ _ _ _).mp sx
    obtain ⟨rfl, rfl⟩ := (Regex.sem_chr _ _ _ _).mp sd1
    obtain ⟨hy, rfl⟩ := (Regex.sem_plus _ _ _ _).mp sy
    obtain ⟨rfl, rfl⟩ := (Regex.sem_chr _ _ _ _).mp sd2
    obtain ⟨hz, rfl⟩ := (Regex.sem_plus _ _ _ _).mp sz
    exact ⟨⟨x, y, z, by simp, hx, hy, hz⟩, rfl⟩
  · rintro ⟨⟨x, y, z, rfl, hx, hy, hz⟩, rfl⟩
    exact ⟨x, '.' :: (y ++ '.' :: z), c1, rfl, (Regex.sem_plus _ _ _ _).mpr ⟨hx, rfl⟩,
      ['.'], y ++ '.' :: z, c1, rfl, (Regex.sem_chr _ _ _ _).mpr ⟨rfl, rfl⟩,
      y, '.' :: z, c1, rfl, (Regex.sem_plus _ _ _ _).mpr ⟨hy, rfl⟩,
      ['.'], z, c1, rfl, (Regex.sem_chr _ _ _ _).mpr ⟨rfl, rfl⟩,
      (Regex.sem_plus _ _ _ _).mpr ⟨hz, rfl⟩⟩

/-- The text `s` is three non-empty runs of decimal digits separated by two
dots and occurs in `raw`. -/
theorem threeNumbers_group (P : Regex) (hP : P.groupFree = true) (raw : Str) (arr : Caps)
    (h : FindStringSubmatch (Regex.seq P (Regex.group 1 threeNumbers)) raw = some arr) :
    ∃ x y z : Str, arr.getD 1 [] = x ++ '.' :: (y ++ '.' :: z) ∧
      (x ≠ [] ∧ ∀ d ∈ x, digit d = true) ∧ (y ≠ [] ∧ ∀ d ∈ y, digit d = true) ∧
      (z ≠ [] ∧ ∀ d ∈ z, digit d = true) ∧ arr.getD 1 [] <:+: raw := by
  obtain ⟨pre, m, post, c1, hraw, hsem, rfl⟩ := FindStringSubmatch_sound _ _ _ h
  obtain ⟨m1, m2, c2, rfl, hp, c3, h3, rfl⟩ := hsem
  have e2 := Regex.Sem.caps_eq hP hp
  subst e2
  obtain ⟨⟨x, y, z, rfl, hx, hy, hz⟩, rfl⟩ := (sem_threeNumbers _ _ _).mp h3
  have hn : (Regex.seq P (Regex.group 1 threeNumbers)).NumSubexp = 1 := by
    simp [Regex.NumSubexp, Regex.numSubexp_groupFree hP]
  rw [hn]
  refine ⟨x, y, z, rfl, hx, hy, hz, ?_⟩
  rw [hraw]
  exact ⟨pre ++ m1, post, by simp [List.replicate]⟩

theorem threeNumbers_group_only (raw : Str) (arr : Caps)
    (h : FindStringSubmatch istioVersionExpr raw = some arr) :
    ∃ x y z : Str, arr.getD 1 [] = x ++ '.' :: (y ++ '.' :: z) ∧
      (x ≠ [] ∧ ∀ d ∈ x, digit d = true) ∧ (y ≠ [] ∧ ∀ d ∈ y, digit d = true) ∧
      (z ≠ [] ∧ ∀ d ∈ z, digit d = true) ∧ arr.getD 1 [] <:+: raw := by
  obtain ⟨pre, m, post, c1, hraw, hsem, rfl⟩ := FindStringSubmatch_sound _ _ _ h
  unfold istioVersionExpr at hsem
  obtain ⟨c3, h3, rfl⟩ := hsem
  obtain ⟨⟨x, y, z, rfl, hx, hy, hz⟩, rfl⟩ := (sem_threeNumbers _ _ _).mp h3
  refine ⟨x, y, z, rfl, hx, hy, hz, ?_⟩
  rw [hraw]
  exact ⟨pre, post, rfl⟩

/-- C11. For every raw version classified as `Maistra`, `Maistra Project`,
`OpenShift Service Mesh` or `Istio`, the returned version is the `#.#.#`
version string: three non-empty runs of decimal digits separated by two dots,
and it is a substring of the raw string. -/
theorem parseIstioRawVersion_three_numbers (raw : Str)
    (h : (parseIstioRawVersion raw).Name ∈
      [istioProductNameMaistra, istioProductNameMaistraProject, istioProductNameOSSM,
       istioProductNameUpstream]) :
    ∃ x y z : Str,
      (parseIstioRawVersion raw).Version = x ++ ".".toList ++ y ++ ".".toList ++ z ∧
      x ≠ [] ∧ (∀ d ∈ x, digit d = true) ∧ y ≠ [] ∧ (∀ d ∈ y, digit d = true) ∧
      z ≠ [] ∧ (∀ d ∈ z, digit d = true) ∧
      (parseIstioRawVersion raw).Version <:+: raw := by
  have key : ∃ x y z : Str, (parseIstioRawVersion raw).Version = x ++ '.' :: (y ++ '.' :: z) ∧
      (x ≠ [] ∧ ∀ d ∈ x, digit d = true) ∧ (y ≠ [] ∧ ∀ d ∈ y, digit d = true) ∧
      (z ≠ [] ∧ ∀ d ∈ z, digit d = true) ∧ (parseIstioRawVersion raw).Version <:+: raw := by
    rcases parseIstioRawVersion_cases raw with ⟨a, ha, e⟩ | ⟨_, r⟩
    · rw [e]; exact threeNumbers_group (Regex.lit "maistra-".toList) rfl raw a ha
    rcases r with ⟨a, ha, e⟩ | ⟨_, r⟩
    · rw [e]
      exact threeNumbers_group
        (Regex.alt (Regex.lit "Maistra_".toList)
          (Regex.seq (Regex.lit "openshift-istio".toList)
            (Regex.seq (Regex.star anyChar) (Regex.chr '-')))) rfl raw a ha
    rcases r with ⟨a, ha, e⟩ | ⟨_, r⟩
    · rw [e]
      exact threeNumbers_group
        (Regex.alt (Regex.lit "OSSM_".toList) (Regex.lit "openshift-service-mesh-".toList))
        rfl raw a ha
    rcases r with ⟨a, _, e⟩ | ⟨_, r⟩
    · rw [e] at h; dsimp only at h; exact absurd h (by decide)
    rcases r with ⟨a, _, e⟩ | ⟨_, r⟩
    · rw [e] at h; dsimp only at h; exact absurd h (by decide)
    rcases r with ⟨a, _, ⟨_, e⟩ | ⟨_, e⟩⟩ | ⟨_, r⟩
    · rw [e] at h; dsimp only at h; exact absurd h (by decide)
    · rw [e] at h; dsimp only at h; exact absurd h (by decide)
    rcases r with ⟨a, ha, e⟩ | ⟨_, e⟩
    · rw [e]; exact threeNumbers_group_only raw a ha
    · rw [e] at h; dsimp only at h; exact absurd h (by decide)
  obtain ⟨x, y, z, hv, hx, hy, hz, hsub⟩ := key
  exact ⟨x, y, z, by rw [hv]; simp, hx.1, hx.2, hy.1, hy.2, hz.1, hz.2, hsub⟩

set_option maxRecDepth 100000 in
/-- The documented OpenShift Service Mesh, Maistra project and Maistra product
versions yield 1.1.0, 1.1.0 and 0.1.0. -/
theorem parseIstioRawVersion_three_numbers_witness :
    (parseIstioRawVersion
        "OSSM_1.1.0-291c5419cf19d2b015e7e5dee970c458fb8f1982-Clean".toList =
      { Name := "OpenShift Service Mesh".toList, Version := "1.1.0".toList, Url := [] })
    ∧ (parseIstioRawVersion
        "Maistra_1.1.0-291c5419cf19d2b015e7e5dee970c458fb8f1982-Clean".toList =
      { Name := "Maistra Project".toList, Version := "1.1.0".toList, Url := [] })
    ∧ (parseIstioRawVersion
        "redhat@redhat-docker.io/maistra-0.1.0-1-3a136c90ec5e308f236e0d7ebb5c4c5e405217f4-unknown".toList =
      { Name := "Maistra".toList, Version := "0.1.0".toList, Url := [] })
    ∧ ∃ x y z : Str,
      (parseIstioRawVersion
        "OSSM_1.1.0-291c5419cf19d2b015e7e5dee970c458fb8f1982-Clean".toList).Version =
          x ++ ".".toList ++ y ++ ".".toList ++ z ∧
      x ≠ [] ∧ (∀ d ∈ x, digit d = true) ∧ y ≠ [] ∧ (∀ d ∈ y, digit d = true) ∧
      z ≠ [] ∧ (∀ d ∈ z, digit d = true) ∧
      (parseIstioRawVersion
        "OSSM_1.1.0-291c5419cf19d2b015e7e5dee970c458fb8f1982-Clean".toList).Version <:+:
          "OSSM_1.1.0-291c5419cf19d2b015e7e5dee970c458fb8f1982-Clean".toList :=
  ⟨by decide, by decide, by decide, parseIstioRawVersion_three_numbers _ (by decide)⟩

/-- C12. For every raw version string that matches none of the seven product
patterns, `parseIstioRawVersion` returns the raw string, unchanged, as the
version, together with the name `Unknown Istio Implementation`. -/
theorem parseIstioRawVersion_unknown (raw : Str)
    (h : ¬ maistraProductVersionExpr.MatchesIn raw ∧ ¬ maistraProjectVersionExpr.MatchesIn raw ∧
      ¬ ossmVersionExpr.MatchesIn raw ∧ ¬ istioSnapshotVersionExpr.MatchesIn raw ∧
      ¬ istioRCVersionExpr.MatchesIn raw ∧ ¬ istioDevVersionExpr.MatchesIn raw ∧
      ¬ istioVersionExpr.MatchesIn raw) :
    (parseIstioRawVersion raw).Version = raw
    ∧ (parseIstioRawVersion raw).Name = istioProductNameUnknown := by
  obtain ⟨h1, h2, h3, h4, h5, h6, h7⟩ := h
  rcases parseIstioRawVersion_cases raw with ⟨a, ha, _⟩ | ⟨_, r⟩
  · exact absurd (FindStringSubmatch_matches ha) h1
  rcases r with ⟨a, ha, _⟩ | ⟨_, r⟩
  · exact absurd (FindStringSubmatch_matches ha) h2
  rcases r with ⟨a, ha, _⟩ | ⟨_, r⟩
  · exact absurd (FindStringSubmatch_matches ha) h3
  rcases r with ⟨a, ha, _⟩ | ⟨_, r⟩
  · exact absurd (FindStringSubmatch_matches ha) h4
  rcases r with ⟨a, ha, _⟩ | ⟨_, r⟩
  · exact absurd (FindStringSubmatch_matches ha) h5
  rcases r with ⟨a, ha, _⟩ | ⟨_, r⟩
  · exact absurd (FindStringSubmatch_matches ha) h6
  rcases r with ⟨a, ha, _⟩ | ⟨_, e⟩
  · exact absurd (FindStringSubmatch_matches ha) h7
  · rw [e]
    exact ⟨rfl, rfl⟩

/-- The raw version `unknown-build` matches no pattern and is returned as it
is. -/
theorem parseIstioRawVersion_unknown_witness :
    (parseIstioRawVersion "unknown-build".toList).Version = "unknown-build".toList
    ∧ (parseIstioRawVersion "unknown-build".toList).Name = istioProductNameUnknown :=
  parseIstioRawVersion_unknown "unknown-build".toList
    ⟨(FindStringSubmatch_eq_none_iff _ _).mp (by decide),
     (FindStringSubmatch_eq_none_iff _ _).mp (by decide),
     (FindStringSubmatch_eq_none_iff _ _).mp (by decide),
     (FindStringSubmatch_eq_none_iff _ _).mp (by decide),
     (FindStringSubmatch_eq_none_iff _ _).mp (by decide),
     (FindStringSubmatch_eq_none_iff _ _).mp (by decide),
     (FindStringSubmatch_eq_none_iff _ _).mp (by decide)⟩

/-! ### The `X.Y` portion -/

theorem beforeDot_zero_append (y rest : Str) (hy : '.' ∉ y)
    (hrest : rest = [] ∨ ∃ t, rest = '.' :: t) : beforeDot 0 (y ++ rest) = y := by
  induction y with
  | nil =>
    rcases hrest with rfl | ⟨t, rfl⟩
    · rfl
    · simp [beforeDot]
  | cons c t ih =>
    have hc : c ≠ '.' := fun e => hy (e ▸ List.mem_cons_self _ _)
    have ht : '.' ∉ t := fun e => hy (List.mem_cons_of_mem _ e)
    show beforeDot 0 (c :: (t ++ rest)) = c :: t
    rw [beforeDot, if_neg hc, ih ht]

theorem beforeDot_one_append (x y rest : Str) (hx : '.' ∉ x) (hy : '.' ∉ y)
    (hrest : rest = [] ∨ ∃ t, rest = '.' :: t) :
    beforeDot 1 (x ++ '.' :: (y ++ rest)) = x ++ '.' :: y := by
  induction x with
  | nil =>
    show beforeDot 1 ('.' :: (y ++ rest)) = '.' :: y
    rw [beforeDot, if_pos rfl]
    show '.' :: beforeDot 0 (y ++ rest) = '.' :: y
    rw [beforeDot_zero_append y rest hy hrest]
  | cons c t ih =>
    have hc : c ≠ '.' := fun e => hx (e ▸ List.mem_cons_self _ _)
    have ht : '.' ∉ t := fun e => hx (List.mem_cons_of_mem _ e)
    show beforeDot 1 (c :: (t ++ '.' :: (y ++ rest))) = c :: (t ++ '.' :: y)
    rw [beforeDot, if_neg hc, ih ht]

theorem trimV_append_dot (x s : Str) : trimV (x ++ '.' :: s) = trimV x ++ '.' :: s := by
  cases x with
  | nil =>
    show (if '.' = 'v' then s else '.' :: s) = '.' :: s
    rw [if_neg (by decide)]
  | cons c t =>
    show (if c = 'v' then t ++ '.' :: s else c :: t ++ '.' :: s) =
      (if c = 'v' then t else c :: t) ++ '.' :: s
    split_ifs <;> rfl

theorem not_mem_trimV (x : Str) (hx : '.' ∉ x) : '.' ∉ trimV x := by
  cases x with
  | nil => exact hx
  | cons c t =>
    show '.' ∉ if c = 'v' then t else c :: t
    split_ifs
    · exact fun e => hx (List.mem_cons_of_mem _ e)
    · exact hx

/-- The `X.Y` portion of a version with at least two components. -/
theorem xyPortion_components (x y rest : Str) (hx : '.' ∉ x) (hy : '.' ∉ y)
    (hrest : rest = [] ∨ ∃ t, rest = '.' :: t) :
    xyPortion (x ++ ".".toList ++ y ++ rest) = trimV x ++ '.' :: y := by
  unfold xyPortion
  have e : x ++ ".".toList ++ y ++ rest = x ++ '.' :: (y ++ rest) := by simp
  rw [e, trimV_append_dot, beforeDot_one_append _ _ _ (not_mem_trimV x hx) hy hrest]

theorem xyPortion_v (s : Str) (hs : s.head? ≠ some 'v') : xyPortion ('v' :: s) = xyPortion s := by
  unfold xyPortion
  have e1 : trimV ('v' :: s) = s := by
    show (if 'v' = 'v' then s else 'v' :: s) = s
    rw [if_pos rfl]
  have e2 : trimV s = s := by
    cases s with
    | nil => rfl
    | cons c t =>
      show (if c = 'v' then t else c :: t) = c :: t
      rw [if_neg]
      intro hc
      exact hs (by rw [hc]; rfl)
  rw [e1, e2]

/-- The result of `checkOSSMVersion` depends on the two versions through their
`X.Y` portions only. -/
theorem checkOSSMVersion_congr (m : Option CompatibilityMatrix) (a b a1 b1 : Str)
    (ha : xyPortion a = xyPortion a1) (hb : xyPortion b = xyPortion b1) :
    checkOSSMVersion m a b = checkOSSMVersion m a1 b1 := by
  cases m with
  | none => rfl
  | some matrix =>
    rw [Bool.eq_iff_iff, checkOSSMVersion_iff, checkOSSMVersion_iff, ha, hb]

/-- C13. `checkOSSMVersion` looks at the `X.Y` portion of both versions only
and strips a `v` prefix: for versions with at least two dot-separated
components, `x.y` followed by further components or none, replacing or
removing what follows the second component leaves the result unchanged, and so
does prefixing one `v` to a mesh or Kiali version that does not start with
`v`. -/
theorem checkOSSMVersion_xy_portion (m : Option CompatibilityMatrix)
    (x y r r1 kx ky q q1 : Str)
    (hx : '.' ∉ x) (hy : '.' ∉ y) (hkx : '.' ∉ kx) (hky : '.' ∉ ky)
    (hr : r = [] ∨ ∃ t, r = '.' :: t) (hr1 : r1 = [] ∨ ∃ t, r1 = '.' :: t)
    (hq : q = [] ∨ ∃ t, q = '.' :: t) (hq1 : q1 = [] ∨ ∃ t, q1 = '.' :: t) :
    checkOSSMVersion m (x ++ ".".toList ++ y ++ r) (kx ++ ".".toList ++ ky ++ q)
      = checkOSSMVersion m (x ++ ".".toList ++ y ++ r1) (kx ++ ".".toList ++ ky ++ q1)
    ∧ (x.head? ≠ some 'v' →
        checkOSSMVersion m ('v' :: (x ++ ".".toList ++ y ++ r)) (kx ++ ".".toList ++ ky ++ q)
          = checkOSSMVersion m (x ++ ".".toList ++ y ++ r) (kx ++ ".".toList ++ ky ++ q))
    ∧ (kx.head? ≠ some 'v' →
        checkOSSMVersion m (x ++ ".".toList ++ y ++ r) ('v' :: (kx ++ ".".toList ++ ky ++ q))
          = checkOSSMVersion m (x ++ ".".toList ++ y ++ r) (kx ++ ".".toList ++ ky ++ q)) := by
  refine ⟨?_, ?_, ?_⟩
  · apply checkOSSMVersion_congr
    · rw [xyPortion_components x y r hx hy hr, xyPortion_components x y r1 hx hy hr1]
    · rw [xyPortion_components kx ky q hkx hky hq, xyPortion_components kx ky q1 hkx hky hq1]
  · intro hv
    apply checkOSSMVersion_congr _ _ _ _ _ _ rfl
    apply xyPortion_v
    cases x with
    | nil => simp
    | cons c t => simpa using hv
  · intro hv
    apply checkOSSMVersion_congr _ _ _ _ _ rfl
    apply xyPortion_v
    cases kx with
    | nil => simp
    | cons c t => simpa using hv

/-- The versions `v2.3.1` and `v1.57.9` get the answer of `2.3` and `1.57`. -/
theorem checkOSSMVersion_xy_portion_witness :
    checkOSSMVersion (some ossmMatrix) "v2.3.1".toList "v1.57.9".toList
      = checkOSSMVersion (some ossmMatrix) "2.3".toList "1.57".toList
    ∧ checkOSSMVersion (some ossmMatrix) "2.3".toList "1.57".toList = true :=
  ⟨((checkOSSMVersion_xy_portion (some ossmMatrix) "2".toList "3".toList ".1".toList []
        "v1".toList "57".toList ".9".toList [] (by decide) (by decide) (by decide) (by decide)
        (Or.inr ⟨_, rfl⟩) (Or.inl rfl) (Or.inr ⟨_, rfl⟩) (Or.inl rfl)).2.1 (by decide)).trans
     (((checkOSSMVersion_xy_portion (some ossmMatrix) "2".toList "3".toList ".1".toList []
        "1".toList "57".toList ".9".toList [] (by decide) (by decide) (by decide) (by decide)
        (Or.inr ⟨_, rfl⟩) (Or.inl rfl) (Or.inr ⟨_, rfl⟩) (Or.inl rfl)).2.2 (by decide)).trans
      (checkOSSMVersion_xy_portion (some ossmMatrix) "2".toList "3".toList ".1".toList []
        "1".toList "57".toList ".9".toList [] (by decide) (by decide) (by decide) (by decide)
        (Or.inr ⟨_, rfl⟩) (Or.inl rfl) (Or.inr ⟨_, rfl⟩) (Or.inl rfl)).1),
   by decide⟩

/-! ## The compatibility check always returns -/

theorem validateVersion_isSome (lib : VersionLib) (op x v : Str) (hop : ' ' ∉ op) :
    ∃ b, validateVersion lib (op ++ ' ' :: x) v = some b := by
  unfold validateVersion
  rw [stringsSplit_append_sep _ _ _ hop]
  cases hs : stringsSplit x ' ' with
  | nil => exact absurd hs (stringsSplit_ne_nil _ _)
  | cons w ws =>
    simp only [List.get?_cons_succ, List.get?_cons_zero]
    cases lib.NewVersion w <;> cases lib.NewVersion v <;> simp only [exists_eq', Option.some.injEq]
    split_ifs <;> exact ⟨_, rfl⟩

theorem checkRange_isSome (lib : VersionLib) (low high fixed version : Str) :
    ∃ b, checkRange lib low high fixed version = some b := by
  unfold checkRange
  by_cases hf : fixed = []
  · rw [if_neg (not_not.mpr hf)]
    have h1 : ∃ b, (if low ≠ [] then validateVersion lib (">= ".toList ++ low) version
        else some true) = some b := by
      split_ifs
      · exact validateVersion_isSome lib ">=".toList low version (by decide)
      · exact ⟨true, rfl⟩
    have h2 : ∃ b, (if high ≠ [] then validateVersion lib ("<= ".toList ++ high) version
        else some true) = some b := by
      split_ifs
      · exact validateVersion_isSome lib "<=".toList high version (by decide)
      · exact ⟨true, rfl⟩
    obtain ⟨b1, e1⟩ := h1
    obtain ⟨b2, e2⟩ := h2
    rw [e1, e2]
    exact ⟨_, rfl⟩
  · rw [if_pos hf]
    exact validateVersion_isSome lib "==".toList fixed version (by decide)

theorem checkIstioVersion.fixedLoop_isSome (lib : VersionLib) (lo hi kv : Str) (fixed : List Str) :
    ∀ ok, ∃ b, checkIstioVersion.fixedLoop lib lo hi kv fixed ok = some b := by
  induction fixed with
  | nil => intro ok; exact ⟨ok, rfl⟩
  | cons f rest ih =>
    intro ok
    obtain ⟨b, hb⟩ := checkRange_isSome lib lo hi f kv
    unfold checkIstioVersion.fixedLoop
    simp only [hb, Option.bind_eq_bind, Option.some_bind]
    cases b with
    | true => exact ⟨true, by simp⟩
    | false => simpa using ih false

theorem checkIstioVersion.rangeLoop_isSome (lib : VersionLib) (iv kv : Str)
    (ranges : List VersionRange) :
    ∀ ok, ∃ b, checkIstioVersion.rangeLoop lib iv kv ranges ok = some b := by
  induction ranges with
  | nil => intro ok; exact ⟨ok, rfl⟩
  | cons r rest ih =>
    intro ok
    unfold checkIstioVersion.rangeLoop
    by_cases hc : stringsContains iv r.MeshVersion = true
    · simp only [hc, if_true]
      by_cases hl : r.KialiFixedVersion.length ≠ 0
      · obtain ⟨b, hb⟩ := checkIstioVersion.fixedLoop_isSome lib (TrimSpace r.KialiMinimumVersion)
          (TrimSpace r.KialiMaximumVersion) kv r.KialiFixedVersion ok
        rw [if_pos hl]
        simp only [hb, Option.bind_eq_bind, Option.some_bind]
        exact ih b
      · obtain ⟨b, hb⟩ := checkRange_isSome lib (TrimSpace r.KialiMinimumVersion)
          (TrimSpace r.KialiMaximumVersion) [] kv
        rw [if_neg hl]
        simp only [hb, Option.bind_eq_bind, Option.some_bind]
        cases b with
        | true => exact ⟨true, by simp⟩
        | false => simpa using ih false
    · simp only [hc]
      exact ih ok

theorem checkIstioVersion.matrixLoop_isSome (lib : VersionLib) (iv kv : Str)
    (matrix : List MeshCompatibility) :
    ∀ ok, ∃ b, checkIstioVersion.matrixLoop lib iv kv matrix ok = some b := by
  induction matrix with
  | nil => intro ok; exact ⟨ok, rfl⟩
  | cons e rest ih =>
    intro ok
    unfold checkIstioVersion.matrixLoop
    by_cases hn : e.MeshName = istioProductNameUpstream
    · obtain ⟨b, hb⟩ := checkIstioVersion.rangeLoop_isSome lib iv kv e.VersionRange ok
      simp only [hn, if_true, hb, Option.bind_eq_bind, Option.some_bind]
      exact ih b
    · simp only [hn, if_false]
      exact ih ok

/-- `CheckMeshVersion` returns: the index into the words of a requirement is
always in range. -/
theorem CheckMeshVersion_isSome (lib : VersionLib) (m : Option CompatibilityMatrix)
    (meshName meshVersion kialiVersion : Str) :
    ∃ b, CheckMeshVersion lib m meshName meshVersion kialiVersion = some b := by
  unfold CheckMeshVersion
  split_ifs
  · exact ⟨false, rfl⟩
  · cases m with
    | none => exact ⟨false, rfl⟩
    | some matrix => exact checkIstioVersion.matrixLoop_isSome lib _ _ matrix false
  · exact ⟨_, rfl⟩
  · exact ⟨false, rfl⟩

/-! ## istioVersion and the handlers -/

/-- C14. When the version endpoint answers without transport error and with a
status below 400, `CheckMeshVersion` returns on the parsed name and version;
when it rejects them, `istioVersion` returns no info and an error and appends
to the status warnings exactly one message, `Kiali [K] may not be compatible
with [NAME VERSION], and is not recommended. See kiali.io for version
compatibility`; when it accepts them, `istioVersion` returns the parsed info
with no error and leaves the status warnings as they are. -/
theorem istioVersion_compatibility (lib : VersionLib) (m : Option CompatibilityMatrix)
    (keys : StatusKeys) (httpGet : HttpResponse) (info : StatusInfo)
    (herr : httpGet.err = none) (hcode : httpGet.code < 400) :
    (∃ b, CheckMeshVersion lib m (parseIstioRawVersion httpGet.body).Name
        (parseIstioRawVersion httpGet.body).Version (GetStatus keys.CoreVersion info).1 = some b)
    ∧ (CheckMeshVersion lib m (parseIstioRawVersion httpGet.body).Name
        (parseIstioRawVersion httpGet.body).Version (GetStatus keys.CoreVersion info).1
          = some false →
        ∃ e info1, istioVersion lib m keys httpGet info = some ((none, some e), info1) ∧
          info1.WarningMessages = info.WarningMessages ++
            ["Kiali [".toList ++ (GetStatus keys.CoreVersion info).1 ++
              "] may not be compatible with [".toList ++
              (parseIstioRawVersion httpGet.body).Name ++ " ".toList ++
              (parseIstioRawVersion httpGet.body).Version ++
              "], and is not recommended. See kiali.io for version compatibility".toList])
    ∧ (CheckMeshVersion lib m (parseIstioRawVersion httpGet.body).Name
        (parseIstioRawVersion httpGet.body).Version (GetStatus keys.CoreVersion info).1
          = some true →
        ∃ info1, istioVersion lib m keys httpGet info
            = some ((some (parseIstioRawVersion httpGet.body), none), info1) ∧
          info1.WarningMessages = info.WarningMessages) := by
  have hc : ¬ httpGet.code ≥ 400 := by omega
  refine ⟨CheckMeshVersion_isSome _ _ _ _ _, ?_, ?_⟩
  · intro h
    unfold istioVersion
    simp only [herr, ne_eq, not_true_eq_false, if_false, hc, h]
    exact ⟨_, _, rfl, rfl⟩
  · intro h
    unfold istioVersion
    simp only [herr, ne_eq, not_true_eq_false, if_false, hc, h]
    exact ⟨_, rfl, rfl⟩

set_option maxRecDepth 100000 in
/-- With Kiali v1.57.3, the mesh `OSSM_2.3.0-…` is accepted by the matrix that
pairs mesh 2.3 with Kiali 1.57, and an unrecognised version is rejected with
one warning. -/
theorem istioVersion_compatibility_witness :
    (∃ info1, istioVersion dottedLib (some ossmMatrix) sampleKeys
        { body := "OSSM_2.3.0-291c5419-Clean".toList, code := 200, err := none } sampleInfo
          = some ((some (parseIstioRawVersion "OSSM_2.3.0-291c5419-Clean".toList), none), info1) ∧
        info1.WarningMessages = sampleInfo.WarningMessages)
    ∧ (∃ e info1, istioVersion dottedLib (some ossmMatrix) sampleKeys
        { body := "mesh".toList, code := 200, err := none } sampleInfo
          = some ((none, some e), info1) ∧
        info1.WarningMessages = sampleInfo.WarningMessages ++
          ["Kiali [".toList ++ (GetStatus sampleKeys.CoreVersion sampleInfo).1 ++
            "] may not be compatible with [".toList ++
            (parseIstioRawVersion "mesh".toList).Name ++ " ".toList ++
            (parseIstioRawVersion "mesh".toList).Version ++
            "], and is not recommended. See kiali.io for version compatibility".toList]) :=
  ⟨(istioVersion_compatibility dottedLib (some ossmMatrix) sampleKeys
      { body := "OSSM_2.3.0-291c5419-Clean".toList, code := 200, err := none } sampleInfo
      rfl (by decide)).2.2 (by decide),
   (istioVersion_compatibility dottedLib (some ossmMatrix) sampleKeys
      { body := "mesh".toList, code := 200, err := none } sampleInfo
      rfl (by decide)).2.1 (by decide)⟩

/-- C15 (the code departs from the claim). When the version endpoint answers
with status 404 and no transport error, `istioVersion` returns the error
`getting istio version returned error code [404]` and the status, its warning
list included, is unchanged; the transport-failure path, next to it, does
append a warning. -/
theorem istioVersion_error_code_no_warning (lib : VersionLib)
    (m : Option CompatibilityMatrix) (keys : StatusKeys) (body : Str) (info : StatusInfo)
    (e : GoError) :
    istioVersion lib m keys { body := body, code := 404, err := none } info
      = some ((none, some { format := "getting istio version returned error code [%d]".toList,
                            args := [404] }), info)
    ∧ ∃ info1 e1, istioVersion lib m keys { body := body, code := 404, err := some e } info
        = some ((none, some e1), info1) ∧
      info1.WarningMessages = info.WarningMessages ++
        ["failed to get mesh version, please check if url_service_version is configured correctly.".toList] := by
  constructor
  · unfold istioVersion
    simp
  · unfold istioVersion
    simp only [ne_eq, reduceCtorEq, not_false_eq_true, if_true]
    exact ⟨_, _, rfl, rfl⟩

/-- C16. When the business layer cannot be obtained (`getBusiness` returns an
error with message `e`), `AppList` writes one error response with status 500
and message `Apps initialization error: e` and does nothing else, and
`AppDetails` writes one error response with status 500 and message `Services
initialization error: e` and does nothing else: no call of `GetAppList` or
`GetAppDetails`, no response with status 200. -/
theorem AppList_AppDetails_business_error {Time AppListT AppDetailsT : Type}
    (env : HandlerEnv Time AppListT AppDetailsT) (r : Request) (e : Str)
    (h : env.getBusiness r = .error e) :
    AppList env r = [.RespondWithError 500 ("Apps initialization error: ".toList ++ e)]
    ∧ AppDetails env r = [.RespondWithError 500 ("Services initialization error: ".toList ++ e)] := by
  constructor
  · unfold AppList
    simp only [h]
  · unfold AppDetails
    simp only [h]

/-- Without a business layer both handlers answer 500 with their message. -/
theorem AppList_AppDetails_business_error_witness :
    AppList failingEnv { Vars := [], Query := [] }
      = [.RespondWithError 500 ("Apps initialization error: ".toList ++ "no client".toList)]
    ∧ AppDetails failingEnv { Vars := [], Query := [] }
      = [.RespondWithError 500 ("Services initialization error: ".toList ++ "no client".toList)] :=
  AppList_AppDetails_business_error failingEnv { Vars := [], Query := [] } "no client".toList rfl

/-! ## Istio references and pod logs -/

theorem filterUnique_foldl (refs : List IstioValidationKey) :
    ∀ acc : List IstioValidationKey, acc.Nodup →
      (refs.foldl (fun filtered ref => if ref ∈ filtered then filtered else filtered ++ [ref])
          acc).Nodup ∧
      ∀ k, k ∈ refs.foldl
          (fun filtered ref => if ref ∈ filtered then filtered else filtered ++ [ref]) acc ↔
        k ∈ acc ∨ k ∈ refs := by
  induction refs with
  | nil => intro acc h; exact ⟨h, fun k => by simp⟩
  | cons r rest ih =>
    intro acc h
    rw [List.foldl_cons]
    by_cases hr : r ∈ acc
    · rw [if_pos hr]
      obtain ⟨h1, h2⟩ := ih acc h
      refine ⟨h1, fun k => ?_⟩
      rw [h2, List.mem_cons]
      constructor
      · rintro (hk | hk)
        · exact Or.inl hk
        · exact Or.inr (Or.inr hk)
      · rintro (hk | rfl | hk)
        · exact Or.inl hk
        · exact Or.inl hr
        · exact Or.inr hk
    · rw [if_neg hr]
      have hnd : (acc ++ [r]).Nodup := by
        rw [List.nodup_append]
        refine ⟨h, List.nodup_singleton r, ?_⟩
        intro a ha hb
        rw [List.mem_singleton] at hb
        exact hr (hb ▸ ha)
      obtain ⟨h1, h2⟩ := ih (acc ++ [r]) hnd
      refine ⟨h1, fun k => ?_⟩
      rw [h2, List.mem_append, List.mem_singleton, List.mem_cons, or_assoc]

/-- C20. For every list of Istio validation keys, the list returned by
`FilterUniqueIstioReferences` has no two entries with the same object type,
namespace and name, and holds exactly the keys of the input, so as many
entries as the input has distinct keys; three references of which two are
equal give two. -/
theorem FilterUniqueIstioReferences_distinct (refs : List IstioValidationKey) :
    (FilterUniqueIstioReferences refs).Nodup
    ∧ (∀ k, k ∈ FilterUniqueIstioReferences refs ↔ k ∈ refs)
    ∧ (FilterUniqueIstioReferences refs).length = refs.toFinset.card
    ∧ (FilterUniqueIstioReferences
        [{ ObjectType := "t1".toList, Namespace := "ns1".toList, Name := "n1".toList },
         { ObjectType := "t1".toList, Namespace := "ns1".toList, Name := "n1".toList },
         { ObjectType := "t2".toList, Namespace := "ns2".toList, Name := "n2".toList }]).length
        = 2 := by
  obtain ⟨h1, h2⟩ := filterUnique_foldl refs [] List.nodup_nil
  have hmem : ∀ k, k ∈ FilterUniqueIstioReferences refs ↔ k ∈ refs := by
    intro k
    unfold FilterUniqueIstioReferences
    rw [h2]
    simp
  refine ⟨h1, hmem, ?_, by decide⟩
  have hset : (FilterUniqueIstioReferences refs).toFinset = refs.toFinset := by
    ext k
    rw [List.mem_toFinset, List.mem_toFinset, hmem]
  have hnd : (FilterUniqueIstioReferences refs).Nodup := h1
  rw [← hset, List.toFinset_card_of_nodup hnd]

theorem StreamPodLogs.loop_no_duration (opts : LogOptions) (hd : opts.Duration = none) :
    ∀ (entries : List LogEntry) (endTime : Option Int) (k : Nat),
      StreamPodLogs.loop opts endTime k entries =
        match opts.MaxLines with
        | some n => entries.take (n - k)
        | none => entries := by
  intro entries
  induction entries with
  | nil => intro endTime k; cases opts.MaxLines <;> simp [StreamPodLogs.loop]
  | cons e rest ih =>
    intro endTime k
    rw [StreamPodLogs.loop]
    cases hm : opts.MaxLines with
    | none =>
      have := ih endTime (k + 1)
      rw [hm] at this
      simp [hd, this]
    | some n =>
      have := ih endTime (k + 1)
      rw [hm] at this
      by_cases hk : k ≥ n
      · have h0 : n - k = 0 := by omega
        simp [hk, h0]
      · obtain ⟨j, hj⟩ : ∃ j, n - k = j + 1 := ⟨n - k - 1, by omega⟩
        have hj1 : n - (k + 1) = j := by omega
        simp [hk, hd, this, hj, hj1]

theorem StreamPodLogs.loop_duration (opts : LogOptions) (d : Int) (hd : opts.Duration = some d)
    (E : Int) : ∀ (entries : List LogEntry) (k : Nat),
      StreamPodLogs.loop opts (some E) k entries =
        match opts.MaxLines with
        | some n => (entries.takeWhile (fun e => decide (e.TimestampUnix ≤ E))).take (n - k)
        | none => entries.takeWhile (fun e => decide (e.TimestampUnix ≤ E)) := by
  intro entries
  induction entries with
  | nil => intro k; cases opts.MaxLines <;> simp [StreamPodLogs.loop]
  | cons e rest ih =>
    intro k
    rw [StreamPodLogs.loop]
    cases hm : opts.MaxLines with
    | none =>
      have := ih (k + 1)
      rw [hm] at this
      by_cases he : e.TimestampUnix ≤ E
      · have he1 : ¬ e.TimestampUnix > E := by omega
        simp [hd, this, he, he1, List.takeWhile_cons]
      · have he1 : e.TimestampUnix > E := by omega
        simp [hd, he, he1, List.takeWhile_cons]
    | some n =>
      have := ih (k + 1)
      rw [hm] at this
      by_cases hk : k ≥ n
      · have h0 : n - k = 0 := by omega
        simp [hk, h0]
      · obtain ⟨j, hj⟩ : ∃ j, n - k = j + 1 := ⟨n - k - 1, by omega⟩
        have hj1 : n - (k + 1) = j := by omega
        by_cases he : e.TimestampUnix ≤ E
        · have he1 : ¬ e.TimestampUnix > E := by omega
          simp [hk, hd, this, hj, hj1, he, he1, List.takeWhile_cons]
        · have he1 : e.TimestampUnix > E := by omega
          simp [hk, hd, he, he1, List.takeWhile_cons]

theorem StreamPodLogs.loop_start (opts : LogOptions) (d : Int) (hd : opts.Duration = some d)
    (first : LogEntry) (rest : List LogEntry) (k : Nat) :
    StreamPodLogs.loop opts none k (first :: rest) =
      StreamPodLogs.loop opts (some (first.TimestampUnix + d)) k (first :: rest) := by
  rw [StreamPodLogs.loop, StreamPodLogs.loop]
  simp [hd]

theorem takeWhile_eq_filter_of_ascending (E : Int) (entries : List LogEntry)
    (hasc : entries.Pairwise (fun a b => a.TimestampUnix ≤ b.TimestampUnix)) :
    entries.takeWhile (fun e => decide (e.TimestampUnix ≤ E)) =
      entries.filter (fun e => decide (e.TimestampUnix ≤ E)) := by
  induction entries with
  | nil => rfl
  | cons e rest ih =>
    rw [List.pairwise_cons] at hasc
    by_cases he : e.TimestampUnix ≤ E
    · simp [List.takeWhile_cons, List.filter_cons, he, ih hasc.2]
    · have hrest : rest.filter (fun e => decide (e.TimestampUnix ≤ E)) = [] := by
        rw [List.filter_eq_nil_iff]
        intro a ha
        have := hasc.1 a ha
        simp only [decide_eq_true_eq]
        omega
      simp [List.takeWhile_cons, List.filter_cons, he, hrest]

/-- The entries that `StreamPodLogs` sends: the longest run of entries from
the front of the stream that are inside the window, cut at `MaxLines`. -/
theorem StreamPodLogs_eq (opts : LogOptions) (entries : List LogEntry) :
    StreamPodLogs opts entries =
      firstLines opts
        (match opts.Duration, entries.head? with
         | some d, some first =>
           entries.takeWhile (fun e => decide (e.TimestampUnix ≤ first.TimestampUnix + d))
         | _, _ => entries) := by
  unfold StreamPodLogs firstLines
  cases hd : opts.Duration with
  | none =>
    rw [StreamPodLogs.loop_no_duration opts hd]
    cases opts.MaxLines <;> simp
  | some d =>
    cases entries with
    | nil => cases opts.MaxLines <;> simp [StreamPodLogs.loop]
    | cons first rest =>
      rw [StreamPodLogs.loop_start opts d hd, StreamPodLogs.loop_duration opts d hd]
      cases opts.MaxLines <;> simp

/-- C19. For every pod log stream with time stamps in ascending order,
`StreamPodLogs` returns a prefix of the entries in their order: the entries
whose time stamp is at most `Duration` after the time stamp of the first
entry (the bound included), and at most `MaxLines` of them when `MaxLines` is
set. -/
theorem StreamPodLogs_window (opts : LogOptions) (entries : List LogEntry)
    (hasc : entries.Pairwise (fun a b => a.TimestampUnix ≤ b.TimestampUnix)) :
    StreamPodLogs opts entries = firstLines opts (inWindow opts entries)
    ∧ StreamPodLogs opts entries <+: entries
    ∧ (∀ d first e, opts.Duration = some d → entries.head? = some first →
        e ∈ StreamPodLogs opts entries → e.TimestampUnix ≤ first.TimestampUnix + d)
    ∧ (∀ n, opts.MaxLines = some n → (StreamPodLogs opts entries).length ≤ n) := by
  have hwin : (match opts.Duration, entries.head? with
      | some d, some first =>
        entries.takeWhile (fun e => decide (e.TimestampUnix ≤ first.TimestampUnix + d))
      | _, _ => entries) = inWindow opts entries := by
    unfold inWindow
    cases opts.Duration with
    | none => rfl
    | some d =>
      cases entries.head? with
      | none => rfl
      | some first => exact takeWhile_eq_filter_of_ascending _ entries hasc
  have heq : StreamPodLogs opts entries = firstLines opts (inWindow opts entries) := by
    rw [StreamPodLogs_eq, hwin]
  have hsub : firstLines opts (inWindow opts entries) <+: inWindow opts entries := by
    unfold firstLines
    cases opts.MaxLines with
    | none => exact List.prefix_refl _
    | some n => exact List.take_prefix _ _
  refine ⟨heq, ?_, ?_, ?_⟩
  · rw [StreamPodLogs_eq]
    have h1 : ∀ l : List LogEntry, firstLines opts l <+: l := by
      intro l
      unfold firstLines
      cases opts.MaxLines with
      | none => exact List.prefix_refl _
      | some n => exact List.take_prefix _ _
    refine (h1 _).trans ?_
    cases opts.Duration with
    | none => exact List.prefix_refl _
    | some d =>
      cases entries.head? with
      | none => exact List.prefix_refl _
      | some first => exact List.takeWhile_prefix _
  · intro d first e hd hf he
    rw [heq] at he
    have he1 : e ∈ inWindow opts entries := hsub.subset he
    unfold inWindow at he1
    rw [hd, hf] at he1
    simpa using (List.mem_filter.mp he1).2
  · intro n hn
    rw [heq]
    unfold firstLines
    rw [hn]
    simp only [List.length_take]
    omega

/-- The log of four entries one hour apart: a window of 59 minutes gives one
entry, one hour two, two hours three, and six hours with at most two lines
give two. -/
theorem StreamPodLogs_window_witness :
    (StreamPodLogs { Duration := some 3540000, MaxLines := none } fakePodLogs).length = 1
    ∧ (StreamPodLogs { Duration := some 3600000, MaxLines := none } fakePodLogs).length = 2
    ∧ (StreamPodLogs { Duration := some 7200000, MaxLines := none } fakePodLogs).length = 3
    ∧ (StreamPodLogs { Duration := some 21600000, MaxLines := some 2 } fakePodLogs).length = 2
    ∧ StreamPodLogs { Duration := some 3600000, MaxLines := none } fakePodLogs
        = firstLines { Duration := some 3600000, MaxLines := none }
            (inWindow { Duration := some 3600000, MaxLines := none } fakePodLogs) :=
  ⟨by decide, by decide, by decide, by decide,
   (StreamPodLogs_window { Duration := some 3600000, MaxLines := none } fakePodLogs
      (by decide)).1⟩

/-! ## Workloads -/

theorem objectsOf_singleKind (kind K : Str) (cs : List KubeObject) (hK : K ∈ workloadKinds) :
    objectsOf (singleKind kind cs) K = if kind = K then cs else [] := by
  simp only [workloadKinds, List.mem_cons, List.mem_singleton, List.not_mem_nil, or_false] at hK
  rcases hK with rfl | rfl | rfl | rfl | rfl | rfl | rfl | rfl <;> rfl

theorem parentKind_spec (kind parent : Str) (h : parentKind kind = some parent) :
    parent ∈ workloadKinds ∧ parent ≠ kind := by
  unfold parentKind at h
  split_ifs at h with h1 h2 h3
  · obtain rfl := Option.some.inj h
    rw [h1]
    exact ⟨by decide, by decide⟩
  · obtain rfl := Option.some.inj h
    rw [h2]
    exact ⟨by decide, by decide⟩
  · obtain rfl := Option.some.inj h
    rw [h3]
    exact ⟨by decide, by decide⟩

/-- A controller whose parent kind has no listed object has no parent
reference, when the owner references stay inside the namespace. -/
theorem parentRef_none_of_ownersListed (ns : NamespaceObjects) (hown : ownersListed ns)
    (kind : Str) (hk : kind ∈ workloadKinds) (o : KubeObject) (ho : o ∈ objectsOf ns kind)
    (hempty : ∀ parent, parentKind kind = some parent → objectsOf ns parent = []) :
    parentRef kind o = none := by
  unfold parentRef
  cases hc : controllerRef o with
  | none => rfl
  | some ref =>
    cases hp : parentKind kind with
    | none => rfl
    | some parent =>
      by_cases hkind : ref.Kind = parent
      · exfalso
        have hmem : ref ∈ o.OwnerReferences := List.mem_of_find?_eq_some hc
        have hctrl : ref.Controller = true := by
          have := List.find?_some hc
          simpa using this
        obtain ⟨owner, howner, _⟩ := hown kind hk o ho ref hmem hctrl
          (hkind ▸ (parentKind_spec kind parent hp).1)
        rw [hkind, hempty parent hp] at howner
        exact absurd howner (List.not_mem_nil _)
      · simp only [hkind, if_false]

theorem flatten_map_ite {α : Type} (kind : Str) (L : List α) (l : List Str) (hl : l.Nodup)
    (hmem : kind ∈ l) :
    (l.map (fun K => if kind = K then L else [])).flatten = L := by
  induction l with
  | nil => exact absurd hmem (List.not_mem_nil _)
  | cons K rest ih =>
    rw [List.nodup_cons] at hl
    rw [List.map_cons, List.flatten_cons]
    by_cases hK : kind = K
    · have hrest : (rest.map (fun K => if kind = K then L else [])).flatten = [] := by
        rw [List.flatten_eq_nil_iff]
        intro x hx
        obtain ⟨K1, hK1, rfl⟩ := List.mem_map.mp hx
        have : kind ≠ K1 := fun e => hl.1 (hK ▸ e ▸ hK1)
        rw [if_neg this]
      rw [if_pos hK, hrest, List.append_nil]
    · rw [if_neg hK, List.nil_append]
      rcases List.mem_cons.mp hmem with h | h
      · exact absurd h hK
      · exact ih hl.2 h

/-- A controller has no parent reference when its controller reference, if it
has one, does not name the kind that manages its kind. -/
theorem parentRef_none_of_controllerRef (kind : Str) (c : KubeObject)
    (h : ∀ ref, controllerRef c = some ref → parentKind kind ≠ some ref.Kind) :
    parentRef kind c = none := by
  unfold parentRef
  cases hc : controllerRef c with
  | none => rfl
  | some ref =>
    cases hp : parentKind kind with
    | none => rfl
    | some parent =>
      have hne : ref.Kind ≠ parent := fun e => h ref hc (by rw [hp, e])
      simp only [hne, if_false]

/-- In a namespace of controllers of one kind, with no pods, the workloads are
those of the controllers that have no parent reference. -/
theorem GetWorkloadList_singleKind_eq (conf : IstioLabels) (kind : Str) (cs : List KubeObject)
    (hkind : kind ∈ workloadKinds) (htop : ∀ c ∈ cs, parentRef kind c = none) :
    GetWorkloadList conf (singleKind kind cs) = cs.map (fun c => mkWorkload conf kind c []) := by
  have hcw : ∀ K ∈ workloadKinds, controllerWorkloads conf (singleKind kind cs) K =
      if kind = K then cs.map (fun c => mkWorkload conf kind c []) else [] := by
    intro K hK
    unfold controllerWorkloads
    rw [objectsOf_singleKind kind K cs hK]
    by_cases hKk : kind = K
    · subst hKk
      rw [if_pos rfl, if_pos rfl]
      have : cs.filter (fun o => (parentRef kind o).isNone) = cs := by
        rw [List.filter_eq_self]
        intro c hc
        rw [htop c hc]
        rfl
      rw [this]
      rfl
    · rw [if_neg hKk, if_neg hKk]
      rfl
  unfold GetWorkloadList
  rw [List.map_congr_left hcw]
  have hpods : podWorkloads conf (singleKind kind cs) = [] := rfl
  rw [hpods, List.append_nil]
  exact flatten_map_ite kind _ workloadKinds (by decide) hkind

/-- C17, as amended. For every namespace that contains only the controllers
`cs` of a single kind (Deployment, ReplicaSet, ReplicationController,
DeploymentConfig, StatefulSet or DaemonSet) and no pods, and in which no
controller names as its controller a controller of the kind that manages its
kind (a Deployment for a ReplicaSet, a DeploymentConfig for a
ReplicationController; the other four kinds have no managing kind, for them
the condition always holds), `GetWorkloadList` returns exactly one workload per
controller, in the controllers' order, each with the controller's name, the
controller kind as its type, and the app and version flags true exactly when
the controller carries the app and the version label. -/
theorem GetWorkloadList_single_kind (conf : IstioLabels) (kind : Str) (cs : List KubeObject)
    (hkind : kind ∈ [DeploymentType, ReplicaSetType, ReplicationControllerType,
      DeploymentConfigType, StatefulSetType, DaemonSetType])
    (hown : ∀ c ∈ cs, ∀ ref, controllerRef c = some ref → parentKind kind ≠ some ref.Kind) :
    GetWorkloadList conf (singleKind kind cs) =
      cs.map (fun c =>
        { Name := c.Name, Type_ := kind, AppLabel := hasLabel c.Labels conf.AppLabelName,
          VersionLabel := hasLabel c.Labels conf.VersionLabelName, Pods := [] })
    ∧ (GetWorkloadList conf (singleKind kind cs)).length = cs.length := by
  have hk : kind ∈ workloadKinds := by
    simp only [List.mem_cons, List.mem_singleton, List.not_mem_nil, or_false] at hkind
    rcases hkind with rfl | rfl | rfl | rfl | rfl | rfl <;> decide
  have h := GetWorkloadList_singleKind_eq conf kind cs hk
    (fun c hc => parentRef_none_of_controllerRef kind c (hown c hc))
  refine ⟨h, ?_⟩
  rw [h, List.length_map]

/-- Three fake deployments give three workloads of type `Deployment` with the
label flags (true, false), (true, true) and (false, false), and three fake
replica sets without owner give three workloads of type `ReplicaSet`. -/
theorem GetWorkloadList_single_kind_witness :
    GetWorkloadList defaultLabels (singleKind DeploymentType fakeControllers) =
      [{ Name := "httpbin-v1".toList, Type_ := "Deployment".toList, AppLabel := true,
         VersionLabel := false, Pods := [] },
       { Name := "httpbin-v2".toList, Type_ := "Deployment".toList, AppLabel := true,
         VersionLabel := true, Pods := [] },
       { Name := "httpbin-v3".toList, Type_ := "Deployment".toList, AppLabel := false,
         VersionLabel := false, Pods := [] }]
    ∧ (GetWorkloadList defaultLabels (singleKind ReplicaSetType fakeControllers)).length = 3 :=
  ⟨(GetWorkloadList_single_kind defaultLabels DeploymentType fakeControllers (by decide)
      (fun _ _ ref _ => by
        show (none : Option Str) ≠ some ref.Kind
        exact fun h => Option.noConfusion h)).1.trans (by decide),
   (GetWorkloadList_single_kind defaultLabels ReplicaSetType fakeControllers (by decide)
      (by
        intro c hc ref href
        have hnone : ∀ o ∈ fakeControllers, controllerRef o = none := by decide
        rw [hnone c hc] at href
        exact Option.noConfusion href)).2⟩

/-- C17 fails as it is stated. The namespace that contains only one ReplicaSet,
which names the Deployment `details-v1` as its controller, and no pods, has no
workload: the ReplicaSet is left to its Deployment, which is not listed. -/
theorem GetWorkloadList_owned_replicaSet :
    GetWorkloadList defaultLabels (singleKind ReplicaSetType
      [{ Name := "details-v1-3618568057".toList,
         Labels := [("app".toList, "details".toList), ("version".toList, "v1".toList)],
         OwnerReferences :=
           [{ Kind := "Deployment".toList, Name := "details-v1".toList,
              Controller := true }] }]) = [] := by
  decide

theorem mem_GetWorkloadList (conf : IstioLabels) (ns : NamespaceObjects) (w : Workload) :
    w ∈ GetWorkloadList conf ns ↔
      (∃ K ∈ workloadKinds, ∃ o ∈ objectsOf ns K, parentRef K o = none ∧
        w = mkWorkload conf K o (podsOf ns K o.Name)) ∨
      (∃ q ∈ ns.Pods, controllerRef q = none ∧ w = mkWorkload conf PodType q [q]) := by
  unfold GetWorkloadList
  rw [List.mem_append, List.mem_flatten]
  constructor
  · rintro (⟨l, hl, hw⟩ | hw)
    · obtain ⟨K, hK, rfl⟩ := List.mem_map.mp hl
      obtain ⟨o, ho, rfl⟩ := List.mem_map.mp hw
      obtain ⟨ho1, ho2⟩ := List.mem_filter.mp ho
      exact Or.inl ⟨K, hK, o, ho1, Option.isNone_iff_eq_none.mp ho2, rfl⟩
    · obtain ⟨q, hq, rfl⟩ := List.mem_map.mp hw
      obtain ⟨hq1, hq2⟩ := List.mem_filter.mp hq
      exact Or.inr ⟨q, hq1, Option.isNone_iff_eq_none.mp hq2, rfl⟩
  · rintro (⟨K, hK, o, ho, htop, rfl⟩ | ⟨q, hq, hc, rfl⟩)
    · refine Or.inl ⟨_, List.mem_map.mpr ⟨K, hK, rfl⟩, ?_⟩
      exact List.mem_map.mpr ⟨o, List.mem_filter.mpr ⟨ho, by rw [htop]; rfl⟩, rfl⟩
    · exact Or.inr (List.mem_map.mpr ⟨q, List.mem_filter.mpr ⟨hq, by rw [hc]; rfl⟩, rfl⟩)

theorem eq_of_name_eq (l : List KubeObject) (hl : (l.map KubeObject.Name).Nodup)
    (a b : KubeObject) (ha : a ∈ l) (hb : b ∈ l) (h : a.Name = b.Name) : a = b :=
  List.inj_on_of_nodup_map hl ha hb h

theorem filter_name_eq (l : List KubeObject) (hl : (l.map KubeObject.Name).Nodup)
    (d : KubeObject) (hd : d ∈ l) (name : Str) (hname : name = d.Name) :
    l.filter (fun o => decide (o.Name = name)) = [d] := by
  subst hname
  induction l with
  | nil => exact absurd hd (List.not_mem_nil _)
  | cons a rest ih =>
    rw [List.map_cons, List.nodup_cons] at hl
    by_cases ha : a.Name = d.Name
    · have had : a = d := by
        rcases List.mem_cons.mp hd with h | h
        · exact h.symm
        · exact absurd (List.mem_map.mpr ⟨d, h, ha.symm⟩) hl.1
      subst had
      have hrest : rest.filter (fun o => decide (o.Name = a.Name)) = [] := by
        rw [List.filter_eq_nil_iff]
        intro o ho
        simp only [decide_eq_true_eq]
        intro hoa
        exact hl.1 (List.mem_map.mpr ⟨o, ho, hoa⟩)
      rw [List.filter_cons, hrest]
      simp
    · have hd1 : d ∈ rest := by
        rcases List.mem_cons.mp hd with h | h
        · exact absurd (h ▸ rfl) ha
        · exact h
      rw [List.filter_cons]
      simp only [ha, decide_False, Bool.false_eq_true, if_false]
      exact ih hl.2 hd1

/-- The controller under which a pod of a ReplicaSet of a Deployment is
grouped is the Deployment. -/
theorem owningController_of_replicaSet (ns : NamespaceObjects) (d r p : KubeObject)
    (hr : r ∈ ns.ReplicaSets)
    (hrd : ∃ ref, controllerRef r = some ref ∧ ref.Kind = DeploymentType ∧ ref.Name = d.Name)
    (hpr : ∃ ref, controllerRef p = some ref ∧ ref.Kind = ReplicaSetType ∧ ref.Name = r.Name)
    (hrn : (ns.ReplicaSets.map KubeObject.Name).Nodup) :
    owningController ns p = some (DeploymentType, d.Name) := by
  obtain ⟨rref, hrc, hrk, hrname⟩ := hrd
  obtain ⟨pref, hpc, hpk, hpname⟩ := hpr
  unfold owningController
  rw [hpc]
  simp only [hpk]
  have hobj : objectsOf ns ReplicaSetType = ns.ReplicaSets := rfl
  rw [hobj]
  have hfind : ns.ReplicaSets.find? (fun o => decide (o.Name = pref.Name)) = some r := by
    cases hf : ns.ReplicaSets.find? (fun o => decide (o.Name = pref.Name)) with
    | none =>
      have := List.find?_eq_none.mp hf r hr
      simp [hpname] at this
    | some r1 =>
      have h1 : r1 ∈ ns.ReplicaSets := List.mem_of_find?_eq_some hf
      have h2 : r1.Name = pref.Name := by
        have := List.find?_some hf
        simpa using this
      rw [eq_of_name_eq _ hrn r1 r h1 hr (h2.trans hpname)]
  rw [hfind]
  dsimp only
  have hparent : parentRef ReplicaSetType r = some rref := by
    unfold parentRef
    rw [hrc]
    have : parentKind ReplicaSetType = some DeploymentType := rfl
    rw [this]
    simp only [hrk, if_true]
  rw [hparent]
  dsimp only
  rw [hrk, hrname]

theorem parentRef_deployment (o : KubeObject) : parentRef DeploymentType o = none := by
  unfold parentRef
  have : parentKind DeploymentType = none := rfl
  rw [this]
  cases controllerRef o <;> rfl

/-- C18. Pods are grouped under their owning controller. Whenever a pod is
owned by a ReplicaSet that is itself owned by a Deployment (the three are
listed, and names are unique within their kind), exactly one workload of the
list holds the pod, the workload named after the Deployment with type
`Deployment`; no workload of type `ReplicaSet` is named after the ReplicaSet
and no workload of type `Pod` after the pod; `GetWorkload` for the
Deployment's name returns a workload of type `Deployment`. A pod with no
controller is reported as a workload of type `Pod` named after the pod. -/
theorem GetWorkloadList_groups_pods (conf : IstioLabels) (ns : NamespaceObjects)
    (d r p : KubeObject)
    (hd : d ∈ ns.Deployments) (hr : r ∈ ns.ReplicaSets) (hp : p ∈ ns.Pods)
    (hrd : ∃ ref, controllerRef r = some ref ∧ ref.Kind = DeploymentType ∧ ref.Name = d.Name)
    (hpr : ∃ ref, controllerRef p = some ref ∧ ref.Kind = ReplicaSetType ∧ ref.Name = r.Name)
    (hdn : (ns.Deployments.map KubeObject.Name).Nodup)
    (hrn : (ns.ReplicaSets.map KubeObject.Name).Nodup)
    (hpn : (ns.Pods.map KubeObject.Name).Nodup) :
    (GetWorkloadList conf ns).filter (fun w => decide (p ∈ w.Pods))
      = [{ Name := d.Name, Type_ := DeploymentType,
           AppLabel := hasLabel d.Labels conf.AppLabelName,
           VersionLabel := hasLabel d.Labels conf.VersionLabelName,
           Pods := podsOf ns DeploymentType d.Name }]
    ∧ p ∈ podsOf ns DeploymentType d.Name
    ∧ (∀ w ∈ GetWorkloadList conf ns, ¬ (w.Type_ = ReplicaSetType ∧ w.Name = r.Name))
    ∧ (∀ w ∈ GetWorkloadList conf ns, ¬ (w.Type_ = PodType ∧ w.Name = p.Name))
    ∧ (∃ w, GetWorkload conf ns d.Name = some w ∧ w.Type_ = DeploymentType)
    ∧ (∀ q ∈ ns.Pods, controllerRef q = none →
        ({ Name := q.Name, Type_ := PodType, AppLabel := hasLabel q.Labels conf.AppLabelName,
           VersionLabel := hasLabel q.Labels conf.VersionLabelName, Pods := [q] } : Workload)
          ∈ GetWorkloadList conf ns) := by
  have hown := owningController_of_replicaSet ns d r p hr hrd hpr hrn
  have hpods : ∀ K name, p ∈ podsOf ns K name ↔ (K = DeploymentType ∧ name = d.Name) := by
    intro K name
    unfold podsOf
    rw [List.mem_filter, hown]
    simp only [decide_eq_true_eq, Option.some.injEq, Prod.mk.injEq]
    constructor
    · rintro ⟨_, h1, h2⟩
      exact ⟨h1.symm, h2.symm⟩
    · rintro ⟨rfl, rfl⟩
      exact ⟨hp, rfl, rfl⟩
  have hpc : controllerRef p ≠ none := by
    obtain ⟨ref, h, _⟩ := hpr
    rw [h]
    exact Option.some_ne_none _
  have hcw : ∀ K ∈ workloadKinds,
      (controllerWorkloads conf ns K).filter (fun w => decide (p ∈ w.Pods)) =
        if K = DeploymentType then
          [mkWorkload conf DeploymentType d (podsOf ns DeploymentType d.Name)]
        else [] := by
    intro K _
    unfold controllerWorkloads
    rw [List.filter_map]
    by_cases hK : K = DeploymentType
    · subst hK
      rw [if_pos rfl]
      have hobj : objectsOf ns DeploymentType = ns.Deployments := rfl
      have hall : (objectsOf ns DeploymentType).filter
          (fun o => (parentRef DeploymentType o).isNone) = ns.Deployments := by
        rw [hobj, List.filter_eq_self]
        intro o _
        rw [parentRef_deployment]
        rfl
      rw [hall]
      have hfun : ((fun w : Workload => decide (p ∈ w.Pods)) ∘
          fun o => mkWorkload conf DeploymentType o (podsOf ns DeploymentType o.Name)) =
          fun o => decide (o.Name = d.Name) := by
        funext o
        show decide (p ∈ podsOf ns DeploymentType o.Name) = decide (o.Name = d.Name)
        rw [decide_eq_decide, hpods]
        simp
      rw [hfun, filter_name_eq ns.Deployments hdn d hd d.Name rfl]
      rfl
    · rw [if_neg hK]
      have : List.filter ((fun w : Workload => decide (p ∈ w.Pods)) ∘
          fun o => mkWorkload conf K o (podsOf ns K o.Name))
          ((objectsOf ns K).filter (fun o => (parentRef K o).isNone)) = [] := by
        rw [List.filter_eq_nil_iff]
        intro o _
        show ¬ decide (p ∈ podsOf ns K o.Name) = true
        rw [decide_eq_true_eq, hpods]
        exact fun h => hK h.1
      rw [this]
      rfl
  have hpw : (podWorkloads conf ns).filter (fun w => decide (p ∈ w.Pods)) = [] := by
    rw [List.filter_eq_nil_iff]
    intro w hw
    unfold podWorkloads at hw
    obtain ⟨q, hq, rfl⟩ := List.mem_map.mp hw
    obtain ⟨_, hq2⟩ := List.mem_filter.mp hq
    show ¬ decide (p ∈ [q]) = true
    rw [decide_eq_true_eq, List.mem_singleton]
    rintro rfl
    exact hpc (Option.isNone_iff_eq_none.mp hq2)
  refine ⟨?_, (hpods _ _).mpr ⟨rfl, rfl⟩, ?_, ?_, ?_, ?_⟩
  · unfold GetWorkloadList
    rw [List.filter_append, hpw, List.append_nil]
    simp only [workloadKinds, List.map_cons, List.map_nil, List.flatten_cons, List.flatten_nil,
      List.filter_append, List.filter_nil]
    rw [hcw DeploymentType (by decide), hcw ReplicaSetType (by decide),
      hcw StatefulSetType (by decide), hcw DaemonSetType (by decide), hcw JobType (by decide),
      hcw CronJobType (by decide), hcw ReplicationControllerType (by decide),
      hcw DeploymentConfigType (by decide)]
    rw [if_pos rfl, if_neg (by decide), if_neg (by decide), if_neg (by decide),
      if_neg (by decide), if_neg (by decide), if_neg (by decide), if_neg (by decide)]
    rfl
  · intro w hw ⟨ht, hn⟩
    rcases (mem_GetWorkloadList conf ns w).mp hw with
      ⟨K, _, o, ho, htop, rfl⟩ | ⟨q, _, _, rfl⟩
    · have hK : K = ReplicaSetType := ht
      subst hK
      have ho1 : o ∈ ns.ReplicaSets := ho
      have hor : o = r := eq_of_name_eq _ hrn o r ho1 hr hn
      subst hor
      obtain ⟨ref, hrc, hrk, _⟩ := hrd
      unfold parentRef at htop
      rw [hrc] at htop
      have : parentKind ReplicaSetType = some DeploymentType := rfl
      rw [this] at htop
      simp only [hrk, if_true] at htop
      exact absurd htop (Option.some_ne_none _)
    · exact absurd (show PodType = ReplicaSetType from ht) (by decide)
  · intro w hw ⟨ht, hn⟩
    rcases (mem_GetWorkloadList conf ns w).mp hw with
      ⟨K, hK, o, _, _, rfl⟩ | ⟨q, hq, hc, rfl⟩
    · have hK1 : K = PodType := ht
      subst hK1
      exact absurd hK (by decide)
    · have hqp : q = p := eq_of_name_eq _ hpn q p hq hp hn
      subst hqp
      exact hpc hc
  · unfold GetWorkload GetWorkloadList
    have hsec : (workloadKinds.map (controllerWorkloads conf ns)).flatten =
        controllerWorkloads conf ns DeploymentType ++
          ((workloadKinds.tail).map (controllerWorkloads conf ns)).flatten := rfl
    rw [hsec, List.append_assoc, List.find?_append]
    have hdw : mkWorkload conf DeploymentType d (podsOf ns DeploymentType d.Name) ∈
        controllerWorkloads conf ns DeploymentType := by
      unfold controllerWorkloads
      refine List.mem_map.mpr ⟨d, List.mem_filter.mpr ⟨hd, ?_⟩, rfl⟩
      rw [parentRef_deployment]
      rfl
    cases hf : (controllerWorkloads conf ns DeploymentType).find?
        (fun w => decide (w.Name = d.Name)) with
    | none =>
      have := List.find?_eq_none.mp hf _ hdw
      simp [mkWorkload] at this
    | some w =>
      refine ⟨w, rfl, ?_⟩
      have hw : w ∈ controllerWorkloads conf ns DeploymentType := List.mem_of_find?_eq_some hf
      unfold controllerWorkloads at hw
      obtain ⟨o, _, rfl⟩ := List.mem_map.mp hw
      rfl
  · intro q hq hc
    exact (mem_GetWorkloadList conf ns _).mpr (Or.inr ⟨q, hq, hc, rfl⟩)

/-- In the namespace of the Deployment `details-v1`, its ReplicaSet, the pod
of that ReplicaSet and an orphan pod, the workloads are the Deployment, with
the pod, and the orphan pod; `GetWorkload` finds the Deployment. -/
theorem GetWorkloadList_groups_pods_witness :
    (GetWorkloadList defaultLabels fakeDetailsNamespace).map
        (fun w => (w.Name, w.Type_, w.AppLabel, w.VersionLabel, w.Pods.map KubeObject.Name))
      = [("details-v1".toList, "Deployment".toList, true, true,
            ["details-v1-3618568057-dnkjp".toList]),
         ("orphan-pod".toList, "Pod".toList, true, true, ["orphan-pod".toList])]
    ∧ ∃ w, GetWorkload defaultLabels fakeDetailsNamespace "details-v1".toList = some w ∧
        w.Type_ = DeploymentType :=
  ⟨by decide,
   (GetWorkloadList_groups_pods defaultLabels fakeDetailsNamespace
      { Name := "details-v1".toList,
        Labels := [("app".toList, "details".toList), ("version".toList, "v1".toList)],
        OwnerReferences := [] }
      { Name := "details-v1-3618568057".toList,
        Labels := [("app".toList, "details".toList), ("version".toList, "v1".toList)],
        OwnerReferences :=
          [{ Kind := "Deployment".toList, Name := "details-v1".toList, Controller := true }] }
      { Name := "details-v1-3618568057-dnkjp".toList,
        Labels := [("app".toList, "details".toList), ("version".toList, "v1".toList)],
        OwnerReferences :=
          [{ Kind := "ReplicaSet".toList, Name := "details-v1-3618568057".toList,
             Controller := true }] }
      (by decide) (by decide) (by decide)
      ⟨_, rfl, rfl, rfl⟩ ⟨_, rfl, rfl, rfl⟩ (by decide) (by decide) (by decide)).2.2.2.2.1⟩

/-! ## Query parameters of the app handlers -/

/-- The value that `url.Values.Get` returns is non-empty exactly when the key
has a first value and that value is non-empty. -/
theorem valuesGet_ne_nil_iff (query : List (Str × List Str)) (key : Str) :
    valuesGet query key ≠ [] ↔ ∃ v vs, query.lookup key = some (v :: vs) ∧ v ≠ [] := by
  unfold valuesGet
  cases h : query.lookup key with
  | none => simp
  | some l =>
    cases l with
    | nil => simp
    | cons v vs => simp

/-- C21. `appParams.extract` sets `IncludeHealth` to true exactly when the
query has a `health` parameter whose first value is non-empty, and to false
exactly when the parameter is absent, has no value, or has an empty first
value; the first value `false` enables health like any other non-empty
value. -/
theorem appParams_extract_IncludeHealth {Time AppListT AppDetailsT : Type}
    (env : HandlerEnv Time AppListT AppDetailsT) (r : Request) :
    ((appParams.extract env r).IncludeHealth = true ↔
        ∃ v vs, r.Query.lookup "health".toList = some (v :: vs) ∧ v ≠ [])
    ∧ ((appParams.extract env r).IncludeHealth = false ↔
        r.Query.lookup "health".toList = none ∨ r.Query.lookup "health".toList = some [] ∨
          ∃ vs, r.Query.lookup "health".toList = some ([] :: vs))
    ∧ (∀ vs, r.Query.lookup "health".toList = some ("false".toList :: vs) →
        (appParams.extract env r).IncludeHealth = true) := by
  have hdef : (appParams.extract env r).IncludeHealth
      = decide (valuesGet r.Query "health".toList ≠ []) := rfl
  have htrue : (appParams.extract env r).IncludeHealth = true ↔
      ∃ v vs, r.Query.lookup "health".toList = some (v :: vs) ∧ v ≠ [] := by
    rw [hdef, decide_eq_true_iff]
    exact valuesGet_ne_nil_iff _ _
  refine ⟨htrue, ?_, ?_⟩
  · rw [← Bool.not_eq_true, htrue]
    constructor
    · intro h
      cases hl : r.Query.lookup "health".toList with
      | none => exact Or.inl rfl
      | some l =>
        cases l with
        | nil => exact Or.inr (Or.inl rfl)
        | cons v vs =>
          cases v with
          | nil => exact Or.inr (Or.inr ⟨vs, rfl⟩)
          | cons c cs => exact absurd ⟨c :: cs, vs, hl, by simp⟩ h
    · rintro (h | h | ⟨vs, h⟩) ⟨v, ws, hv, hne⟩
      · rw [h] at hv; cases hv
      · rw [h] at hv; cases hv
      · rw [h] at hv; cases hv; exact hne rfl
  · intro vs h
    exact htrue.mpr ⟨_, vs, h, by decide⟩

/-- The query `health=false` enables health; `health=` and a query without the
parameter do not. -/
theorem appParams_extract_health_false :
    (appParams.extract failingEnv
        { Vars := [], Query := [("health".toList, ["false".toList])] }).IncludeHealth = true
    ∧ (appParams.extract failingEnv
        { Vars := [], Query := [("health".toList, ["".toList])] }).IncludeHealth = false
    ∧ (appParams.extract failingEnv { Vars := [], Query := [] }).IncludeHealth = false := by
  decide

/-! ## getVersions -/

/-- The fetcher `istioVersion` returns; its pair is never a nil record without
an error, and the list of external services is as before the call. -/
theorem istioVersion_returns (lib : VersionLib) (m : Option CompatibilityMatrix)
    (keys : StatusKeys) (httpGet : HttpResponse) (info : StatusInfo) :
    ∃ r s, istioVersion lib m keys httpGet info = some (r, s) ∧
      s.ExternalServices = info.ExternalServices ∧ r ≠ (none, none) := by
  obtain ⟨b, hb⟩ := CheckMeshVersion_isSome lib m (parseIstioRawVersion httpGet.body).Name
    (parseIstioRawVersion httpGet.body).Version (GetStatus keys.CoreVersion info).1
  unfold istioVersion
  dsimp only
  split_ifs
  · refine ⟨_, _, rfl, rfl, ?_⟩
    simp
  · refine ⟨_, _, rfl, rfl, ?_⟩
    simp
  · rw [hb]
    cases b
    · refine ⟨_, _, rfl, rfl, ?_⟩
      simp
    · refine ⟨_, _, rfl, rfl, ?_⟩
      simp

/-- The outcome of `prometheusVersion.fetch` does not depend on the status,
which it returns as it was. -/
theorem prometheusVersion.fetch_state {Q R Clientset : Type} (env : FetchEnv Q R Clientset)
    (auth : Auth) (a b : StatusInfo) :
    prometheusVersion.fetch env auth b
      = (prometheusVersion.fetch env auth a).map (fun p => (p.1, b)) := by
  unfold prometheusVersion.fetch
  dsimp only
  cases env.HttpGet (env.config.ExternalServices.Prometheus.URL ++ "/version".toList)
    (some auth) with
  | mk body code err =>
    cases err with
    | some e => rfl
    | none =>
      dsimp only
      cases env.Unmarshal body with
      | error e => rfl
      | ok v => cases v <;> rfl

/-- The outcome of `prometheusVersion` does not depend on the status, which it
returns as it was. -/
theorem prometheusVersion_state {Q R Clientset : Type} (env : FetchEnv Q R Clientset)
    (a b : StatusInfo) :
    prometheusVersion env b = (prometheusVersion env a).map (fun p => (p.1, b)) := by
  unfold prometheusVersion
  dsimp only
  split_ifs
  · cases env.GetKialiToken with
    | error e => rfl
    | ok token => exact prometheusVersion.fetch_state env _ a b
  · exact prometheusVersion.fetch_state env _ a b

/-- When `prometheusVersion.fetch` returns, its pair is not a nil record
without an error. -/
theorem prometheusVersion.fetch_ne {Q R Clientset : Type} (env : FetchEnv Q R Clientset)
    (auth : Auth) (a s : StatusInfo) (r : Option ExternalServiceInfo × Option GoError)
    (h : prometheusVersion.fetch env auth a = some (r, s)) : r ≠ (none, none) := by
  unfold prometheusVersion.fetch at h
  dsimp only at h
  cases hr : env.HttpGet (env.config.ExternalServices.Prometheus.URL ++ "/version".toList)
    (some auth) with
  | mk body code err =>
    rw [hr] at h
    cases err with
    | some e =>
      dsimp only at h
      cases h
      simp
    | none =>
      dsimp only at h
      cases hu : env.Unmarshal body with
      | error e => rw [hu] at h; dsimp only at h; cases h; simp
      | ok v =>
        rw [hu] at h
        cases v with
        | none => cases h
        | some v => dsimp only at h; cases h; simp

/-- When `prometheusVersion` returns, its pair is not a nil record without an
error. -/
theorem prometheusVersion_ne {Q R Clientset : Type} (env : FetchEnv Q R Clientset)
    (a s : StatusInfo) (r : Option ExternalServiceInfo × Option GoError)
    (h : prometheusVersion env a = some (r, s)) : r ≠ (none, none) := by
  unfold prometheusVersion at h
  dsimp only at h
  split_ifs at h
  · cases ht : env.GetKialiToken with
    | error e => rw [ht] at h; dsimp only at h; cases h; simp
    | ok token => rw [ht] at h; exact prometheusVersion.fetch_ne env _ a s r h
  · exact prometheusVersion.fetch_ne env _ a s r h

/-- The fetcher `kubernetesVersion` returns the same pair on every status,
never a nil record without an error, and the status as it was. -/
theorem kubernetesVersion_returns {Q R Clientset : Type} (env : FetchEnv Q R Clientset) :
    ∃ r, r ≠ (none, none) ∧ ∀ s, kubernetesVersion env s = some (r, s) := by
  unfold kubernetesVersion
  dsimp only
  cases env.ConfigClient with
  | error e => exact ⟨(none, some e), by simp, fun _ => rfl⟩
  | ok k8sConfig =>
    dsimp only
    cases env.NewForConfig
        { QPS := env.config.KubernetesConfig.QPS, Burst := env.config.KubernetesConfig.Burst,
          others := k8sConfig.others } with
    | error e => exact ⟨(none, some e), by simp, fun _ => rfl⟩
    | ok k8s =>
      dsimp only
      cases env.ServerVersion k8s with
      | error e => exact ⟨(none, some e), by simp, fun _ => rfl⟩
      | ok v => exact ⟨(some _, none), by simp, fun _ => rfl⟩

/-- A fetcher that panics makes `getVersionComponent` panic. -/
theorem getVersionComponent_none (f : externalService) (info : StatusInfo)
    (h : f info = none) : getVersionComponent f info = none := by
  unfold getVersionComponent
  rw [h]

/-- After a fetcher that returns, `getVersionComponent` leaves the status the
fetcher left, with the contribution of the returned pair appended to the list
of external services. -/
theorem getVersionComponent_some (f : externalService) (info s : StatusInfo)
    (r : Option ExternalServiceInfo × Option GoError)
    (h : f info = some (r, s)) (hr : r ≠ (none, none)) :
    getVersionComponent f info
      = some { s with ExternalServices := s.ExternalServices ++ contribution r } := by
  unfold getVersionComponent
  rw [h]
  obtain ⟨c, e⟩ := r
  cases e with
  | some e => simp [contribution]
  | none =>
    cases c with
    | none => exact absurd rfl hr
    | some c => simp [contribution]

/-- One round of the loop of `getVersions` on a fetcher that returns. -/
theorem getVersions.loop_cons_some (f : externalService) (rest : List externalService)
    (info s : StatusInfo) (r : Option ExternalServiceInfo × Option GoError)
    (h : f info = some (r, s)) (hr : r ≠ (none, none)) :
    getVersions.loop (f :: rest) info
      = getVersions.loop rest
          { s with ExternalServices := s.ExternalServices ++ contribution r } := by
  rw [getVersions.loop, getVersionComponent_some f info s r h hr]

/-- One round of the loop of `getVersions` on a fetcher that panics. -/
theorem getVersions.loop_cons_none (f : externalService) (rest : List externalService)
    (info : StatusInfo) (h : f info = none) :
    getVersions.loop (f :: rest) info = none := by
  rw [getVersions.loop, getVersionComponent_none f info h]

/-- The fetcher `jaegerVersion` returns the same pair on every status, with a
record when tracing is enabled, and the status as it was. -/
theorem jaegerVersion_returns {Q R Clientset : Type} (env : FetchEnv Q R Clientset) :
    ∃ r, (env.config.ExternalServices.Tracing.Enabled = true → r ≠ (none, none)) ∧
      ∀ s, jaegerVersion env s = some (r, s) := by
  unfold jaegerVersion
  dsimp only
  cases env.config.ExternalServices.Tracing.Enabled with
  | false => exact ⟨(none, none), fun h => Bool.noConfusion h, fun _ => rfl⟩
  | true => exact ⟨(some _, none), fun _ => (by simp), fun _ => rfl⟩

/-- The slice `components` of `getVersions`: the three fetchers that always
run, then the Grafana fetcher if Grafana is enabled, then the Jaeger fetcher
if tracing is enabled. -/
theorem getVersions.components_eq {Q R Clientset : Type} (lib : VersionLib)
    (m : Option CompatibilityMatrix) (keys : StatusKeys) (env : FetchEnv Q R Clientset) :
    getVersions.components lib m keys env =
      [istioVersion lib m keys
          (env.HttpGet env.config.ExternalServices.Istio.UrlServiceVersion none),
        prometheusVersion env, kubernetesVersion env]
        ++ (if env.config.ExternalServices.Grafana.Enabled then [grafanaVersion env] else [])
        ++ (if env.config.ExternalServices.Tracing.Enabled then [jaegerVersion env] else []) := by
  unfold getVersions.components
  dsimp only
  split_ifs <;> simp

/-- What `getVersions` does on every input. It runs the fetchers
`istioVersion`, `prometheusVersion`, `kubernetesVersion`, then `grafanaVersion`
only if Grafana is enabled, then `jaegerVersion` only if tracing is enabled, in
this order. The Istio fetcher always returns and the other fetchers do not
touch the status. When `prometheusVersion` panics, `getVersions` panics and
the later fetchers do not run. Otherwise `getVersions` returns the status that
the Istio fetcher left with, appended to the external services that were
there before the call, the records of those fetchers that ran and returned no
error, in the order of the fetchers. -/
theorem getVersions_appends {Q R Clientset : Type} (lib : VersionLib)
    (m : Option CompatibilityMatrix) (keys : StatusKeys) (env : FetchEnv Q R Clientset)
    (info : StatusInfo) :
    getVersions.components lib m keys env =
      [istioVersion lib m keys
          (env.HttpGet env.config.ExternalServices.Istio.UrlServiceVersion none),
        prometheusVersion env, kubernetesVersion env]
        ++ (if env.config.ExternalServices.Grafana.Enabled then [grafanaVersion env] else [])
        ++ (if env.config.ExternalServices.Tracing.Enabled then [jaegerVersion env] else [])
    ∧ ∃ r1 s1 r3 r4 r5,
        istioVersion lib m keys
          (env.HttpGet env.config.ExternalServices.Istio.UrlServiceVersion none) info
            = some (r1, s1) ∧
        s1.ExternalServices = info.ExternalServices ∧
        (∀ s, kubernetesVersion env s = some (r3, s)) ∧
        (∀ s, grafanaVersion env s = some (r4, s)) ∧
        (∀ s, jaegerVersion env s = some (r5, s)) ∧
        (((∀ s, prometheusVersion env s = none) ∧ getVersions lib m keys env info = none) ∨
          ∃ r2, (∀ s, prometheusVersion env s = some (r2, s)) ∧
            getVersions lib m keys env info =
              some { s1 with
                ExternalServices := info.ExternalServices ++
                  (contribution r1 ++ contribution r2 ++ contribution r3
                    ++ (if env.config.ExternalServices.Grafana.Enabled then contribution r4
                        else [])
                    ++ (if env.config.ExternalServices.Tracing.Enabled then contribution r5
                        else [])) }) := by
  refine ⟨getVersions.components_eq lib m keys env, ?_⟩
  obtain ⟨r1, s1, h1, hES, hr1⟩ := istioVersion_returns lib m keys
    (env.HttpGet env.config.ExternalServices.Istio.UrlServiceVersion none) info
  obtain ⟨r3, hr3, h3⟩ := kubernetesVersion_returns env
  obtain ⟨r5, hr5, h5⟩ := jaegerVersion_returns env
  have h4 : ∀ s, grafanaVersion env s
      = some ((some { Name := "Grafana".toList, Version := [], Url := env.DiscoverGrafana },
          none), s) := fun _ => rfl
  have hr4 : ((some { Name := "Grafana".toList, Version := [], Url := env.DiscoverGrafana },
      none) : Option ExternalServiceInfo × Option GoError) ≠ (none, none) := by simp
  refine ⟨r1, s1, r3, _, r5, h1, hES, h3, h4, h5, ?_⟩
  cases hp : prometheusVersion env info with
  | none =>
    have hp2 : ∀ s, prometheusVersion env s = none := fun s => by
      rw [prometheusVersion_state env info s, hp]; rfl
    refine Or.inl ⟨hp2, ?_⟩
    unfold getVersions
    rw [getVersions.components_eq, List.append_assoc, List.cons_append,
      getVersions.loop_cons_some _ _ _ _ _ h1 hr1, List.cons_append,
      getVersions.loop_cons_none _ _ _ (hp2 _)]
  | some p =>
    obtain ⟨r2, s2⟩ := p
    have hr2 : r2 ≠ (none, none) := prometheusVersion_ne env info s2 r2 hp
    have hp2 : ∀ s, prometheusVersion env s = some (r2, s) := fun s => by
      rw [prometheusVersion_state env info s, hp]; rfl
    refine Or.inr ⟨r2, hp2, ?_⟩
    unfold getVersions
    rw [getVersions.components_eq, List.append_assoc, List.cons_append,
      getVersions.loop_cons_some _ _ _ _ _ h1 hr1, List.cons_append,
      getVersions.loop_cons_some _ _ _ _ _ (hp2 _) hr2, List.cons_append,
      getVersions.loop_cons_some _ _ _ _ _ (h3 _) hr3, List.nil_append]
    by_cases hG : env.config.ExternalServices.Grafana.Enabled = true
    · by_cases hT : env.config.ExternalServices.Tracing.Enabled = true
      · rw [if_pos hG, if_pos hT, if_pos hG, if_pos hT, List.cons_append,
          getVersions.loop_cons_some _ _ _ _ _ (h4 _) hr4, List.nil_append,
          getVersions.loop_cons_some _ _ _ _ _ (h5 _) (hr5 hT), getVersions.loop]
        simp [hES, List.append_assoc]
      · rw [if_pos hG, if_neg hT, if_pos hG, if_neg hT, List.append_nil,
          getVersions.loop_cons_some _ _ _ _ _ (h4 _) hr4, getVersions.loop]
        simp [hES, List.append_assoc]
    · by_cases hT : env.config.ExternalServices.Tracing.Enabled = true
      · rw [if_neg hG, if_pos hT, if_neg hG, if_pos hT, List.nil_append,
          getVersions.loop_cons_some _ _ _ _ _ (h5 _) (hr5 hT), getVersions.loop]
        simp [hES, List.append_assoc]
      · rw [if_neg hG, if_neg hT, if_neg hG, if_neg hT, List.append_nil, getVersions.loop]
        simp [hES, List.append_assoc]

set_option maxRecDepth 100000 in
/-- With the sample environment, in which the Prometheus endpoint cannot be
reached and tracing is disabled, `getVersions` appends the records of the
mesh, of Kubernetes and of Grafana, in this order. -/
theorem getVersions_sample :
    (getVersions dottedLib (some ossmMatrix) sampleKeys sampleEnv sampleInfo).map
        (fun s => s.ExternalServices)
      = some [{ Name := "OpenShift Service Mesh".toList, Version := "2.3.0".toList, Url := [] },
              { Name := "Kubernetes".toList, Version := "v1.25.4".toList, Url := [] },
              { Name := "Grafana".toList, Version := [],
                Url := "http://grafana:3000".toList }] := by
  decide

set_option maxRecDepth 100000 in
/-- C22 (the code departs from the claim). When the Prometheus endpoint answers
with the JSON text `null`, `prometheusVersion` reads the field `Version`
through the nil pointer that `json.Unmarshal` left and panics, and so does
`getVersions`: it does not return, and the records of Kubernetes and Grafana,
whose fetchers would return one without error, are not appended. Next to it,
a failed `HttpGet` and a failed `json.Unmarshal` are returned as errors, which
`getVersionComponent` skips. -/
theorem getVersions_prometheus_null_body :
    getVersions dottedLib (some ossmMatrix) sampleKeys nullBodyEnv sampleInfo = none
    ∧ prometheusVersion nullBodyEnv sampleInfo = none
    ∧ (∃ record, kubernetesVersion nullBodyEnv sampleInfo
        = some ((some record, none), sampleInfo))
    ∧ (∃ record, grafanaVersion nullBodyEnv sampleInfo
        = some ((some record, none), sampleInfo))
    ∧ nullBodyEnv.config.ExternalServices.Grafana.Enabled = true := by
  refine ⟨by decide, by decide, ⟨_, rfl⟩, ⟨_, rfl⟩, rfl⟩

end Kiali
